import Mathlib

/-!
# Trillek virtual computer: memory bus and DCPU-16N engine

Shallow embedding of `VComputer` (include/VComputer.hpp) and of the DCPU-16N
engine (src/DCPU16N/DCPU16N.cpp).

Conventions of the embedding
* machine integers are `Nat` with an explicit reduction modulo `2^w` wherever
  the C++ type truncates (`byte_t` 8, `word_t` 16, `dword_t` 32 bits);
* an operation returns `none` exactly when the C++ code has no defined
  result at that point: an access outside the `ram` or `rom` buffer, or a
  shift by a count outside the width of the shifted type;
* raw pointer casts `((word_t*)tmp)[0]`, `((dword_t*)tmp)[0]` are read as
  little-endian byte sequences (the host byte order the emulator targets).
-/

namespace vm

/-! ## Memory bus (include/VComputer.hpp) -/

/-- Max ROM size. -/
def MAX_ROM_SIZE : Nat := 32 * 1024

/-- Max RAM size. -/
def MAX_RAM_SIZE : Nat := 1024 * 1024

/-- Width in bits of `std::size_t` on the host. -/
def SIZE_T_BITS : Nat := 64

/-- Subtraction `a - b` carried out in the unsigned type `std::size_t`:
the result wraps around modulo `2 ^ SIZE_T_BITS` when `b > a`. -/
def size_t_sub (a b : Nat) : Nat :=
  (a % 2 ^ SIZE_T_BITS + 2 ^ SIZE_T_BITS - b % 2 ^ SIZE_T_BITS) % 2 ^ SIZE_T_BITS

/-- Interface of an address listener, as the bus uses it.  The header
AddrListener.hpp is not part of the sources, so the six virtual methods are
taken as functions over the state `σ` of the objects behind the listener
pointers: a read gives the value returned and the new state, a write gives
the new state.  Arguments are `addr` then (for writes) `val`.  A listener acts
on that state only; it holds no reference to the RAM or ROM of the computer. -/
structure AddrListener (σ : Type) where
  ReadB : Nat → σ → Nat × σ
  ReadW : Nat → σ → Nat × σ
  ReadDW : Nat → σ → Nat × σ
  WriteB : Nat → Nat → σ → σ
  WriteW : Nat → Nat → σ → σ
  WriteDW : Nat → Nat → σ → σ

/-- The bus-facing members of `VComputer`.
* `ram`, `rom` give the byte stored at each offset of the two buffers; only
  offsets below `ram_size`, `rom_size` belong to the buffers (the constructor
  and `SetROM`, which set them up, are not part of the sources; the sizes are
  the ones the class records for them);
* `listeners a` is the result of `listeners.find(Range(a))` (`none` for
  `listeners.end()`); `Range` and its ordering live in AddrListener.hpp,
  which is not part of the sources, so the lookup is taken as a function;
* `devs` is the state of the objects the listener pointers refer to. -/
structure VComputer (σ : Type) where
  ram : Nat → Nat
  rom : Nat → Nat
  ram_size : Nat
  rom_size : Nat
  listeners : Nat → Option (AddrListener σ)
  devs : σ

/-- Load of one byte `ram[i]`; `none` when `i` is outside the buffer. -/
def VComputer.ramAt {σ : Type} (vc : VComputer σ) (i : Nat) : Option Nat :=
  if i < vc.ram_size then some (vc.ram i % 256) else none

/-- Load of one byte `rom[i]`; `none` when `i` is outside the buffer. -/
def VComputer.romAt {σ : Type} (vc : VComputer σ) (i : Nat) : Option Nat :=
  if i < vc.rom_size then some (vc.rom i % 256) else none

/-- Store of one byte `ram[i] = v`; `none` when `i` is outside the buffer. -/
def VComputer.ramPut {σ : Type} (vc : VComputer σ) (i v : Nat) : Option (VComputer σ) :=
  if i < vc.ram_size then
    some { vc with ram := fun j => if j = i then v % 256 else vc.ram j }
  else none

/-- Little-endian load of `n` bytes starting at offset `i` of `ram`. -/
def VComputer.ramLoad {σ : Type} (vc : VComputer σ) (i : Nat) : Nat → Option Nat
  | 0 => some 0
  | n + 1 =>
    (vc.ramAt i).bind fun b =>
    (vc.ramLoad (i + 1) n).bind fun rest => some (b + 256 * rest)

/-- Little-endian load of `n` bytes starting at offset `i` of `rom`. -/
def VComputer.romLoad {σ : Type} (vc : VComputer σ) (i : Nat) : Nat → Option Nat
  | 0 => some 0
  | n + 1 =>
    (vc.romAt i).bind fun b =>
    (vc.romLoad (i + 1) n).bind fun rest => some (b + 256 * rest)

/-- Little-endian store of the `n` low bytes of `v` starting at offset `i`
of `ram`. -/
def VComputer.ramStore {σ : Type} (vc : VComputer σ) (i v : Nat) : Nat → Option (VComputer σ)
  | 0 => some vc
  | n + 1 => (vc.ramPut i v).bind fun vc1 => vc1.ramStore (i + 1) (v / 256) n

/-- The tail shared by the three reads: look the address up among the
listeners and delegate, or return zero.  `w` is the width in bits of the
value returned. -/
def VComputer.listenerRead {σ : Type} (vc : VComputer σ)
    (rd : AddrListener σ → Nat → σ → Nat × σ) (w addr : Nat) : Nat × VComputer σ :=
  match vc.listeners addr with
  | some l => ((rd l addr vc.devs).1 % 2 ^ w, { vc with devs := (rd l addr vc.devs).2 })
  | none => (0, vc)

/-- The tail shared by the three writes: look the address up among the
listeners and pass the write on. -/
def VComputer.listenerWrite {σ : Type} (vc : VComputer σ)
    (wr : AddrListener σ → Nat → Nat → σ → σ) (w addr val : Nat) : VComputer σ :=
  match vc.listeners addr with
  | some l => { vc with devs := wr l addr (val % 2 ^ w) vc.devs }
  | none => vc

/-- Embedding of `VComputer::ReadB`. -/
def VComputer.ReadB {σ : Type} (vc : VComputer σ) (addr : Nat) : Option (Nat × VComputer σ) :=
  let addr := addr &&& 0x00FFFFFF
  if addr &&& 0xF00000 = 0 then
    (vc.ramAt addr).map fun v => (v, vc)
  else if addr &&& 0xFF0000 = 0x100000 then
    (vc.romAt (addr &&& 0x00FFFF)).map fun v => (v, vc)
  else
    some (vc.listenerRead AddrListener.ReadB 8 addr)

/-- Embedding of `VComputer::ReadW`. -/
def VComputer.ReadW {σ : Type} (vc : VComputer σ) (addr : Nat) : Option (Nat × VComputer σ) :=
  let addr := addr &&& 0x00FFFFFF
  if addr &&& 0xF00000 = 0 then
    (vc.ramLoad addr 2).map fun v => (v, vc)
  else if addr &&& 0xFF0000 = 0x100000 then
    (vc.romLoad (addr &&& 0x00FFFF) 2).map fun v => (v, vc)
  else
    some (vc.listenerRead AddrListener.ReadW 16 addr)

/-- Embedding of `VComputer::ReadDW`. -/
def VComputer.ReadDW {σ : Type} (vc : VComputer σ) (addr : Nat) : Option (Nat × VComputer σ) :=
  let addr := addr &&& 0x00FFFFFF
  if addr &&& 0xF00000 = 0 then
    (vc.ramLoad addr 4).map fun v => (v, vc)
  else if addr &&& 0xFF0000 = 0x100000 then
    (vc.romLoad (addr &&& 0x00FFFF) 4).map fun v => (v, vc)
  else
    some (vc.listenerRead AddrListener.ReadDW 32 addr)

/-- Embedding of `VComputer::WriteB`. -/
def VComputer.WriteB {σ : Type} (vc : VComputer σ) (addr val : Nat) : Option (VComputer σ) :=
  let addr := addr &&& 0x00FFFFFF
  (if addr < vc.ram_size then vc.ramStore addr val 1 else some vc).map fun vc1 =>
    vc1.listenerWrite AddrListener.WriteB 8 addr val

/-- Embedding of `VComputer::WriteW`; the guard is `addr < ram_size-1` with
the subtraction in `std::size_t`. -/
def VComputer.WriteW {σ : Type} (vc : VComputer σ) (addr val : Nat) : Option (VComputer σ) :=
  let addr := addr &&& 0x00FFFFFF
  (if addr < size_t_sub vc.ram_size 1 then vc.ramStore addr val 2 else some vc).map fun vc1 =>
    vc1.listenerWrite AddrListener.WriteW 16 addr val

/-- Embedding of `VComputer::WriteDW`; the guard is `addr < ram_size-3` with
the subtraction in `std::size_t`. -/
def VComputer.WriteDW {σ : Type} (vc : VComputer σ) (addr val : Nat) : Option (VComputer σ) :=
  let addr := addr &&& 0x00FFFFFF
  (if addr < size_t_sub vc.ram_size 3 then vc.ramStore addr val 4 else some vc).map fun vc1 =>
    vc1.listenerWrite AddrListener.WriteDW 32 addr val

/-! ## DCPU-16N engine (src/DCPU16N/DCPU16N.cpp) -/

namespace cpu

/-- Modelled from the spec: the phase constants `DCPU16N_PHASE_*`; the header
with their values is not part of the sources.  The spec lists the phases as
an enumerated value starting at `OPFETCH`; `OPFETCH` is the value `0` that
`Reset` stores in `phase` and that `Step` tests.  The member `phase` is only
ever assigned one of these constants, so the `default:` label of the switch
in `Tick` is never reached and has no counterpart here. -/
inductive Phase where
  | OPFETCH | NWAFETCH | NWBFETCH | UAREAD | ACUFETCH | UBREAD | BCUFETCH
  | EXEC | UBWRITE | BCUWRITE | EXECW | SLEEP | EXECSKIP | EXECJMP | EXECRFI
  deriving DecidableEq, Repr

/-- The data members of `DCPU16N` that `Reset` and `Tick` use (the class is
declared in DCPU16N.hpp, which is not part of the sources).  `r`, `pc`, `sp`,
`ex`, `ia`, `acu`, `bcu`, `opcl`, `fetchh`, `wrt` are 16-bit (`word_t`), `emu`,
`aca`, `bca`, `madraw` are 32-bit (`dword_t`).  `r` has 8 cells and `emu` 16;
they are indexed only through `& 0x7` and `& 0xf`. -/
structure DCPU16N where
  r : Nat → Nat
  pc : Nat
  sp : Nat
  ex : Nat
  ia : Nat
  emu : Nat → Nat
  iqp : Nat
  iqc : Nat
  madraw : Nat
  phase : Phase
  acu : Nat
  aca : Nat
  bcu : Nat
  bca : Nat
  opcl : Nat
  wrt : Nat
  fetchh : Nat
  addradd : Bool
  addrdec : Bool
  bytemode : Bool
  bytehigh : Bool
  skip : Bool
  fire : Bool
  qint : Bool
  cpu_clock : Nat

/-- Assignment `a[i] = v` on an array given as a function of the index. -/
def setCell (a : Nat → Nat) (i v : Nat) : Nat → Nat :=
  fun j => if j = i then v else a j

/-- The cast `(int16_t)x` of a 16-bit value. -/
def int16 (x : Nat) : Int :=
  if x % 65536 < 32768 then ((x % 65536 : Nat) : Int) else ((x % 65536 : Nat) : Int) - 65536

/-- The cast `(int32_t)x` of a 32-bit value. -/
def int32 (x : Nat) : Int :=
  if x % 2 ^ 32 < 2 ^ 31 then ((x % 2 ^ 32 : Nat) : Int) else ((x % 2 ^ 32 : Nat) : Int) - 2 ^ 32

/-- The cast `(word_t)z` of a signed value (two-complement truncation). -/
def toWord (z : Int) : Nat := (z % 65536).toNat

/-- Embedding of `DCPU16N::Reset`: the `for` loop over `emu[0..15]` followed
by the assignment `emu[0] = 0x00100000`. -/
def DCPU16N.Reset (s : DCPU16N) : DCPU16N :=
  { s with
    r := (List.range 8).foldl (fun a i => setCell a i 0) s.r
    pc := 0
    sp := 0
    ex := 0
    ia := 0
    emu := setCell ((List.range 16).foldl (fun e i => setCell e i (i <<< 12)) s.emu) 0 0x00100000
    iqp := 0
    iqc := 0
    madraw := 0
    phase := Phase.OPFETCH
    acu := 0
    aca := 0
    bcu := 0
    bca := 0
    opcl := 0
    wrt := 0
    fetchh := 0
    addradd := false
    addrdec := false
    bytemode := false
    bytehigh := false
    skip := false
    fire := false
    qint := false }

/-- Embedding of `DCPU16N::SendInterrupt`: the body is `return true;`. -/
def DCPU16N.SendInterrupt (s : DCPU16N) (_msg : Nat) : Bool × DCPU16N := (true, s)

/-- Embedding of `DCPU16N::IORead`. -/
def IORead {σ : Type} (vc : VComputer σ) (addr : Nat) : Option (Nat × VComputer σ) :=
  vc.ReadW (0x00110000 ||| addr)

/-- Embedding of `DCPU16N::IOWrite`. -/
def IOWrite {σ : Type} (vc : VComputer σ) (addr v : Nat) : Option (VComputer σ) :=
  vc.WriteW (0x00110000 ||| addr) v

/-- The address translation `emu[(x >> 12) & 0xf] | (x & 0x0fff)`. -/
def DCPU16N.emuAddr (s : DCPU16N) (x : Nat) : Nat :=
  s.emu ((x >>> 12) &&& 0xf) ||| (x &&& 0x0fff)

/-- The expression
`(((word_t)vcomp->ReadB(a + 1)) << 8) | (word_t)vcomp->ReadB(a)`, the left
operand evaluated first; `a + 1` is computed in `dword_t`. -/
def fetchWord {σ : Type} (vc : VComputer σ) (a : Nat) : Option (Nat × VComputer σ) :=
  (vc.ReadB ((a + 1) % 2 ^ 32)).bind fun hi =>
  (hi.2.ReadB a).bind fun lo => some (((hi.1 <<< 8) ||| lo.1) % 65536, lo.2)

/-- The code of `Tick` from the label `case DCPU16N_PHASE_BCUWRITE:` to its
`break`. -/
def DCPU16N.caseBCUWRITE {σ : Type} (s : DCPU16N) (vc : VComputer σ) :
    Option (DCPU16N × VComputer σ) :=
  if s.addrdec then
    (vc.WriteB ((s.bca + 1) % 2 ^ 32) ((s.bcu >>> 8) % 256)).bind fun vc1 =>
    (vc1.WriteB s.bca (s.bcu &&& 0x0ff)).bind fun vc2 =>
      some ({ s with addrdec := false }, vc2)
  else some (s, vc)

/-- The code of `Tick` from the label `case DCPU16N_PHASE_UBWRITE:`, falling
through into `BCUWRITE`. -/
def DCPU16N.caseUBWRITE {σ : Type} (s : DCPU16N) (vc : VComputer σ) :
    Option (DCPU16N × VComputer σ) :=
  let s1 : DCPU16N :=
    if s.wrt &&& 0x0100 ≠ 0 then
      if s.wrt &&& 0x0020 ≠ 0 then s
      else if s.wrt &&& 0x010 ≠ 0 then
        if s.wrt &&& 0x08 ≠ 0 then
          match s.wrt &&& 0x7 with
          | 0 => { s with addrdec := true }
          | 1 => { s with addrdec := true }
          | 2 => { s with addrdec := true }
          | 3 => { s with sp := s.bcu }
          | 4 => { s with pc := s.bcu }
          | 5 => { s with ex := s.bcu }
          | 6 => { s with addrdec := true }
          | _ => s
        else { s with addrdec := true }
      else
        if s.wrt &&& 0x08 ≠ 0 then { s with addrdec := true }
        else { s with r := setCell s.r (s.wrt &&& 0x7) s.bcu }
    else s
  s1.caseBCUWRITE vc

/-- The `switch(opcl & 0x001f)` of the `EXEC` phase (binary opcodes), entered
after `wrt = (opcl >> 5) & 0x1f`. -/
def DCPU16N.execBinary {σ : Type} (s0 : DCPU16N) (vc : VComputer σ) :
    Option (DCPU16N × VComputer σ) :=
  let s : DCPU16N := { s0 with wrt := (s0.opcl >>> 5) &&& 0x1f }
  let w : Nat := s.wrt ||| 0x100
  match s.opcl &&& 0x001f with
  | 0x01 => some ({ s with bcu := s.acu, wrt := w }, vc)
  | 0x02 =>
    let cfa := (s.bcu + s.acu) % 2 ^ 32
    some ({ s with bcu := cfa % 65536, ex := (cfa >>> 16) % 65536, wrt := w }, vc)
  | 0x03 =>
    let s32 := int16 s.bcu - int16 s.acu
    some ({ s with bcu := toWord s32, ex := toWord (s32 >>> 16), wrt := w }, vc)
  | 0x04 =>
    let cfa := (s.bcu * s.acu) % 2 ^ 32
    some ({ s with bcu := cfa % 65536, ex := (cfa >>> 16) % 65536, wrt := w }, vc)
  | 0x05 =>
    let s32 := int16 s.bcu * int16 s.acu
    some ({ s with bcu := toWord s32, ex := toWord (s32 >>> 16), wrt := w }, vc)
  | 0x06 =>
    if s.acu ≠ 0 then
      let cfa := ((s.bcu <<< 16) % 2 ^ 32) / s.acu
      some ({ s with ex := cfa % 65536, bcu := (cfa >>> 16) % 65536, wrt := w }, vc)
    else some ({ s with bcu := 0, ex := 0, wrt := w }, vc)
  | 0x07 =>
    if s.acu ≠ 0 then
      let ex1 : Nat :=
        if (int16 s.bcu).tmod (int16 s.acu) ≠ 0 then
          toWord ((int32 (s.bcu <<< 16)).tdiv (int16 s.acu))
        else 0
      some ({ s with ex := ex1, bcu := toWord ((int16 s.bcu).tdiv (int16 s.acu)), wrt := w }, vc)
    else some ({ s with bcu := 0, ex := 0, wrt := w }, vc)
  | 0x08 =>
    if s.acu ≠ 0 then some ({ s with bcu := s.bcu % s.acu, wrt := w }, vc)
    else some ({ s with bcu := 0, wrt := w }, vc)
  | 0x09 =>
    if s.acu ≠ 0 then
      some ({ s with bcu := toWord ((int16 s.bcu).tmod (int16 s.acu)), wrt := w }, vc)
    else some ({ s with bcu := 0, wrt := w }, vc)
  | 0x0a => some ({ s with bcu := s.bcu &&& s.acu, wrt := w }, vc)
  | 0x0b => some ({ s with bcu := s.bcu ||| s.acu, wrt := w }, vc)
  | 0x0c => some ({ s with bcu := s.bcu ^^^ s.acu, wrt := w }, vc)
  | 0x0d =>
    if s.acu < 32 then
      let cfa := ((s.bcu <<< 16) % 2 ^ 32) >>> s.acu
      some ({ s with ex := cfa % 65536, bcu := (cfa >>> 16) % 65536, wrt := w }, vc)
    else none
  | 0x0e =>
    if s.acu ≤ 16 then
      some ({ s with ex := (s.bcu <<< (16 - s.acu)) % 65536,
                     bcu := toWord (int16 s.bcu >>> s.acu), wrt := w }, vc)
    else none
  | 0x0f =>
    if s.acu < 32 then
      let cfa := (s.bcu <<< s.acu) % 2 ^ 32
      some ({ s with ex := (cfa >>> 16) % 65536, bcu := cfa % 65536, wrt := w }, vc)
    else none
  | 0x10 =>
    if s.acu &&& s.bcu ≠ 0 then some ({ s with phase := Phase.EXECSKIP }, vc) else some (s, vc)
  | 0x11 =>
    if ¬ (s.acu &&& s.bcu ≠ 0) then some ({ s with phase := Phase.EXECSKIP }, vc) else some (s, vc)
  | 0x12 =>
    if ¬ (s.acu = s.bcu) then some ({ s with phase := Phase.EXECSKIP }, vc) else some (s, vc)
  | 0x13 =>
    if ¬ (s.acu ≠ s.bcu) then some ({ s with phase := Phase.EXECSKIP }, vc) else some (s, vc)
  | 0x14 =>
    if ¬ (s.bcu > s.acu) then some ({ s with phase := Phase.EXECSKIP }, vc) else some (s, vc)
  | 0x15 =>
    if ¬ (int16 s.bcu > int16 s.acu) then some ({ s with phase := Phase.EXECSKIP }, vc)
    else some (s, vc)
  | 0x16 =>
    if ¬ (s.bcu < s.acu) then some ({ s with phase := Phase.EXECSKIP }, vc) else some (s, vc)
  | 0x17 =>
    if ¬ (int16 s.bcu < int16 s.acu) then some ({ s with phase := Phase.EXECSKIP }, vc)
    else some (s, vc)
  | 0x1a =>
    let cfa := (s.bcu + (s.acu + s.ex)) % 2 ^ 32
    some ({ s with ex := (cfa >>> 16) % 65536, bcu := cfa % 65536, wrt := w }, vc)
  | 0x1b =>
    let cfa := (s.bcu + 2 ^ 32 - s.acu % 2 ^ 32 + s.ex) % 2 ^ 32
    some ({ s with ex := (cfa >>> 16) % 65536, bcu := cfa % 65536, wrt := w }, vc)
  | 0x1c => (IOWrite vc s.bcu s.acu).map fun vc1 => (s, vc1)
  | 0x1d =>
    (IORead vc s.bcu).map fun p => ({ s with bcu := p.1, wrt := (s.opcl >>> 10) ||| 0x100 }, p.2)
  | 0x1e =>
    let r1 := setCell s.r 6 ((s.r 6 + 1) % 65536)
    let r2 := setCell r1 7 ((r1 7 + 1) % 65536)
    some ({ s with bcu := s.acu, r := r2, wrt := w }, vc)
  | 0x1f =>
    let r1 := setCell s.r 6 ((s.r 6 + 65535) % 65536)
    let r2 := setCell r1 7 ((r1 7 + 65535) % 65536)
    some ({ s with bcu := s.acu, r := r2, wrt := w }, vc)
  | _ => some (s, vc)

/-- The `switch( (opcl >> 5) & 0x001f )` of the `EXEC` phase (unary opcodes),
with the two assignments `wrt = (opcl >> 10); bca = aca;` before it. -/
def DCPU16N.execUnary {σ : Type} (s0 : DCPU16N) (vc : VComputer σ) :
    Option (DCPU16N × VComputer σ) :=
  let s : DCPU16N := { s0 with wrt := s0.opcl >>> 10, bca := s0.aca }
  match (s.opcl >>> 5) &&& 0x001f with
  | 0x01 =>
    let sp1 := (s.sp + 65534) % 65536
    some ({ s with bcu := s.pc, phase := Phase.EXECJMP, sp := sp1,
                   bca := s.emuAddr sp1, wrt := 0x0118 }, vc)
  | 0x02 =>
    let sp1 := (s.sp + 65534) % 65536
    some ({ s with bcu := s.pc, phase := Phase.EXECJMP, sp := sp1,
                   acu := (s.acu + s.pc) % 65536,
                   bca := s.emuAddr sp1, wrt := 0x0118 }, vc)
  | 0x05 => some ({ s with wrt := s.wrt ||| 0x0100, bcu := toWord (-(int16 s.acu)) }, vc)
  | 0x07 => some ({ s with bcu := s.madraw % 65536, fire := true }, vc)
  | 0x08 => some ((s.SendInterrupt s.acu).2, vc)
  | 0x09 => some ({ s with wrt := s.wrt ||| 0x0100, bcu := s.ia }, vc)
  | 0x0a => some ({ s with ia := s.acu }, vc)
  | 0x0b => some ({ s with phase := Phase.EXECRFI }, vc)
  | 0x0c => some ({ s with qint := decide (s.acu ≠ 0) }, vc)
  | 0x10 =>
    some ({ s with emu := setCell s.emu (s.acu &&& 0x0f) (((s.acu &&& 0xfff0) <<< 12) % 2 ^ 32) }, vc)
  | 0x11 =>
    some ({ s with wrt := s.wrt ||| 0x0100,
                   bcu := ((s.emu (s.acu &&& 0x0f) >>> 12) ||| (s.acu &&& 0x0f)) % 65536 }, vc)
  | 0x14 =>
    some ({ s with wrt := s.wrt ||| 0x0100,
                   bcu := (toWord (-(((s.acu &&& 0x80 : Nat) : Int)))) ||| (s.acu &&& 0x00ff) }, vc)
  | 0x15 =>
    some ({ s with wrt := s.wrt ||| 0x0100,
                   bcu := ((s.acu >>> 8) &&& 0xff) ||| ((s.acu <<< 8) &&& 0xFF00) }, vc)
  | _ => some (s, vc)

/-- The `switch( (opcl >> 10) & 0x001f )` of the `EXEC` phase (opcodes without
operand), with the assignment `wrt = 0x003f;` before it. -/
def DCPU16N.execNullary {σ : Type} (s0 : DCPU16N) (vc : VComputer σ) :
    Option (DCPU16N × VComputer σ) :=
  let s : DCPU16N := { s0 with wrt := 0x003f }
  match (s.opcl >>> 10) &&& 0x001f with
  | 0x00 =>
    let s1 : DCPU16N := { s with bytemode := false }
    let s2 : DCPU16N := if s1.ia ≠ 0 ∧ s1.qint = false then (s1.SendInterrupt 0).2 else s1
    some ({ s2 with phase := Phase.SLEEP }, vc)
  | 0x01 => some ({ s with bytemode := false, phase := Phase.SLEEP }, vc)
  | 0x04 =>
    some ({ s with bytemode := !s.bytemode, bytehigh := decide (s.opcl &&& 0x8000 ≠ 0) }, vc)
  | 0x10 => some ({ s with phase := Phase.EXECSKIP }, vc)
  | _ => some (s, vc)

/-- The code of `Tick` from the label `case DCPU16N_PHASE_EXEC:`, falling
through into `UBWRITE`. -/
def DCPU16N.caseEXEC {σ : Type} (s0 : DCPU16N) (vc : VComputer σ) :
    Option (DCPU16N × VComputer σ) :=
  let s : DCPU16N := { s0 with phase := Phase.OPFETCH }
  (if s.opcl &&& 0x001f ≠ 0 then s.execBinary vc
   else if s.opcl &&& 0x03e0 ≠ 0 then s.execUnary vc
   else s.execNullary vc).bind fun p => p.1.caseUBWRITE p.2

/-- The code of `Tick` from the label `case DCPU16N_PHASE_BCUFETCH:`, falling
through into `EXEC`. -/
def DCPU16N.caseBCUFETCH {σ : Type} (s : DCPU16N) (vc : VComputer σ) :
    Option (DCPU16N × VComputer σ) :=
  if s.addrdec then
    let bca := s.emuAddr s.bcu
    (fetchWord vc bca).bind fun p =>
      DCPU16N.caseEXEC { s with addrdec := false, bca := bca, bcu := p.1 } p.2
  else s.caseEXEC vc

/-- The code of `Tick` from the label `case DCPU16N_PHASE_UBREAD:`; it either
leaves the switch (`break`) or falls through into `BCUFETCH`. -/
def DCPU16N.caseUBREAD {σ : Type} (s : DCPU16N) (vc : VComputer σ) :
    Option (DCPU16N × VComputer σ) :=
  if s.opcl &&& 0x001f ≠ 0 then
    let opca := (s.opcl >>> 5) &&& 0x01f
    if opca &&& 0x010 ≠ 0 then
      if opca &&& 0x08 ≠ 0 then
        let s1 : DCPU16N :=
          match opca &&& 0x7 with
          | 0 => { s with sp := (s.sp + 65534) % 65536, bcu := (s.sp + 65534) % 65536,
                          phase := Phase.BCUFETCH, addrdec := true }
          | 1 => { s with bcu := s.sp, phase := Phase.BCUFETCH, addrdec := true }
          | 2 => { s with bcu := s.sp, phase := Phase.NWBFETCH, addradd := true, addrdec := true }
          | 3 => { s with bcu := s.sp }
          | 4 => { s with bcu := s.pc }
          | 5 => { s with bcu := s.ex }
          | 6 => { s with phase := Phase.NWBFETCH, addrdec := true }
          | _ => { s with phase := Phase.NWBFETCH }
        if s1.addrdec = true ∨ s1.phase = Phase.NWBFETCH then some (s1, vc)
        else s1.caseBCUFETCH vc
      else
        some ({ s with bcu := s.r (opca &&& 0x7), phase := Phase.NWBFETCH,
                       addrdec := true, addradd := true }, vc)
    else
      let s1 : DCPU16N := { s with bcu := s.r (opca &&& 0x7) }
      if opca &&& 0x08 ≠ 0 then some ({ s1 with phase := Phase.BCUFETCH, addrdec := true }, vc)
      else s1.caseBCUFETCH vc
  else s.caseBCUFETCH vc

/-- The code of `Tick` from the label `case DCPU16N_PHASE_ACUFETCH:`, falling
through into `UBREAD`. -/
def DCPU16N.caseACUFETCH {σ : Type} (s : DCPU16N) (vc : VComputer σ) :
    Option (DCPU16N × VComputer σ) :=
  if s.addrdec then
    let aca := s.emuAddr s.acu
    (fetchWord vc aca).bind fun p =>
      DCPU16N.caseUBREAD { s with addrdec := false, aca := aca, acu := p.1 } p.2
  else s.caseUBREAD vc

/-- The code of `Tick` from the label `case DCPU16N_PHASE_UAREAD:`; it either
leaves the switch (`break`) or falls through into `ACUFETCH`. -/
def DCPU16N.caseUAREAD {σ : Type} (s : DCPU16N) (vc : VComputer σ) :
    Option (DCPU16N × VComputer σ) :=
  if s.opcl &&& 0x001f ≠ 0 ∨ s.opcl &&& 0x03e0 ≠ 0 then
    let opca := s.opcl >>> 10
    if opca &&& 0x0020 ≠ 0 then
      DCPU16N.caseACUFETCH { s with acu := (0xffff + (opca &&& 0x1f)) % 65536 } vc
    else if opca &&& 0x010 ≠ 0 then
      if opca &&& 0x08 ≠ 0 then
        let s1 : DCPU16N :=
          match opca &&& 0x7 with
          | 0 => { s with acu := s.sp, sp := (s.sp + 2) % 65536,
                          phase := Phase.ACUFETCH, addrdec := true }
          | 1 => { s with acu := s.sp, phase := Phase.ACUFETCH, addrdec := true }
          | 2 => { s with acu := s.sp, phase := Phase.NWAFETCH, addradd := true, addrdec := true }
          | 3 => { s with acu := s.sp }
          | 4 => { s with acu := s.pc }
          | 5 => { s with acu := s.ex }
          | 6 => { s with phase := Phase.NWAFETCH, addrdec := true }
          | _ => { s with phase := Phase.NWAFETCH }
        if s1.addrdec = true ∨ s1.phase = Phase.NWAFETCH then some (s1, vc)
        else s1.caseACUFETCH vc
      else
        let s1 : DCPU16N := { s with acu := s.r (opca &&& 0x7) }
        if opca &&& 0x08 ≠ 0 then
          some ({ s1 with phase := Phase.NWAFETCH, addrdec := true, addradd := true }, vc)
        else s1.caseACUFETCH vc
    else
      let s1 : DCPU16N := { s with acu := s.r (opca &&& 0x7) }
      if opca &&& 0x08 ≠ 0 then some ({ s1 with phase := Phase.ACUFETCH, addrdec := true }, vc)
      else s1.caseACUFETCH vc
  else s.caseACUFETCH vc

/-- One iteration of the `while(n--)` loop of `DCPU16N::Tick`: the
`switch(phase)`. -/
def DCPU16N.tickOnce {σ : Type} (s : DCPU16N) (vc : VComputer σ) :
    Option (DCPU16N × VComputer σ) :=
  match s.phase with
  | Phase.OPFETCH =>
    (fetchWord vc (s.emuAddr s.pc)).map fun p =>
      ({ s with opcl := p.1, pc := (s.pc + 2) % 65536, phase := Phase.UAREAD }, p.2)
  | Phase.NWAFETCH =>
    (fetchWord vc (s.emuAddr s.pc)).map fun p =>
      let s1 : DCPU16N := { s with fetchh := p.1, pc := (s.pc + 2) % 65536 }
      let s2 : DCPU16N :=
        if s1.addradd then { s1 with fetchh := (s1.fetchh + s1.acu) % 65536, addradd := false }
        else s1
      let s3 : DCPU16N := { s2 with acu := s2.fetchh }
      (if s3.addrdec then { s3 with phase := Phase.ACUFETCH }
       else { s3 with phase := Phase.UBREAD }, p.2)
  | Phase.NWBFETCH =>
    (fetchWord vc (s.emuAddr s.pc)).map fun p =>
      let s1 : DCPU16N := { s with fetchh := p.1, pc := (s.pc + 2) % 65536 }
      let s2 : DCPU16N :=
        if s1.addradd then { s1 with fetchh := (s1.fetchh + s1.bcu) % 65536, addradd := false }
        else s1
      let s3 : DCPU16N := { s2 with bcu := s2.fetchh }
      (if s3.addrdec then { s3 with phase := Phase.BCUFETCH }
       else { s3 with phase := Phase.EXEC }, p.2)
  | Phase.UAREAD => s.caseUAREAD vc
  | Phase.ACUFETCH => s.caseACUFETCH vc
  | Phase.UBREAD => s.caseUBREAD vc
  | Phase.BCUFETCH => s.caseBCUFETCH vc
  | Phase.EXEC => s.caseEXEC vc
  | Phase.UBWRITE => s.caseUBWRITE vc
  | Phase.BCUWRITE => s.caseBCUWRITE vc
  | Phase.EXECW => some (s, vc)
  | Phase.SLEEP => some (s, vc)
  | Phase.EXECSKIP => some (s, vc)
  | Phase.EXECJMP => some ({ s with pc := s.acu, phase := Phase.OPFETCH }, vc)
  | Phase.EXECRFI =>
    let bca1 := s.emuAddr s.sp
    let sp1 := (s.sp + 2) % 65536
    (fetchWord vc bca1).bind fun p0 =>
      let bca2 := s.emuAddr sp1
      let sp2 := (sp1 + 2) % 65536
      (fetchWord p0.2 bca2).map fun p1 =>
        ({ s with phase := Phase.OPFETCH, qint := false, bca := bca2, sp := sp2,
                  r := setCell s.r 0 p0.1, pc := p1.1 }, p1.2)

/-- Embedding of `DCPU16N::Tick(n)`: `n` iterations of the loop body. -/
def DCPU16N.Tick {σ : Type} : Nat → DCPU16N → VComputer σ → Option (DCPU16N × VComputer σ)
  | 0, s, vc => some (s, vc)
  | n + 1, s, vc => (s.tickOnce vc).bind fun p => DCPU16N.Tick n p.1 p.2

end cpu

end vm

namespace vm

/-! ## Concrete machines used to exercise the statements -/

/-- A listener that records every call made to it: its state is the list of
`(addr, val)` pairs received so far (`val` is `0` for a read); every read
returns `0x5A`. -/
def traceListener : AddrListener (List (Nat × Nat)) where
  ReadB := fun a l => (0x5A, (a, 0) :: l)
  ReadW := fun a l => (0x5A, (a, 0) :: l)
  ReadDW := fun a l => (0x5A, (a, 0) :: l)
  WriteB := fun a v l => (a, v) :: l
  WriteW := fun a v l => (a, v) :: l
  WriteDW := fun a v l => (a, v) :: l

/-- A computer with 8 bytes of zeroed RAM, a 4-byte ROM holding
`01 02 03 04`, and `traceListener` registered on every address. -/
def vcTrace : VComputer (List (Nat × Nat)) where
  ram := fun _ => 0
  rom := fun i => i + 1
  ram_size := 8
  rom_size := 4
  listeners := fun _ => some traceListener
  devs := []

/-- A computer with the default RAM size of the constructor (128 KiB), no
ROM and no listener. -/
def vcDefault : VComputer Unit where
  ram := fun _ => 0
  rom := fun _ => 0
  ram_size := 128 * 1024
  rom_size := 0
  listeners := fun _ => none
  devs := ()

/-- A computer built with `ram_size = 2`, no ROM and no listener. -/
def vcTiny : VComputer Unit where
  ram := fun _ => 0
  rom := fun _ => 0
  ram_size := 2
  rom_size := 0
  listeners := fun _ => none
  devs := ()

namespace cpu

/-- A CPU in an arbitrary used state: every register and flag holds a value
left over from earlier execution, `fire` is set and the CPU sleeps. -/
def cpuUsed : DCPU16N where
  r := fun i => 0x1111 * (i + 1)
  pc := 0x1234
  sp := 0xFFF0
  ex := 0x0007
  ia := 0x0040
  emu := fun i => 0x00ABC000 + i
  iqp := 1
  iqc := 2
  madraw := 3
  phase := Phase.SLEEP
  acu := 0x00AA
  aca := 0x00AB
  bcu := 0x00BB
  bca := 0x00BC
  opcl := 0x7C01
  wrt := 0x0101
  fetchh := 0x0F0F
  addradd := true
  addrdec := true
  bytemode := true
  bytehigh := true
  skip := true
  fire := true
  qint := true
  cpu_clock := 100000

/-- A freshly reset CPU in which `r[0]` has then been loaded with `r0`. -/
def cpuBoot (r0 : Nat) : DCPU16N :=
  { cpuUsed.Reset with r := setCell cpuUsed.Reset.r 0 r0 }

/-- The CPU `cpuBoot r0` at the point where the instruction word `opcl` has
been fetched and the value `acu` of its `a` operand has been read. -/
def cpuAtB (opcl acu r0 : Nat) : DCPU16N :=
  { cpuBoot r0 with opcl := opcl, acu := acu, pc := 2, phase := Phase.UAREAD }

/-- A computer with 128 KiB of zeroed RAM, no listener, and a ROM holding
the bytes of `prog`. -/
def vcProg (prog : List Nat) : VComputer Unit where
  ram := fun _ => 0
  rom := fun i => prog.getD i 0
  ram_size := 128 * 1024
  rom_size := prog.length
  listeners := fun _ => none
  devs := ()

end cpu

end vm

/-! ## Running whole instructions: `DCPU16N::Step` -/

namespace vm

namespace cpu

/-- What a call of `DCPU16N::Step` comes to when its loop is followed for a
bounded number of iterations: it has returned `x` leaving the CPU and the
computer in the given states, or a tick had no defined result, or the loop is
still running. -/
inductive StepOutcome (σ : Type) where
  | returned (x : Nat) (s : DCPU16N) (vc : VComputer σ)
  | undefined
  | running

/-- The value returned, when the call has returned. -/
def StepOutcome.ticks {σ : Type} : StepOutcome σ → Option Nat
  | StepOutcome.returned x _ _ => some x
  | _ => none

/-- The CPU and computer left behind, when the call has returned. -/
def StepOutcome.state {σ : Type} : StepOutcome σ → Option (DCPU16N × VComputer σ)
  | StepOutcome.returned _ s vc => some (s, vc)
  | _ => none

/-- The loop `do { Tick(1); x++; } while( (!fire) && (phase != 0) );` of
`DCPU16N::Step`, followed for at most `fuel` iterations; `x` is `unsigned`. -/
def DCPU16N.stepLoop {σ : Type} :
    Nat → Nat → DCPU16N → VComputer σ → StepOutcome σ
  | 0, _, _, _ => StepOutcome.running
  | fuel + 1, x, s, vc =>
    match DCPU16N.Tick 1 s vc with
    | none => StepOutcome.undefined
    | some p =>
      if p.1.fire = false ∧ p.1.phase ≠ Phase.OPFETCH then
        DCPU16N.stepLoop fuel ((x + 1) % 2 ^ 32) p.1 p.2
      else StepOutcome.returned ((x + 1) % 2 ^ 32) p.1 p.2

/-- Embedding of `DCPU16N::Step`: `unsigned x = 0;`, the loop, `return x;`. -/
def DCPU16N.Step {σ : Type} (fuel : Nat) (s : DCPU16N) (vc : VComputer σ) : StepOutcome σ :=
  DCPU16N.stepLoop fuel 0 s vc

/-- The CPU and computer after one call of `Step` that returns within `fuel`
iterations (the pair is left as it is when the call does not return). -/
def stepState {σ : Type} (fuel : Nat) (p : DCPU16N × VComputer σ) : DCPU16N × VComputer σ :=
  ((DCPU16N.Step fuel p.1 p.2).state).getD p

/-- The ROM program `SET r0, 1; ADD r0, 1; HLT` (words `0x8801`, `0x8802`,
`0x0000`, low byte first). -/
def progSetAddHlt : List Nat := [0x01, 0x88, 0x02, 0x88, 0x00, 0x00]

/-- The reset CPU with the program `progSetAddHlt` after one `Step`. -/
def afterStep1 : DCPU16N × VComputer Unit := stepState 8 (cpuBoot 0, vcProg progSetAddHlt)

/-- The reset CPU with the program `progSetAddHlt` after two `Step`s. -/
def afterStep2 : DCPU16N × VComputer Unit := stepState 8 afterStep1

/-- The ROM program `IFE r0, 1; SET r1, 5; SET r2, 8` (words `0x8812`,
`0x9821`, `0xA441`, low byte first). -/
def progIfe : List Nat := [0x12, 0x88, 0x21, 0x98, 0x41, 0xA4]

/-- The ROM program `HCF r0; SET r0, 1` (words `0x00E0`, `0x8801`). -/
def progHcf : List Nat := [0xE0, 0x00, 0x01, 0x88]

/-- The ROM program `MMW r0; MMR r0` (words `0x0200`, `0x0220`). -/
def progMmwMmr : List Nat := [0x00, 0x02, 0x20, 0x02]

/-- The ROM program `JSR 7` (word `0xA020`). -/
def progJsr : List Nat := [0x20, 0xA0]

/-- The reset CPU with `SP` set to `2`: the next push goes to the logical
address `0`, which `EMU[0]` maps to the ROM. -/
def cpuStackInRom : DCPU16N := { cpuBoot 0 with sp := 2 }

/-- The CPU `cpuUsed` with `qint` cleared: `IA = 0x0040`, `PC = 0x1234`. -/
def cpuIrqOpen : DCPU16N := { cpuUsed with qint := false }

end cpu

end vm

namespace vm

/-! ## The clock-driven orchestrator (`VComputer::Tick`, include/VComputer.hpp) -/

/-- Max number of devices attached. -/
def MAX_N_DEVICES : Nat := 32

/-- Computer Base Clock rate. -/
def BaseClock : Nat := 1000000

/-- Interface of the CPU as `VComputer::Tick` uses it.  ICPU.hpp is not part
of the sources, so the three methods called are taken as functions over the
state `ω` of the machine: `Clock()`, `Tick(n)`, and `SendInterrupt(msg)`,
which gives the value returned and the new state. -/
structure ICPU (ω : Type) where
  Clock : ω → Nat
  Tick : Nat → ω → ω
  SendInterrupt : Nat → ω → Bool × ω

/-- Interface of the timer `pit` as `VComputer::Tick` uses it (Timer.hpp is not
part of the sources).  `DoesInterrupt(msg)` takes `msg` by reference: it is
given the current value and gives back the value returned and the value
left in `msg`, with the new state.  The `delta` argument of `Tick` is a
`double` that `VComputer::Tick` passes on untouched; it is left out. -/
structure Timer (ω : Type) where
  Tick : Nat → ω → ω
  DoesInterrupt : Nat → ω → (Bool × Nat) × ω
  IACK : ω → ω

/-- Interface of a slot device as `VComputer::Tick` uses it (IDevice.hpp is not
part of the sources).  `IsSyncDev()` is the capability the device declares;
the other methods are as for `Timer`. -/
structure IDevice (ω : Type) where
  IsSyncDev : Bool
  Tick : Nat → ω → ω
  DoesInterrupt : Nat → ω → (Bool × Nat) × ω
  IACK : ω → ω

/-- The calls `VComputer::Tick` makes on the CPU, the timer and the slot
devices, with their arguments and, for `DoesInterrupt` and `SendInterrupt`,
the value returned (`msg` is the value left in the reference argument). -/
inductive TickCall where
  | cpuTick (n : Nat)
  | pitTick (n : Nat)
  | pitDoesInterrupt (res : Bool) (msg : Nat)
  | cpuSendInterrupt (msg : Nat) (res : Bool)
  | pitIACK
  | devTick (slot : Nat) (n : Nat)
  | devDoesInterrupt (slot : Nat) (res : Bool) (msg : Nat)
  | devIACK (slot : Nat)
  deriving DecidableEq, Repr

/-- The members of `VComputer` that `Tick` uses: `cpu` (`none` for a null
pointer), `pit`, and `devices`, where `devices i` is `std::get<0>(devices[i])`
(`none` for an empty slot). -/
structure TickMembers (ω : Type) where
  cpu : Option (ICPU ω)
  pit : Timer ω
  devices : Nat → Option (IDevice ω)

/-- The state followed through `VComputer::Tick`: the state of the machine,
the locals `msg` and `interrupted`, and the calls made so far, oldest
first. -/
structure TickState (ω : Type) where
  world : ω
  msg : Nat
  interrupted : Bool
  calls : List TickCall
  deriving DecidableEq

/-- The body of the loop `for (i = 0; i < MAX_N_DEVICES; i++)` of
`VComputer::Tick` for the slot `i`. -/
def VComputer.tickSlot {ω : Type} (c : ICPU ω) (devices : Nat → Option (IDevice ω))
    (dev_ticks : Nat) (st : TickState ω) (i : Nat) : TickState ω :=
  match devices i with
  | none => st
  | some d =>
    let st1 : TickState ω :=
      if d.IsSyncDev then
        { st with world := d.Tick dev_ticks st.world,
                  calls := st.calls ++ [TickCall.devTick i dev_ticks] }
      else st
    if st1.interrupted then st1
    else
      let r := d.DoesInterrupt st1.msg st1.world
      let st2 : TickState ω :=
        { st1 with world := r.2, msg := r.1.2,
                   calls := st1.calls ++ [TickCall.devDoesInterrupt i r.1.1 r.1.2] }
      if r.1.1 then
        let a := c.SendInterrupt st2.msg st2.world
        let st3 : TickState ω :=
          { st2 with interrupted := true, world := a.2,
                     calls := st2.calls ++ [TickCall.cpuSendInterrupt st2.msg a.1] }
        if a.1 then
          { st3 with world := d.IACK st3.world, calls := st3.calls ++ [TickCall.devIACK i] }
        else st3
      else st2

/-- The part of `VComputer::Tick` before the loop over the slots, for an
installed CPU `c` and given `cpu_ticks` and `dev_ticks`: the ticks of the CPU
and of the timer, then the poll of the timer. -/
def VComputer.tickHead {ω : Type} (c : ICPU ω) (pit : Timer ω) (cpu_ticks dev_ticks msg0 : Nat)
    (w : ω) : TickState ω :=
  let w1 := c.Tick cpu_ticks w
  let w2 := pit.Tick dev_ticks w1
  let r := pit.DoesInterrupt msg0 w2
  let st0 : TickState ω :=
    { world := r.2, msg := r.1.2, interrupted := r.1.1,
      calls := [TickCall.cpuTick cpu_ticks, TickCall.pitTick dev_ticks,
                TickCall.pitDoesInterrupt r.1.1 r.1.2] }
  if st0.interrupted then
    let a := c.SendInterrupt st0.msg st0.world
    let st1 : TickState ω :=
      { st0 with world := a.2, calls := st0.calls ++ [TickCall.cpuSendInterrupt st0.msg a.1] }
    if a.1 then { st1 with world := pit.IACK st1.world, calls := st1.calls ++ [TickCall.pitIACK] }
    else st1
  else st0

/-- Embedding of `VComputer::Tick(n, delta)`.  `msg0` is the value the local
`msg` happens to hold before the first `DoesInterrupt`.  The result is `none`
when `assert(n > 0)` fails or when one of the two unsigned divisions of
`n / (BaseClock / cpu->Clock())` has a zero divisor. -/
def VComputer.Tick {ω : Type} (m : TickMembers ω) (n msg0 : Nat) (w : ω) :
    Option (TickState ω) :=
  if n = 0 then none
  else
    let dev_ticks := n / 10
    match m.cpu with
    | none => some { world := w, msg := msg0, interrupted := false, calls := [] }
    | some c =>
      if c.Clock w = 0 then none
      else if BaseClock / c.Clock w = 0 then none
      else
        let cpu_ticks := n / (BaseClock / c.Clock w)
        some ((List.range MAX_N_DEVICES).foldl (VComputer.tickSlot c m.devices dev_ticks)
          (VComputer.tickHead c m.pit cpu_ticks dev_ticks msg0 w))

/-- The calls of the `Tick` of the CPU in a list of calls. -/
def cpuTickCalls (l : List TickCall) : List TickCall :=
  l.filter fun e => match e with
    | TickCall.cpuTick _ => true
    | _ => false

/-- The calls of the `Tick` of the timer in a list of calls. -/
def pitTickCalls (l : List TickCall) : List TickCall :=
  l.filter fun e => match e with
    | TickCall.pitTick _ => true
    | _ => false

/-! ### A concrete machine for the orchestrator -/

/-- The state of the demonstration machine: whether the timer has an
interrupt pending, and the slots whose device has one pending. -/
structure DemoWorld where
  pitPending : Bool
  slotsPending : List Nat
  deriving DecidableEq, Repr

/-- A CPU running at 100 kHz that accepts every interrupt (as
`DCPU16N::SendInterrupt` does) and has no state of its own. -/
def demoCpu : ICPU DemoWorld where
  Clock := fun _ => 100000
  Tick := fun _ w => w
  SendInterrupt := fun _ w => (true, w)

/-- A timer whose pending interrupt carries the message `0x1234` and is
cleared by `IACK`. -/
def demoPit : Timer DemoWorld where
  Tick := fun _ w => w
  DoesInterrupt := fun msg w => ((w.pitPending, if w.pitPending then 0x1234 else msg), w)
  IACK := fun w => { w with pitPending := false }

/-- A sync device for the slot `i`: its pending interrupt carries the message
`0x30 + i` and is cleared by `IACK`. -/
def demoDevice (i : Nat) : IDevice DemoWorld where
  IsSyncDev := true
  Tick := fun _ w => w
  DoesInterrupt := fun msg w =>
    ((decide (i ∈ w.slotsPending), if i ∈ w.slotsPending then 0x30 + i else msg), w)
  IACK := fun w => { w with slotsPending := w.slotsPending.filter fun j => j ≠ i }

/-- The demonstration machine: `demoCpu`, `demoPit`, and devices in the slots
1, 3 and 5. -/
def demoMachine : TickMembers DemoWorld where
  cpu := some demoCpu
  pit := demoPit
  devices := fun i => if i = 1 ∨ i = 3 ∨ i = 5 then some (demoDevice i) else none

end vm

/-! ### Invariants of the loop over the slots -/

namespace vm

end vm

namespace vm

namespace cpu

/-! ## TR3200 flag macros (include/TR3200/TR3200_macros.hpp)

The macros are applied to the 32-bit register `r[FLAGS]`; `SET_ON_*` and
`SET_OFF_*` assign to their argument, which is given here as the new value. -/

/-- The macro `GET_CF(x)`, `((x) & 0x1)`. -/
def GET_CF (x : Nat) : Nat := x &&& 0x1

/-- The macro `SET_ON_CF(x)`, `(x |= 0x1)`. -/
def SET_ON_CF (x : Nat) : Nat := x ||| 0x1

/-- The macro `SET_OFF_CF(x)`, `(x &= 0xFFFFFFFE)`. -/
def SET_OFF_CF (x : Nat) : Nat := x &&& 0xFFFFFFFE

/-- The macro `GET_OF(x)`, `(((x) & 0x2) >> 1)`. -/
def GET_OF (x : Nat) : Nat := (x &&& 0x2) >>> 1

/-- The macro `SET_ON_OF(x)`, `(x |= 0x2)`. -/
def SET_ON_OF (x : Nat) : Nat := x ||| 0x2

/-- The macro `SET_OFF_OF(x)`, `(x &= 0xFFFFFFFD)`. -/
def SET_OFF_OF (x : Nat) : Nat := x &&& 0xFFFFFFFD

/-- The macro `GET_DE(x)`, `(((x) & 0x4) >> 2)`. -/
def GET_DE (x : Nat) : Nat := (x &&& 0x4) >>> 2

/-- The macro `SET_ON_DE(x)`, `(x |= 0x4)`. -/
def SET_ON_DE (x : Nat) : Nat := x ||| 0x4

/-- The macro `SET_OFF_DE(x)`, `(x &= 0xFFFFFFFB)`. -/
def SET_OFF_DE (x : Nat) : Nat := x &&& 0xFFFFFFFB

/-- The macro `GET_IF(x)`, `(((x) & 0x8) >> 3)`. -/
def GET_IF (x : Nat) : Nat := (x &&& 0x8) >>> 3

/-- The macro `SET_ON_IF(x)`, `(x |= 0x8)`. -/
def SET_ON_IF (x : Nat) : Nat := x ||| 0x8

/-- The macro `SET_OFF_IF(x)`, `(x &= 0xFFFFFFF7)`. -/
def SET_OFF_IF (x : Nat) : Nat := x &&& 0xFFFFFFF7

/-- The macro `GET_EI(x)`, `(((x) & 0x100) >> 8)`. -/
def GET_EI (x : Nat) : Nat := (x &&& 0x100) >>> 8

/-- The macro `SET_ON_EI(x)`, `(x |= 0x100)`. -/
def SET_ON_EI (x : Nat) : Nat := x ||| 0x100

/-- The macro `SET_OFF_EI(x)`, `(x &= 0xFFFFFEFF)`. -/
def SET_OFF_EI (x : Nat) : Nat := x &&& 0xFFFFFEFF

/-- The macro `GET_ESS(x)`, `(((x) & 0x200) >> 9)`. -/
def GET_ESS (x : Nat) : Nat := (x &&& 0x200) >>> 9

/-- The macro `SET_ON_ESS(x)`, `(x |= 0x200)`. -/
def SET_ON_ESS (x : Nat) : Nat := x ||| 0x200

/-- The macro `SET_OFF_ESS(x)`, `(x &= 0xFFFFFDFF)`. -/
def SET_OFF_ESS (x : Nat) : Nat := x &&& 0xFFFFFDFF

/-- The six flags that have a `GET_`, a `SET_ON_` and a `SET_OFF_` macro. -/
inductive Flag where
  | CF | OF | DE | IF | EI | ESS
  deriving DecidableEq, Repr

/-- The `GET_` macro of a flag. -/
def Flag.GET : Flag → Nat → Nat
  | Flag.CF => GET_CF
  | Flag.OF => GET_OF
  | Flag.DE => GET_DE
  | Flag.IF => GET_IF
  | Flag.EI => GET_EI
  | Flag.ESS => GET_ESS

/-- The `SET_ON_` macro of a flag. -/
def Flag.SET_ON : Flag → Nat → Nat
  | Flag.CF => SET_ON_CF
  | Flag.OF => SET_ON_OF
  | Flag.DE => SET_ON_DE
  | Flag.IF => SET_ON_IF
  | Flag.EI => SET_ON_EI
  | Flag.ESS => SET_ON_ESS

/-- The `SET_OFF_` macro of a flag. -/
def Flag.SET_OFF : Flag → Nat → Nat
  | Flag.CF => SET_OFF_CF
  | Flag.OF => SET_OFF_OF
  | Flag.DE => SET_OFF_DE
  | Flag.IF => SET_OFF_IF
  | Flag.EI => SET_OFF_EI
  | Flag.ESS => SET_OFF_ESS

/-- The bit position that the specification gives for a flag: `CF` 0, `OF` 1,
`DE` 2, `IF` 3, `EI` 8, `ESS` 9. -/
def Flag.specBit : Flag → Nat
  | Flag.CF => 0
  | Flag.OF => 1
  | Flag.DE => 2
  | Flag.IF => 3
  | Flag.EI => 8
  | Flag.ESS => 9

end cpu

namespace dev

namespace disk

/-! ## Disk geometry (include/devices/Disk.hpp) -/

/-- The struct `DiskDescriptor`: `TypeDisk` is a `byte_t` enumeration, the next
four members are `uint8_t` and `BytesPerSector` is a `uint16_t`. -/
structure DiskDescriptor where
  TypeDisk : Nat
  writeProtect : Nat
  NumSides : Nat
  TracksPerSide : Nat
  SectorsPerTrack : Nat
  BytesPerSector : Nat

/-- The member `Info` of `Disk`, a `std::unique_ptr<DiskDescriptor>`, `none`
when it holds no descriptor. -/
structure Disk where
  Info : Option DiskDescriptor

/-- The multiplication of two `int` values (32 bits); signed overflow is
undefined. -/
def intMul (a b : Int) : Option Int :=
  if -(2 ^ 31 : Int) ≤ a * b ∧ a * b < 2 ^ 31 then some (a * b) else none

/-- The conversion of an `int` to the return type `uint16_t`. -/
def toUint16 (z : Int) : Nat := (z % 65536).toNat

/-- Embedding of `Disk::getTotalSectors`: the three `uint8_t` members are
promoted to `int`, multiplied from the left, and the product is converted to
the return type `uint16_t`. -/
def Disk.getTotalSectors (d : Disk) : Option Nat :=
  d.Info.bind fun i =>
    (intMul (i.NumSides : Int) (i.TracksPerSide : Int)).bind fun p =>
      (intMul p (i.SectorsPerTrack : Int)).map toUint16

/-- The descriptor of a disk with 2 sides, 255 tracks per side and 255
sectors per track of 512 bytes. -/
def bigInfo : DiskDescriptor :=
  { TypeDisk := 0x46, writeProtect := 0, NumSides := 2, TracksPerSide := 255,
    SectorsPerTrack := 255, BytesPerSector := 512 }

/-- A disk with the descriptor `bigInfo`. -/
def diskBig : Disk := { Info := some bigInfo }

/-- The descriptor of a 5.25 inch floppy: 2 sides, 40 tracks per side, 9
sectors per track of 512 bytes. -/
def floppyInfo : DiskDescriptor :=
  { TypeDisk := 0x46, writeProtect := 0, NumSides := 2, TracksPerSide := 40,
    SectorsPerTrack := 9, BytesPerSector := 512 }

/-- A disk with the descriptor `floppyInfo`. -/
def diskFloppy : Disk := { Info := some floppyInfo }

end disk

end dev

end vm

/-! ## Programs and states for the operand and `RFI` statements -/

namespace vm

namespace cpu

/-- ROM bytes of `SET r1, [r0 + 0x0004]` (words `0x4021`, `0x0004`), a word
`0`, and the word `0x1234` at offset 6. -/
def progRegNextword : List Nat := [0x21, 0x40, 0x04, 0x00, 0x00, 0x00, 0x34, 0x12]

/-- ROM bytes of `RFI r0` (word `0x0160`) followed by the word `0x1234`.
After reset `SP = 0` is mapped to the ROM, so these two words are also what
`RFI` pops. -/
def progRfi : List Nat := [0x60, 0x01, 0x34, 0x12]

/-- A freshly reset CPU in which interrupts are being queued (`qint` set), as
inside an interrupt handler. -/
def cpuInHandler : DCPU16N := { cpuBoot 0 with qint := true }

/-- The CPU `cpuInHandler` at the point where the instruction word `opcl` has
been fetched. -/
def cpuInHandlerAtA (opcl : Nat) : DCPU16N :=
  { cpuInHandler with opcl := opcl, pc := 2, phase := Phase.UAREAD }

end cpu

end vm

namespace vm

/-! ## Machines and measures for the last statements -/

/-- A computer with the largest sizes allowed: 1 MiB of zeroed RAM, a 32 KiB
ROM of zero bytes, and no listener. -/
def vcFull : VComputer Unit where
  ram := fun _ => 0
  rom := fun _ => 0
  ram_size := MAX_RAM_SIZE
  rom_size := MAX_ROM_SIZE
  listeners := fun _ => none
  devs := ()

/-- The CPU ticks delivered in a list of calls: the sum of the arguments of
the `Tick` calls made on the CPU. -/
def cpuTicksOf (l : List TickCall) : Nat :=
  (l.map fun e => match e with
    | TickCall.cpuTick n => n
    | _ => 0).sum

/-- The device ticks given to the timer in a list of calls. -/
def pitTicksOf (l : List TickCall) : Nat :=
  (l.map fun e => match e with
    | TickCall.pitTick n => n
    | _ => 0).sum

/-- The device ticks given to the device of the slot `i` in a list of
calls. -/
def devTicksOf (i : Nat) (l : List TickCall) : Nat :=
  (l.map fun e => match e with
    | TickCall.devTick j n => if j = i then n else 0
    | _ => 0).sum

/-- Whether the slot `i` holds a device that declares itself a sync device. -/
def syncSlot {ω : Type} (devices : Nat → Option (IDevice ω)) (i : Nat) : Bool :=
  match devices i with
  | some d => d.IsSyncDev
  | none => false

/-- The calls `Tick(n)` for the `n` of a list, one after the other on the same
computer; the result is the list of all the calls made and the last state.
The local `msg` starts each call with the value `0`. -/
def VComputer.TickEach {ω : Type} (m : TickMembers ω) :
    List Nat → ω → Option (List TickCall × ω)
  | [], w => some ([], w)
  | n :: ns, w =>
    (VComputer.Tick m n 0 w).bind fun st =>
      (VComputer.TickEach m ns st.world).map fun r => (st.calls ++ r.1, r.2)

/-- The CPU `demoCpu` with the clock rate `clk`. -/
def demoCpuAt (clk : Nat) : ICPU DemoWorld := { demoCpu with Clock := fun _ => clk }

/-- The demonstration machine with a CPU of clock rate `clk`. -/
def demoMachineAt (clk : Nat) : TickMembers DemoWorld :=
  { demoMachine with cpu := some (demoCpuAt clk) }

/-- The demonstration state with no interrupt pending. -/
def demoIdle : DemoWorld := { pitPending := false, slotsPending := [] }

end vm

namespace vm

end vm

/-! ## Theorems -/

namespace vm

/-! ## Auxiliary facts on masks -/

theorem and_F00000_of_lt (a : Nat) (h : a < 2 ^ 20) : a &&& 0xF00000 = 0 := by
  apply Nat.eq_of_testBit_eq
  intro i
  rw [Nat.testBit_and, Nat.zero_testBit]
  by_cases hi : i < 20
  · have : Nat.testBit 0xF00000 i = false := by
      interval_cases i <;> decide
    simp [this]
  · have : Nat.testBit a i = false :=
      Nat.testBit_lt_two_pow (lt_of_lt_of_le h (Nat.pow_le_pow_right (by norm_num) (by omega)))
    simp [this]

theorem and_FFFFFF_of_lt (a : Nat) (h : a < 2 ^ 24) : a &&& 0x00FFFFFF = a := by
  have e : (0x00FFFFFF : Nat) = 2 ^ 24 - 1 := by norm_num
  rw [e, Nat.and_pow_two_sub_one_eq_mod, Nat.mod_eq_of_lt h]

theorem and_FFFFFF_idem (a : Nat) : (a &&& 0x00FFFFFF) &&& 0x00FFFFFF = a &&& 0x00FFFFFF := by
  rw [Nat.and_assoc, Nat.and_self]

theorem and_shiftLeft_eq (x m k : Nat) : x &&& (m <<< k) = ((x >>> k) &&& m) <<< k := by
  apply Nat.eq_of_testBit_eq
  intro i
  simp only [Nat.testBit_and, Nat.testBit_shiftLeft, Nat.testBit_shiftRight]
  by_cases h : k ≤ i
  · simp [h, Nat.add_sub_cancel' h]
  · simp [h]

theorem and_F00000 (a : Nat) : a &&& 0xF00000 = a / 2 ^ 20 % 16 * 2 ^ 20 := by
  have e : (0xF00000 : Nat) = (2 ^ 4 - 1) <<< 20 := by decide
  rw [e, and_shiftLeft_eq, Nat.and_pow_two_sub_one_eq_mod, Nat.shiftLeft_eq,
    Nat.shiftRight_eq_div_pow]

theorem and_FF0000 (a : Nat) : a &&& 0xFF0000 = a / 2 ^ 16 % 256 * 2 ^ 16 := by
  have e : (0xFF0000 : Nat) = (2 ^ 8 - 1) <<< 16 := by decide
  rw [e, and_shiftLeft_eq, Nat.and_pow_two_sub_one_eq_mod, Nat.shiftLeft_eq,
    Nat.shiftRight_eq_div_pow]

theorem and_FFFF (a : Nat) : a &&& 0x00FFFF = a % 65536 := by
  have e : (0x00FFFF : Nat) = 2 ^ 16 - 1 := by norm_num
  rw [e, Nat.and_pow_two_sub_one_eq_mod]

/-! ## Auxiliary facts on the bus -/

section bus
variable {σ : Type}

theorem listenerWrite_ram (vc : VComputer σ) (wr : AddrListener σ → Nat → Nat → σ → σ)
    (w a v : Nat) : (vc.listenerWrite wr w a v).ram = vc.ram := by
  unfold VComputer.listenerWrite; cases vc.listeners a <;> rfl

theorem listenerWrite_ram_size (vc : VComputer σ) (wr : AddrListener σ → Nat → Nat → σ → σ)
    (w a v : Nat) : (vc.listenerWrite wr w a v).ram_size = vc.ram_size := by
  unfold VComputer.listenerWrite; cases vc.listeners a <;> rfl

theorem listenerWrite_rom (vc : VComputer σ) (wr : AddrListener σ → Nat → Nat → σ → σ)
    (w a v : Nat) : (vc.listenerWrite wr w a v).rom = vc.rom := by
  unfold VComputer.listenerWrite; cases vc.listeners a <;> rfl

theorem listenerWrite_rom_size (vc : VComputer σ) (wr : AddrListener σ → Nat → Nat → σ → σ)
    (w a v : Nat) : (vc.listenerWrite wr w a v).rom_size = vc.rom_size := by
  unfold VComputer.listenerWrite; cases vc.listeners a <;> rfl

theorem size_t_sub_of_le (a b : Nat) (hb : b ≤ a) (ha : a < 2 ^ 64) : size_t_sub a b = a - b := by
  unfold size_t_sub SIZE_T_BITS
  norm_num
  omega

/-- C1. RAM round trip: with `4 ≤ ram_size ≤ 1 MiB`, `a ≤ ram_size - 4` and a
32-bit `v`, `WriteDW(a, v)` succeeds and `ReadDW(a)` on the resulting computer
returns `v` (and leaves that computer as it is), whatever the listener map
and the listeners do. -/
theorem C1_ram_round_trip (vc : VComputer σ) (a v : Nat)
    (hlo : 4 ≤ vc.ram_size) (hhi : vc.ram_size ≤ MAX_RAM_SIZE)
    (ha : a ≤ vc.ram_size - 4) (hv : v < 2 ^ 32) :
    ∃ vc1, vc.WriteDW a v = some vc1 ∧ vc1.ReadDW a = some (v, vc1) := by
  unfold MAX_RAM_SIZE at hhi
  have ha20 : a < 2 ^ 20 := by norm_num; omega
  have hm : a &&& 0x00FFFFFF = a := and_FFFFFF_of_lt a (by norm_num at ha20 ⊢; omega)
  have hz : a &&& 0xF00000 = 0 := and_F00000_of_lt a ha20
  have hs : size_t_sub vc.ram_size 3 = vc.ram_size - 3 :=
    size_t_sub_of_le _ _ (by omega) (by norm_num; omega)
  have h0 : a < vc.ram_size := by omega
  have h1 : a + 1 < vc.ram_size := by omega
  have h2 : a + 1 + 1 < vc.ram_size := by omega
  have h3 : a + 1 + 1 + 1 < vc.ram_size := by omega
  have hg : a < vc.ram_size - 3 := by omega
  simp only [VComputer.WriteDW, hm, hs, hg, if_true, VComputer.ramStore, VComputer.ramPut, h0, h1,
    h2, h3, Option.some_bind, Option.map_some']
  refine ⟨_, rfl, ?_⟩
  simp only [VComputer.ReadDW, hm, hz, if_true, VComputer.ramLoad, VComputer.ramAt,
    listenerWrite_ram, listenerWrite_ram_size, h0, h1, h2, h3, Option.some_bind, Option.map_some']
  simp
  split_ifs <;> omega

/-- Witness of C1 on `vcTrace`: address 4, value `0xDEADBEEF`. -/
theorem C1_ram_round_trip_witness :
    (4 ≤ vcTrace.ram_size ∧ vcTrace.ram_size ≤ MAX_RAM_SIZE ∧ 4 ≤ vcTrace.ram_size - 4 ∧
      0xDEADBEEF < 2 ^ 32) ∧
    ∃ vc1, vcTrace.WriteDW 4 0xDEADBEEF = some vc1 ∧ vc1.ReadDW 4 = some (0xDEADBEEF, vc1) :=
  ⟨by decide, C1_ram_round_trip vcTrace 4 0xDEADBEEF (by decide) (by decide) (by decide)
    (by decide)⟩

/-- C2. Little-endian words: with `ram_size ≤ 1 MiB` (the cap of the data
model), `a + 1 < ram_size` and a 16-bit `v`, `WriteW(a, v)` succeeds and on
the resulting computer `ReadB(a)` returns `v & 0xFF` and `ReadB(a+1)` returns
`v >> 8`. -/
theorem C2_little_endian_words (vc : VComputer σ) (a v : Nat)
    (hhi : vc.ram_size ≤ MAX_RAM_SIZE) (ha : a + 1 < vc.ram_size) (hv : v < 2 ^ 16) :
    ∃ vc1, vc.WriteW a v = some vc1 ∧ vc1.ReadB a = some (v &&& 0xFF, vc1) ∧
      vc1.ReadB (a + 1) = some (v >>> 8, vc1) := by
  unfold MAX_RAM_SIZE at hhi
  have ha20 : a + 1 < 2 ^ 20 := by norm_num; omega
  have hm : a &&& 0x00FFFFFF = a := and_FFFFFF_of_lt a (by norm_num at ha20 ⊢; omega)
  have hm1 : (a + 1) &&& 0x00FFFFFF = a + 1 :=
    and_FFFFFF_of_lt (a + 1) (by norm_num at ha20 ⊢; omega)
  have hz : a &&& 0xF00000 = 0 := and_F00000_of_lt a (by omega)
  have hz1 : (a + 1) &&& 0xF00000 = 0 := and_F00000_of_lt (a + 1) ha20
  have hs : size_t_sub vc.ram_size 1 = vc.ram_size - 1 :=
    size_t_sub_of_le _ _ (by omega) (by norm_num; omega)
  have h0 : a < vc.ram_size := by omega
  have hg : a < vc.ram_size - 1 := by omega
  have e1 : v &&& 0xFF = v % 256 := by
    have e : (0xFF : Nat) = 2 ^ 8 - 1 := by norm_num
    rw [e, Nat.and_pow_two_sub_one_eq_mod]
  have e2 : v >>> 8 = v / 256 := by rw [Nat.shiftRight_eq_div_pow]
  simp only [VComputer.WriteW, hm, hs, hg, if_true, VComputer.ramStore, VComputer.ramPut, h0, ha,
    Option.some_bind, Option.map_some']
  refine ⟨_, rfl, ?_, ?_⟩
  · simp only [VComputer.ReadB, hm, hz, if_true, VComputer.ramAt,
      listenerWrite_ram, listenerWrite_ram_size, h0, Option.map_some', e1]
    simp
  · simp only [VComputer.ReadB, hm1, hz1, if_true, VComputer.ramAt,
      listenerWrite_ram, listenerWrite_ram_size, ha, Option.map_some', e2]
    simp
    norm_num at hv
    omega

/-- Witness of C2 on `vcTrace`: address 6 (the last word of RAM), value
`0xABCD`. -/
theorem C2_little_endian_words_witness :
    (vcTrace.ram_size ≤ MAX_RAM_SIZE ∧ 6 + 1 < vcTrace.ram_size ∧ 0xABCD < 2 ^ 16) ∧
    ∃ vc1, vcTrace.WriteW 6 0xABCD = some vc1 ∧ vc1.ReadB 6 = some (0xABCD &&& 0xFF, vc1) ∧
      vc1.ReadB (6 + 1) = some (0xABCD >>> 8, vc1) :=
  ⟨by decide, C2_little_endian_words vcTrace 6 0xABCD (by decide) (by decide) (by decide)⟩

/-- C3. Address mask: each of the six bus operations gives at `a` exactly the
result it gives at `a & 0x00FFFFFF`: the same returned value and the same
resulting computer (RAM and the state of the listeners, hence the same call
on the same listener), for every listener map and listener behaviour. -/
theorem C3_address_mask (vc : VComputer σ) (a v : Nat) :
    vc.ReadB a = vc.ReadB (a &&& 0x00FFFFFF) ∧
    vc.ReadW a = vc.ReadW (a &&& 0x00FFFFFF) ∧
    vc.ReadDW a = vc.ReadDW (a &&& 0x00FFFFFF) ∧
    vc.WriteB a v = vc.WriteB (a &&& 0x00FFFFFF) v ∧
    vc.WriteW a v = vc.WriteW (a &&& 0x00FFFFFF) v ∧
    vc.WriteDW a v = vc.WriteDW (a &&& 0x00FFFFFF) v := by
  simp only [VComputer.ReadB, VComputer.ReadW, VComputer.ReadDW, VComputer.WriteB,
    VComputer.WriteW, VComputer.WriteDW, and_FFFFFF_idem, and_self]

/-- C4. ROM immutability: with `ram_size ≤ 1 MiB` and `a` in the ROM window
`0x100000..0x10FFFF`, `WriteB(a, v)` succeeds and the value `ReadB(a)` returns
afterwards is the value it returned before (both undefined when the offset
`a & 0xFFFF` lies outside the ROM buffer). -/
theorem C4_rom_immutable (vc : VComputer σ) (a v : Nat)
    (hhi : vc.ram_size ≤ MAX_RAM_SIZE) (hlo : 0x100000 ≤ a) (hup : a ≤ 0x10FFFF) :
    ∃ vc1, vc.WriteB a v = some vc1 ∧
      (vc1.ReadB a).map Prod.fst = (vc.ReadB a).map Prod.fst := by
  unfold MAX_RAM_SIZE at hhi
  have hm : a &&& 0x00FFFFFF = a := and_FFFFFF_of_lt a (by norm_num; omega)
  have c1 : a &&& 0xF00000 = 0x100000 := by rw [and_F00000]; norm_num; omega
  have c2 : a &&& 0xFF0000 = 0x100000 := by rw [and_FF0000]; norm_num; omega
  have hg : ¬ a < vc.ram_size := by omega
  simp only [VComputer.WriteB, hm, hg, if_false, Option.map_some']
  refine ⟨_, rfl, ?_⟩
  simp [VComputer.ReadB, hm, c1, c2, VComputer.romAt, listenerWrite_rom, listenerWrite_rom_size]

/-- Witness of C4 on `vcTrace`: a write of `0x77` at `0x100002`, an address
the trace listener also covers. -/
theorem C4_rom_immutable_witness :
    (vcTrace.ram_size ≤ MAX_RAM_SIZE ∧ 0x100000 ≤ 0x100002 ∧ 0x100002 ≤ 0x10FFFF) ∧
    ∃ vc1, vcTrace.WriteB 0x100002 0x77 = some vc1 ∧
      (vc1.ReadB 0x100002).map Prod.fst = (vcTrace.ReadB 0x100002).map Prod.fst :=
  ⟨by decide, C4_rom_immutable vcTrace 0x100002 0x77 (by decide) (by decide) (by decide)⟩

/-- The value read in the witness of C4 is the ROM byte `03`, before and
after the write. -/
theorem rom_read_example : (vcTrace.ReadB 0x100002).map Prod.fst = some 3 := by
  decide

/-- C5, the code at the failing input: on a computer with the default
128 KiB of RAM and no listener, the address `0x20000` is not below the RAM
size, not in the ROM window and not covered by a listener, yet the three
reads take the RAM branch (`!(addr & 0xF00000)`) and load `ram[0x20000]`,
outside the buffer, instead of returning zero. -/
theorem C5_read_past_ram :
    ¬ 0x20000 < vcDefault.ram_size ∧ vcDefault.listeners 0x20000 = none ∧
    (0x20000 &&& 0x00FFFFFF) &&& 0xF00000 = 0 ∧
    vcDefault.ReadB 0x20000 = none ∧ vcDefault.ReadW 0x20000 = none ∧
    vcDefault.ReadDW 0x20000 = none := by
  exact ⟨by decide, rfl, by decide, rfl, rfl, rfl⟩

/-- Above the RAM region the reads do return zero: an address of the masked
form `a` with `0x110000 ≤ a < 2^24` that no listener covers reads as `0`. -/
theorem read_unmapped_above_rom (vc : VComputer σ) (a : Nat)
    (hlo : 0x110000 ≤ a) (hup : a < 2 ^ 24) (hl : vc.listeners a = none) :
    vc.ReadB a = some (0, vc) ∧ vc.ReadW a = some (0, vc) ∧ vc.ReadDW a = some (0, vc) := by
  have hm : a &&& 0x00FFFFFF = a := and_FFFFFF_of_lt a hup
  have c1 : a &&& 0xF00000 ≠ 0 := by rw [and_F00000]; norm_num at hup ⊢; omega
  have c2 : a &&& 0xFF0000 ≠ 0x100000 := by rw [and_FF0000]; norm_num at hup ⊢; omega
  simp [VComputer.ReadB, VComputer.ReadW, VComputer.ReadDW, hm, c1, c2, VComputer.listenerRead, hl]

/-- C6, the code at the failing input: with `ram_size = 2` the guard of
`WriteDW` computes `ram_size - 3` in `std::size_t`, which wraps to
`2^64 - 1`; the guard holds for address `0` and the four-byte store runs
past the two-byte buffer.  With `ram_size = 0` the guard of `WriteW` wraps in
the same way.  `WriteB`, whose guard has no subtraction, leaves the RAM of
the same computers alone. -/
theorem C6_write_guard_wraps :
    size_t_sub vcTiny.ram_size 3 = 2 ^ 64 - 1 ∧
    vcTiny.WriteDW 0 0x04030201 = none ∧
    ({ vcTiny with ram_size := 0 } : VComputer Unit).WriteW 0 0x0201 = none ∧
    vcTiny.WriteB 2 0xFF = some vcTiny := by
  exact ⟨by decide, rfl, rfl, rfl⟩

/-- An address with bits above bit 23 set reaches the listener as its low 24
bits: the trace listener of `vcTrace` records `(0x200003, 0x12)` for
`WriteB(0xFF200003, 0x12)`. -/
theorem address_mask_example :
    (vcTrace.WriteB 0xFF200003 0x12).map (fun c => c.devs) = some [(0x200003, 0x12)] := by
  decide

end bus

end vm

namespace vm

namespace cpu

section engine
variable {σ : Type}

theorem reg_field_bits (i : Nat) (h : i < 8) :
    i &&& 0x10 = 0 ∧ i &&& 0x08 = 0 ∧ i &&& 0x7 = i ∧
    (i ||| 0x100) &&& 0x0100 = 0x100 ∧ (i ||| 0x100) &&& 0x0020 = 0 ∧
    (i ||| 0x100) &&& 0x010 = 0 ∧ (i ||| 0x100) &&& 0x08 = 0 ∧ (i ||| 0x100) &&& 0x7 = i := by
  interval_cases i <;> decide

theorem range16 : List.range 16 = [0, 1, 2, 3, 4, 5, 6, 7, 8, 9, 10, 11, 12, 13, 14, 15] := by
  decide

/-- C7. EMU reset: after `Reset` from any prior state `EMU[0] = 0x00100000`
and `EMU[i] = i << 12` for `i` in `1..15`; `PC` is `0` and the phase is
`OPFETCH`, and the first tick reads the opcode through `ReadB(0x100001)` and
`ReadB(0x100000)`, which are the ROM bytes at offsets 1 and 0. -/
theorem C7_emu_reset (s : DCPU16N) (vc : VComputer σ) :
    s.Reset.emu 0 = 0x00100000 ∧
    (∀ i, 1 ≤ i → i ≤ 15 → s.Reset.emu i = i <<< 12) ∧
    s.Reset.pc = 0 ∧ s.Reset.phase = Phase.OPFETCH ∧
    s.Reset.tickOnce vc =
      ((vc.ReadB 0x100001).bind fun hi => (hi.2.ReadB 0x100000).bind fun lo =>
        some ({ s.Reset with opcl := ((hi.1 <<< 8) ||| lo.1) % 65536, pc := 2,
                             phase := Phase.UAREAD }, lo.2)) ∧
    vc.ReadB 0x100001 = (vc.romAt 1).map (fun v => (v, vc)) ∧
    vc.ReadB 0x100000 = (vc.romAt 0).map (fun v => (v, vc)) := by
  refine ⟨rfl, ?_, rfl, rfl, ?_, rfl, rfl⟩
  · intro i h1 h15
    simp only [DCPU16N.Reset, range16, List.foldl, setCell]
    interval_cases i <;> simp
  · have hp : s.Reset.phase = Phase.OPFETCH := rfl
    have hpc : s.Reset.pc = 0 := rfl
    have e : s.Reset.emuAddr 0 = 0x100000 := by
      simp [DCPU16N.emuAddr, DCPU16N.Reset, setCell]
    have e1 : (0x100000 + 1) % 2 ^ 32 = 0x100001 := by norm_num
    simp only [DCPU16N.tickOnce, hp, hpc, e, fetchWord, e1]
    cases h : vc.ReadB 0x100001 with
    | none => simp
    | some hi =>
      cases h2 : hi.2.ReadB 0x100000 with
      | none => simp [h2]
      | some lo => simp [h2]

/-- Witness of C7 on the used CPU `cpuUsed`, at cell 5 of `EMU`. -/
theorem C7_emu_reset_witness :
    (1 ≤ 5 ∧ 5 ≤ 15) ∧ cpuUsed.Reset.emu 5 = 5 <<< 12 :=
  ⟨by decide, (C7_emu_reset cpuUsed vcTrace).2.1 5 (by decide) (by decide)⟩

/-- C8. ALU carry: at the point of `Tick` where the `b` operand is read (the
label `UBREAD`, reached with the value of `a` in `acu` and `addrdec` clear,
whatever `phase` holds), an `ADD` whose `b` field names the general register
`i`, holding `x`, with `a` of value `y`, completes in that tick without any
bus access and leaves `r[i] = (x+y) & 0xFFFF`, `EX = (x+y) >> 16` and the
phase `OPFETCH`. -/
theorem C8_add_carry (s : DCPU16N) (vc : VComputer σ) (i x y : Nat)
    (hop : s.opcl &&& 0x001f = 0x02) (hb : (s.opcl >>> 5) &&& 0x01f = i) (hi : i < 8)
    (hdec : s.addrdec = false) (hx : s.r i = x) (hy : s.acu = y)
    (hx16 : x < 2 ^ 16) (hy16 : y < 2 ^ 16) :
    ∃ t, s.caseUBREAD vc = some (t, vc) ∧ t.r i = (x + y) &&& 0xFFFF ∧ t.ex = (x + y) >>> 16 ∧
      t.phase = Phase.OPFETCH := by
  obtain ⟨b1, b2, b3, b4, b5, b6, b7, b8⟩ := reg_field_bits i hi
  have e1 : (x + y) &&& 0xFFFF = (x + y) % 65536 := by
    have e : (0xFFFF : Nat) = 2 ^ 16 - 1 := by norm_num
    rw [e, Nat.and_pow_two_sub_one_eq_mod]
  simp [DCPU16N.caseUBREAD, DCPU16N.caseBCUFETCH, DCPU16N.caseEXEC, DCPU16N.execBinary,
    DCPU16N.caseUBWRITE, DCPU16N.caseBCUWRITE, hop, hb, hdec, b1, b2, b3, b4, b5, b6, b7, b8,
    setCell, hx, hy, e1]
  rw [Nat.shiftRight_eq_div_pow, Nat.shiftRight_eq_div_pow]
  norm_num at hx16 hy16 ⊢
  omega

/-- Witness of C8: `r0 = 0xFFFF; ADD r0, 1` (instruction word `0x8802`). -/
theorem C8_add_carry_witness :
    ((cpuAtB 0x8802 1 0xFFFF).opcl &&& 0x001f = 0x02 ∧
      ((cpuAtB 0x8802 1 0xFFFF).opcl >>> 5) &&& 0x01f = 0 ∧ 0 < 8 ∧
      (cpuAtB 0x8802 1 0xFFFF).addrdec = false ∧ (cpuAtB 0x8802 1 0xFFFF).r 0 = 0xFFFF ∧
      (cpuAtB 0x8802 1 0xFFFF).acu = 1 ∧ 0xFFFF < 2 ^ 16 ∧ 1 < 2 ^ 16) ∧
    ∃ t, (cpuAtB 0x8802 1 0xFFFF).caseUBREAD vcTrace = some (t, vcTrace) ∧
      t.r 0 = (0xFFFF + 1) &&& 0xFFFF ∧ t.ex = (0xFFFF + 1) >>> 16 ∧
      t.phase = Phase.OPFETCH :=
  ⟨by decide, C8_add_carry (cpuAtB 0x8802 1 0xFFFF) vcTrace 0 0xFFFF 1 (by decide) (by decide)
    (by decide) (by decide) (by decide) (by decide) (by decide) (by decide)⟩

/-- The scenario of the specification run from the ROM: after reset and
`r0 = 0xFFFF`, the two ticks of `ADD r0, 1` (bytes `02 88`) leave
`r0 = 0x0000`, `EX = 1`, `PC = 2` and the phase `OPFETCH`. -/
theorem add_overflow_from_rom :
    (DCPU16N.Tick 2 (cpuBoot 0xFFFF) (vcProg [0x02, 0x88])).map
      (fun p => (p.1.r 0, p.1.ex, p.1.pc, p.1.phase)) = some (0, 1, 2, Phase.OPFETCH) := by
  decide

theorem Tick_two (s : DCPU16N) (vc : VComputer σ) :
    DCPU16N.Tick 2 s vc = (s.tickOnce vc).bind fun p => p.1.tickOnce p.2 := by
  simp [DCPU16N.Tick]

/-- A whole instruction, from fetch to retirement: when the word fetched at
`PC` is an `ADD` (opcode 2) whose `b` field names the register `i` and whose
`a` field names the register `j`, two ticks from the phase `OPFETCH` leave
`r[i] = (r[i] + r[j]) & 0xFFFF`, `EX` equal to the carry, `PC` advanced by 2
and the phase `OPFETCH` again. -/
theorem add_register_instruction (s : DCPU16N) (vc vc1 : VComputer σ) (w i j : Nat)
    (hph : s.phase = Phase.OPFETCH) (hf : fetchWord vc (s.emuAddr s.pc) = some (w, vc1))
    (hop : w &&& 0x001f = 0x02) (hb : (w >>> 5) &&& 0x01f = i) (hi : i < 8)
    (ha : w >>> 10 = j) (hj : j < 8) (hdec : s.addrdec = false)
    (hx : s.r i < 2 ^ 16) (hy : s.r j < 2 ^ 16) :
    ∃ t, DCPU16N.Tick 2 s vc = some (t, vc1) ∧ t.r i = (s.r i + s.r j) &&& 0xFFFF ∧
      t.ex = (s.r i + s.r j) >>> 16 ∧ t.pc = (s.pc + 2) % 65536 ∧
      t.phase = Phase.OPFETCH := by
  obtain ⟨b1, b2, b3, b4, b5, b6, b7, b8⟩ := reg_field_bits i hi
  obtain ⟨a1, a2, a3, -, -, -, -, -⟩ := reg_field_bits j hj
  have a0 : j &&& 0x20 = 0 := by interval_cases j <;> decide
  have e1 : (s.r i + s.r j) &&& 0xFFFF = (s.r i + s.r j) % 65536 := by
    have e : (0xFFFF : Nat) = 2 ^ 16 - 1 := by norm_num
    rw [e, Nat.and_pow_two_sub_one_eq_mod]
  have hop0 : w &&& 0x001f ≠ 0 := by rw [hop]; decide
  have h1 : s.tickOnce vc =
      some ({ s with opcl := w, pc := (s.pc + 2) % 65536, phase := Phase.UAREAD }, vc1) := by
    simp only [DCPU16N.tickOnce, hph, hf, Option.map_some']
  have h2 : DCPU16N.tickOnce
        { s with opcl := w, pc := (s.pc + 2) % 65536, phase := Phase.UAREAD } vc1 =
      DCPU16N.caseUBREAD
        { s with opcl := w, pc := (s.pc + 2) % 65536, phase := Phase.UAREAD, acu := s.r j } vc1 := by
    simp [DCPU16N.tickOnce, DCPU16N.caseUAREAD, DCPU16N.caseACUFETCH, hop0, ha, hdec, a0, a1, a2, a3]
  rw [Tick_two, h1, Option.some_bind, h2]
  simp [DCPU16N.caseUBREAD, DCPU16N.caseBCUFETCH, DCPU16N.caseEXEC, DCPU16N.execBinary,
    DCPU16N.caseUBWRITE, DCPU16N.caseBCUWRITE, hop, hb, hdec, b1, b2, b3, b4, b5, b6, b7, b8,
    setCell, e1]
  rw [Nat.shiftRight_eq_div_pow, Nat.shiftRight_eq_div_pow]
  norm_num at hx hy ⊢
  omega
/-- C9. Signed division: at the point of `Tick` where the `b` operand is read,
a `DVI` whose `b` field names the general register `i`, holding the 16-bit
`x`, with `a` of 16-bit value `y ≠ 0`, completes in that tick and leaves
`r[i]` equal to the 16-bit encoding (reduction modulo `2^16`) of the
quotient of `int16 x` by `int16 y` rounded toward zero (`Int.tdiv`), and
`EX = 0` whenever `int16 y` divides `int16 x`. -/
theorem C9_signed_division (s : DCPU16N) (vc : VComputer σ) (i x y : Nat)
    (hop : s.opcl &&& 0x001f = 0x07) (hb : (s.opcl >>> 5) &&& 0x01f = i) (hi : i < 8)
    (hdec : s.addrdec = false) (hx : s.r i = x) (hy : s.acu = y)
    (hy0 : y ≠ 0) :
    ∃ t, s.caseUBREAD vc = some (t, vc) ∧
      t.r i = (Int.tdiv (int16 x) (int16 y) % 65536).toNat ∧
      (int16 y ∣ int16 x → t.ex = 0) ∧ t.phase = Phase.OPFETCH := by
  obtain ⟨b1, b2, b3, b4, b5, b6, b7, b8⟩ := reg_field_bits i hi
  simp [DCPU16N.caseUBREAD, DCPU16N.caseBCUFETCH, DCPU16N.caseEXEC, DCPU16N.execBinary,
    DCPU16N.caseUBWRITE, DCPU16N.caseBCUWRITE, hop, hb, hdec, b1, b2, b3, b4, b5, b6, b7, b8,
    setCell, hx, hy, hy0, toWord]
  intro hd h
  exact absurd (Int.tmod_eq_zero_of_dvd hd) h

/-- Witness of C9: `r0 = 0xFFFE; DVI r0, 1` (instruction word `0x8807`). -/
theorem C9_signed_division_witness :
    ((cpuAtB 0x8807 1 0xFFFE).opcl &&& 0x001f = 0x07 ∧
      ((cpuAtB 0x8807 1 0xFFFE).opcl >>> 5) &&& 0x01f = 0 ∧ 0 < 8 ∧
      (cpuAtB 0x8807 1 0xFFFE).addrdec = false ∧ (cpuAtB 0x8807 1 0xFFFE).r 0 = 0xFFFE ∧
      (cpuAtB 0x8807 1 0xFFFE).acu = 1 ∧ 1 ≠ 0) ∧
    ∃ t, (cpuAtB 0x8807 1 0xFFFE).caseUBREAD vcTrace = some (t, vcTrace) ∧
      t.r 0 = (Int.tdiv (int16 0xFFFE) (int16 1) % 65536).toNat ∧
      (int16 1 ∣ int16 0xFFFE → t.ex = 0) ∧ t.phase = Phase.OPFETCH :=
  ⟨by decide, C9_signed_division (cpuAtB 0x8807 1 0xFFFE) vcTrace 0 0xFFFE 1 (by decide)
    (by decide) (by decide) (by decide) (by decide) (by decide) (by decide)⟩

/-- The scenario of the specification run from the ROM: after reset and
`r0 = 0xFFFE`, the two ticks of `DVI r0, 1` (bytes `07 88`) leave
`r0 = 0xFFFE` and `EX = 0`. -/
theorem dvi_sign_from_rom :
    (DCPU16N.Tick 2 (cpuBoot 0xFFFE) (vcProg [0x07, 0x88])).map
      (fun p => (p.1.r 0, p.1.ex, p.1.pc, p.1.phase)) = some (0xFFFE, 0, 2, Phase.OPFETCH) := by
  decide

/-- C10. Division by zero: at the point of `Tick` where the `b` operand is
read, each of `DIV` (6), `DVI` (7), `MOD` (8), `MDI` (9) whose `b` field names
the general register `i`, with `a` of value `0`, completes in that tick,
leaves `r[i] = 0`, leaves `EX = 0` for `DIV` and `DVI`, and does not touch
`fire`. -/
theorem C10_division_by_zero (s : DCPU16N) (vc : VComputer σ) (i op : Nat)
    (hop : s.opcl &&& 0x001f = op) (hopv : op = 0x06 ∨ op = 0x07 ∨ op = 0x08 ∨ op = 0x09)
    (hb : (s.opcl >>> 5) &&& 0x01f = i) (hi : i < 8)
    (hdec : s.addrdec = false) (hy : s.acu = 0) :
    ∃ t, s.caseUBREAD vc = some (t, vc) ∧ t.r i = 0 ∧
      (op = 0x06 ∨ op = 0x07 → t.ex = 0) ∧ t.fire = s.fire ∧ t.phase = Phase.OPFETCH := by
  obtain ⟨b1, b2, b3, b4, b5, b6, b7, b8⟩ := reg_field_bits i hi
  rcases hopv with h | h | h | h <;> subst h <;>
  simp [DCPU16N.caseUBREAD, DCPU16N.caseBCUFETCH, DCPU16N.caseEXEC, DCPU16N.execBinary,
    DCPU16N.caseUBWRITE, DCPU16N.caseBCUWRITE, hop, hb, hdec, b1, b2, b3, b4, b5, b6, b7, b8,
    setCell, hy]

/-- Witness of C10: `r0 = 0x1234; MOD r0, 0` on a CPU whose `fire` is clear
(instruction word `0x8408`: opcode 8, `b` field 0, `a` field `0x21`). -/
theorem C10_division_by_zero_witness :
    ((cpuAtB 0x8408 0 0x1234).opcl &&& 0x001f = 0x08 ∧
      (0x08 = 0x06 ∨ 0x08 = 0x07 ∨ 0x08 = 0x08 ∨ 0x08 = 0x09) ∧
      ((cpuAtB 0x8408 0 0x1234).opcl >>> 5) &&& 0x01f = 0 ∧ 0 < 8 ∧
      (cpuAtB 0x8408 0 0x1234).addrdec = false ∧ (cpuAtB 0x8408 0 0x1234).acu = 0) ∧
    ∃ t, (cpuAtB 0x8408 0 0x1234).caseUBREAD vcTrace = some (t, vcTrace) ∧ t.r 0 = 0 ∧
      (0x08 = 0x06 ∨ 0x08 = 0x07 → t.ex = 0) ∧ t.fire = (cpuAtB 0x8408 0 0x1234).fire ∧
      t.phase = Phase.OPFETCH :=
  ⟨by decide, C10_division_by_zero (cpuAtB 0x8408 0 0x1234) vcTrace 0 0x08 (by decide)
    (by decide) (by decide) (by decide) (by decide) (by decide)⟩

/-- The four divisions by zero run from the ROM: after reset, `r0 = 0x1234`
and `EX` preset to `0x0055`, the two ticks of `DIV r0, 0`, `DVI r0, 0`,
`MOD r0, 0`, `MDI r0, 0` (instruction words `0x8406` to `0x8409`) each leave
`r0 = 0` and `fire` clear; `EX` is `0` after `DIV` and `DVI` and keeps its
value after `MOD` and `MDI`. -/
theorem division_by_zero_from_rom :
    [0x06, 0x07, 0x08, 0x09].map (fun op =>
      (DCPU16N.Tick 2 { cpuBoot 0x1234 with ex := 0x0055 } (vcProg [op, 0x84])).map
        (fun p => (p.1.r 0, p.1.ex, p.1.fire, p.1.phase))) =
    [some (0, 0, false, Phase.OPFETCH), some (0, 0, false, Phase.OPFETCH),
     some (0, 0x0055, false, Phase.OPFETCH), some (0, 0x0055, false, Phase.OPFETCH)] := by
  decide

end engine

end cpu

end vm

/-! ## DIV, STI/STD and SendInterrupt -/

namespace vm

namespace cpu

section engine2
variable {σ : Type}

/-- C11 (as amended). DIV result placement: at the point of `Tick` where the
`b` operand is read, a `DIV` whose `b` field names the general register `i`,
holding the 16-bit `x`, with `a` of 16-bit value `y ≠ 0`, completes in that
tick; with `q = (x << 16) / y` it leaves the high word of `q`, which is the
quotient `x / y`, in `r[i]` and the low word of `q` in `EX`. -/
theorem C11_div_high_word_to_b (s : DCPU16N) (vc : VComputer σ) (i x y : Nat)
    (hop : s.opcl &&& 0x001f = 0x06) (hb : (s.opcl >>> 5) &&& 0x01f = i) (hi : i < 8)
    (hdec : s.addrdec = false) (hx : s.r i = x) (hy : s.acu = y)
    (hx16 : x < 2 ^ 16) (hy0 : y ≠ 0) :
    ∃ t, s.caseUBREAD vc = some (t, vc) ∧ t.r i = ((x <<< 16) / y) >>> 16 ∧
      t.r i = x / y ∧ t.ex = ((x <<< 16) / y) &&& 0xFFFF ∧ t.phase = Phase.OPFETCH := by
  obtain ⟨b1, b2, b3, b4, b5, b6, b7, b8⟩ := reg_field_bits i hi
  have e1 : ((x <<< 16) / y) &&& 0xFFFF = ((x <<< 16) / y) % 65536 := and_FFFF _
  have hxs : x <<< 16 = x * 65536 := by rw [Nat.shiftLeft_eq]
  have hq : x * 65536 / y / 65536 = x / y := by
    rw [Nat.div_div_eq_div_mul, Nat.mul_comm y 65536, ← Nat.div_div_eq_div_mul,
      Nat.mul_div_cancel _ (by norm_num)]
  have hlt : x / y < 65536 := lt_of_le_of_lt (Nat.div_le_self x y) (by norm_num at hx16; exact hx16)
  simp [DCPU16N.caseUBREAD, DCPU16N.caseBCUFETCH, DCPU16N.caseEXEC, DCPU16N.execBinary,
    DCPU16N.caseUBWRITE, DCPU16N.caseBCUWRITE, hop, hb, hdec, b1, b2, b3, b4, b5, b6, b7, b8,
    setCell, hx, hy, hy0, e1]
  rw [Nat.shiftRight_eq_div_pow, Nat.shiftRight_eq_div_pow, hxs]
  norm_num at hx16 ⊢
  have h32 : x * 65536 % 4294967296 = x * 65536 := Nat.mod_eq_of_lt (by omega)
  rw [h32, hq]
  simp [Nat.mod_eq_of_lt hlt]

/-- C11, the claim at a concrete input: `r0 = 6; DIV r0, 3` (instruction word
`0x9006`).  Here `q = (6 << 16) / 3 = 0x20000`, low word `0`, high word `2`;
the claim puts `0` in `r0` and `2` in `EX`, the code leaves `r0 = 2` and
`EX = 0`. -/
theorem C11_div_placement_counterexample :
    ((cpuAtB 0x9006 3 6).caseUBREAD vcTrace).map (fun p => (p.1.r 0, p.1.ex)) = some (2, 0) ∧
    ¬ (((cpuAtB 0x9006 3 6).caseUBREAD vcTrace).map (fun p => (p.1.r 0, p.1.ex)) =
        some (((6 <<< 16) / 3) &&& 0xFFFF, ((6 <<< 16) / 3) >>> 16)) := by
  decide

/-- Witness of C11 (as amended): `r0 = 6; DIV r0, 3`. -/
theorem C11_div_high_word_to_b_witness :
    ((cpuAtB 0x9006 3 6).opcl &&& 0x001f = 0x06 ∧
      ((cpuAtB 0x9006 3 6).opcl >>> 5) &&& 0x01f = 0 ∧ 0 < 8 ∧
      (cpuAtB 0x9006 3 6).addrdec = false ∧ (cpuAtB 0x9006 3 6).r 0 = 6 ∧
      (cpuAtB 0x9006 3 6).acu = 3 ∧ 6 < 2 ^ 16 ∧ 3 ≠ 0) ∧
    ∃ t, (cpuAtB 0x9006 3 6).caseUBREAD vcTrace = some (t, vcTrace) ∧
      t.r 0 = ((6 <<< 16) / 3) >>> 16 ∧ t.r 0 = 6 / 3 ∧
      t.ex = ((6 <<< 16) / 3) &&& 0xFFFF ∧ t.phase = Phase.OPFETCH :=
  ⟨by decide, C11_div_high_word_to_b (cpuAtB 0x9006 3 6) vcTrace 0 6 3 (by decide) (by decide)
    (by decide) (by decide) (by decide) (by decide) (by decide) (by decide)⟩

/-- C12, the code at the failing inputs, run from the ROM after reset (all
registers `0`): `STI r6, 5` (word `0x98DE`) leaves `r6 = 5`, not `6`, and
`r7 = 1`; `STD r7, 5` (word `0x98FF`) leaves `r7 = 5`, not `4`, and
`r6 = 0xFFFF`.  The increment is made in the `EXEC` phase, before the
write-back of `b`, which then overwrites it. -/
theorem C12_sti_std_modify_before_writeback :
    (DCPU16N.Tick 2 (cpuBoot 0) (vcProg [0xDE, 0x98])).map
      (fun p => (p.1.r 6, p.1.r 7, p.1.phase)) = some (5, 1, Phase.OPFETCH) ∧
    (DCPU16N.Tick 2 (cpuBoot 0) (vcProg [0xFF, 0x98])).map
      (fun p => (p.1.r 6, p.1.r 7, p.1.phase)) = some (0xFFFF, 5, Phase.OPFETCH) := by
  decide

/-- For a `b` register other than `r6` and `r7` the order does not show: an
`STI` (opcode `0x1e`) or `STD` (opcode `0x1f`) whose `b` field names the
register `i < 6`, with `a` of value `v`, leaves `r[i] = v` and `r[6]`, `r[7]`
one greater (one smaller for `STD`) modulo `2^16`. -/
theorem sti_std_other_register (s : DCPU16N) (vc : VComputer σ) (i v : Nat)
    (hop : s.opcl &&& 0x001f = 0x1e ∨ s.opcl &&& 0x001f = 0x1f)
    (hb : (s.opcl >>> 5) &&& 0x01f = i) (hi : i < 6)
    (hdec : s.addrdec = false) (hv : s.acu = v) :
    ∃ t, s.caseUBREAD vc = some (t, vc) ∧ t.r i = v ∧
      t.r 6 = (s.r 6 + (if s.opcl &&& 0x001f = 0x1e then 1 else 65535)) % 65536 ∧
      t.r 7 = (s.r 7 + (if s.opcl &&& 0x001f = 0x1e then 1 else 65535)) % 65536 ∧
      t.phase = Phase.OPFETCH := by
  obtain ⟨b1, b2, b3, b4, b5, b6, b7, b8⟩ := reg_field_bits i (by omega)
  have h6 : (6 : Nat) ≠ i := by omega
  have h7 : (7 : Nat) ≠ i := by omega
  rcases hop with hop | hop <;>
  simp [DCPU16N.caseUBREAD, DCPU16N.caseBCUFETCH, DCPU16N.caseEXEC, DCPU16N.execBinary,
    DCPU16N.caseUBWRITE, DCPU16N.caseBCUWRITE, hop, hb, hdec, b1, b2, b3, b4, b5, b6, b7, b8,
    setCell, hv, h6, h7]

/-- What the code does on `SendInterrupt(msg)`: it returns `true` and leaves
the CPU as it is (`PC`, `r[0]`, `SP`, `qint`, the queue counters), for every
state and every message. -/
theorem SendInterrupt_code (s : DCPU16N) (msg : Nat) :
    s.SendInterrupt msg = (true, s) := by
  rfl

/-- C15, the code at the failing inputs.  On `cpuIrqOpen` (`qint` clear,
`IA = 0x0040`, `PC = 0x1234`, `r0 = 0x1111`) `SendInterrupt(0x5678)` returns
`true` but leaves `PC = 0x1234`, `r0 = 0x1111`, `SP` and `qint` as they were,
where the claim has `PC = IA`, `r0 = msg`, two words pushed and `qint` set.
On `cpuUsed` (`qint` set, `IA = 0x0040`) it returns `true` and leaves the
queue counters `iqp` and `iqc` as they were: the message is not queued. -/
theorem C15_send_interrupt_does_nothing :
    cpuIrqOpen.qint = false ∧ cpuIrqOpen.ia ≠ 0 ∧
    (cpuIrqOpen.SendInterrupt 0x5678).1 = true ∧
    ¬ ((cpuIrqOpen.SendInterrupt 0x5678).2.pc = cpuIrqOpen.ia ∧
       (cpuIrqOpen.SendInterrupt 0x5678).2.r 0 = 0x5678 ∧
       (cpuIrqOpen.SendInterrupt 0x5678).2.qint = true) ∧
    (cpuIrqOpen.SendInterrupt 0x5678).2.pc = 0x1234 ∧
    (cpuIrqOpen.SendInterrupt 0x5678).2.r 0 = 0x1111 ∧
    (cpuIrqOpen.SendInterrupt 0x5678).2.sp = cpuIrqOpen.sp ∧
    (cpuIrqOpen.SendInterrupt 0x5678).2.qint = false ∧
    cpuUsed.qint = true ∧ cpuUsed.ia ≠ 0 ∧
    (cpuUsed.SendInterrupt 0x5678).1 = true ∧
    (cpuUsed.SendInterrupt 0x5678).2.iqp = cpuUsed.iqp ∧
    (cpuUsed.SendInterrupt 0x5678).2.iqc = cpuUsed.iqc := by
  decide

end engine2

end cpu

end vm

/-! ## Skipping and the fire flag -/

namespace vm

namespace cpu

section engine3
variable {σ : Type}

theorem Tick_add (m n : Nat) (s : DCPU16N) (vc : VComputer σ) :
    DCPU16N.Tick (m + n) s vc = (DCPU16N.Tick m s vc).bind fun p => DCPU16N.Tick n p.1 p.2 := by
  induction m generalizing s vc with
  | zero => simp [DCPU16N.Tick]
  | succ k ih =>
    have e : k + 1 + n = (k + n) + 1 := by omega
    rw [e]
    simp only [DCPU16N.Tick]
    cases h : s.tickOnce vc with
    | none => simp
    | some p => simp [ih]

theorem Tick_one (s : DCPU16N) (vc : VComputer σ) : DCPU16N.Tick 1 s vc = s.tickOnce vc := by
  simp [DCPU16N.Tick]

/-- A CPU in the phase `EXECSKIP` stays as it is under any number of ticks:
the case of the switch is a bare `break`. -/
theorem execskip_stays (n : Nat) (s : DCPU16N) (vc : VComputer σ)
    (h : s.phase = Phase.EXECSKIP) : DCPU16N.Tick n s vc = some (s, vc) := by
  induction n with
  | zero => rfl
  | succ k ih =>
    have h1 : s.tickOnce vc = some (s, vc) := by simp only [DCPU16N.tickOnce, h]
    simp only [DCPU16N.Tick, h1, Option.some_bind, ih]

/-- A CPU in the phase `SLEEP` stays as it is under any number of ticks. -/
theorem sleep_stays (n : Nat) (s : DCPU16N) (vc : VComputer σ)
    (h : s.phase = Phase.SLEEP) : DCPU16N.Tick n s vc = some (s, vc) := by
  induction n with
  | zero => rfl
  | succ k ih =>
    have h1 : s.tickOnce vc = some (s, vc) := by simp only [DCPU16N.tickOnce, h]
    simp only [DCPU16N.Tick, h1, Option.some_bind, ih]

/-- C13, the code at the failing input, run from the ROM after reset: the
program is `IFE r0, 1; SET r1, 5; SET r2, 8` with `r0 = 0`, so the condition
of `IFE` fails.  After the two ticks of `IFE` the phase is `EXECSKIP` with
`PC = 2`, and it stays so under every further number `n` of ticks: the phase
never returns to `OPFETCH` and `PC` never reaches `4`. -/
theorem C13_skip_never_resumes (n : Nat) :
    (DCPU16N.Tick (2 + n) (cpuBoot 0) (vcProg progIfe)).map
      (fun p => (p.1.phase, p.1.pc, p.1.r 1, p.1.r 2)) = some (Phase.EXECSKIP, 2, 0, 0) := by
  have h2 : (DCPU16N.Tick 2 (cpuBoot 0) (vcProg progIfe)).map
      (fun p => (p.1.phase, p.1.pc, p.1.r 1, p.1.r 2)) = some (Phase.EXECSKIP, 2, 0, 0) := by
    decide
  rw [Tick_add]
  cases h : DCPU16N.Tick 2 (cpuBoot 0) (vcProg progIfe) with
  | none => simp [h] at h2
  | some p =>
    simp only [h, Option.map_some', Option.some.injEq, Prod.mk.injEq] at h2
    rw [Option.some_bind, execskip_stays n p.1 p.2 h2.1]
    simp [h2]

/-- C18, the code at the failing input, run from the ROM after reset: the
program is `HCF r0; SET r0, 1`.  The two ticks of `HCF` set `fire` and leave
`r0 = 0`, `PC = 2`; two more ticks execute `SET r0, 1` all the same: `fire`
is still set but `r0` has become `1` and `PC` `4`. -/
theorem C18_tick_runs_on_after_fire :
    (DCPU16N.Tick 2 (cpuBoot 0) (vcProg progHcf)).map
      (fun p => (p.1.fire, p.1.r 0, p.1.pc, p.1.phase)) = some (true, 0, 2, Phase.OPFETCH) ∧
    (DCPU16N.Tick 4 (cpuBoot 0) (vcProg progHcf)).map
      (fun p => (p.1.fire, p.1.r 0, p.1.pc, p.1.phase)) = some (true, 1, 4, Phase.OPFETCH) := by
  decide

end engine3

end cpu

end vm

/-! ## Step on HLT -/

namespace vm

namespace cpu

section engine4
variable {σ : Type}

theorem sleep_tick (s : DCPU16N) (vc : VComputer σ) (h : s.phase = Phase.SLEEP) :
    DCPU16N.Tick 1 s vc = some (s, vc) := by
  simp only [DCPU16N.Tick, DCPU16N.tickOnce, h, Option.some_bind]

/-- Once the CPU sleeps with `fire` clear, the loop of `Step` goes on for
ever: no bound on the iterations lets it return. -/
theorem stepLoop_sleep_running (fuel x : Nat) (s : DCPU16N) (vc : VComputer σ)
    (hph : s.phase = Phase.SLEEP) (hfire : s.fire = false) :
    DCPU16N.stepLoop fuel x s vc = StepOutcome.running := by
  induction fuel generalizing x with
  | zero => rfl
  | succ k ih =>
    simp only [DCPU16N.stepLoop, sleep_tick s vc hph]
    simp [hph, hfire, ih]

/-- The tick that executes an instruction word without operand (`HLT`, bits
0..14 all clear): from the phase `UAREAD` it falls through to `EXEC` and
leaves the CPU in `SLEEP`, `fire` untouched. -/
theorem hlt_tick (s : DCPU16N) (vc : VComputer σ)
    (hph : s.phase = Phase.UAREAD) (h1 : s.opcl &&& 0x001f = 0) (h2 : s.opcl &&& 0x03e0 = 0)
    (h3 : (s.opcl >>> 10) &&& 0x001f = 0) (hdec : s.addrdec = false) :
    ∃ t, s.tickOnce vc = some (t, vc) ∧ t.phase = Phase.SLEEP ∧ t.fire = s.fire ∧
      t.r = s.r ∧ t.pc = s.pc := by
  have hA : s.tickOnce vc = s.caseACUFETCH vc := by
    simp only [DCPU16N.tickOnce, hph, DCPU16N.caseUAREAD, h1, h2, ne_eq, not_true_eq_false,
      or_self, if_false]
  have hB : s.caseACUFETCH vc = s.caseUBREAD vc := by
    simp only [DCPU16N.caseACUFETCH, hdec, Bool.false_eq_true, if_false]
  have hC : s.caseUBREAD vc = s.caseBCUFETCH vc := by
    simp only [DCPU16N.caseUBREAD, h1, ne_eq, not_true_eq_false, if_false]
  have hD : s.caseBCUFETCH vc = s.caseEXEC vc := by
    simp only [DCPU16N.caseBCUFETCH, hdec, Bool.false_eq_true, if_false]
  rw [hA, hB, hC, hD]
  simp [DCPU16N.caseEXEC, DCPU16N.execNullary, DCPU16N.caseUBWRITE, DCPU16N.caseBCUWRITE,
    DCPU16N.SendInterrupt, h1, h2, h3, hdec]

theorem stepLoop_hlt_running (fuel x : Nat) (s : DCPU16N) (vc : VComputer σ)
    (hph : s.phase = Phase.UAREAD) (hfire : s.fire = false) (hdec : s.addrdec = false)
    (h1 : s.opcl &&& 0x001f = 0) (h2 : s.opcl &&& 0x03e0 = 0)
    (h3 : (s.opcl >>> 10) &&& 0x001f = 0) :
    DCPU16N.stepLoop fuel x s vc = StepOutcome.running := by
  cases fuel with
  | zero => rfl
  | succ j =>
    obtain ⟨t, e, tp, tf, -, -⟩ := hlt_tick s vc hph h1 h2 h3 hdec
    have tf2 : t.fire = false := by rw [tf]; exact hfire
    simp only [DCPU16N.stepLoop, Tick_one, e]
    rw [if_pos ⟨tf2, by simp [tp]⟩]
    exact stepLoop_sleep_running _ _ t vc tp tf2

/-- From the start of an instruction whose word is `HLT`, with `fire` clear,
`Step` never returns: every tick is defined, and after each of them `fire`
is clear and the phase is not `OPFETCH`. -/
theorem step_on_hlt_running (fuel : Nat) (s : DCPU16N) (vc : VComputer σ) (w : Nat)
    (hph : s.phase = Phase.OPFETCH) (hfire : s.fire = false) (hdec : s.addrdec = false)
    (hf : (fetchWord vc (s.emuAddr s.pc)).map Prod.fst = some w)
    (h1 : w &&& 0x001f = 0) (h2 : w &&& 0x03e0 = 0) (h3 : (w >>> 10) &&& 0x001f = 0) :
    DCPU16N.Step fuel s vc = StepOutcome.running := by
  cases hfw : fetchWord vc (s.emuAddr s.pc) with
  | none => simp [hfw] at hf
  | some q =>
    simp only [hfw, Option.map_some', Option.some.injEq] at hf
    have ht1 : DCPU16N.Tick 1 s vc =
        some ({ s with opcl := q.1, pc := (s.pc + 2) % 65536, phase := Phase.UAREAD }, q.2) := by
      simp only [DCPU16N.Tick, DCPU16N.tickOnce, hph, hfw, Option.map_some', Option.some_bind]
    cases fuel with
    | zero => rfl
    | succ k =>
      simp only [DCPU16N.Step, DCPU16N.stepLoop, ht1]
      rw [if_pos ⟨hfire, by simp⟩]
      exact stepLoop_hlt_running _ _ _ q.2 rfl hfire hdec (by simpa [hf] using h1)
        (by simpa [hf] using h2) (by simpa [hf] using h3)

/-- C14, the code at the failing input: the ROM program
`SET r0, 1; ADD r0, 1; HLT` after reset.  The first two calls of `Step`
return `2` and leave `r0 = 1`, then `r0 = 2`.  The third call never returns,
whatever bound is put on its loop: its second tick executes `HLT`, and from
then on every tick is defined and leaves `r0 = 2`, `fire` clear and the phase
`SLEEP`, so the loop condition `(!fire) && (phase != 0)` holds for ever. -/
theorem C14_third_step_never_returns :
    (DCPU16N.Step 8 (cpuBoot 0) (vcProg progSetAddHlt)).ticks = some 2 ∧
    afterStep1.1.r 0 = 1 ∧
    (DCPU16N.Step 8 afterStep1.1 afterStep1.2).ticks = some 2 ∧
    afterStep2.1.r 0 = 2 ∧ afterStep2.1.phase = Phase.OPFETCH ∧ afterStep2.1.fire = false ∧
    (∀ fuel, DCPU16N.Step fuel afterStep2.1 afterStep2.2 = StepOutcome.running) ∧
    (∀ n, (DCPU16N.Tick (2 + n) afterStep2.1 afterStep2.2).map
      (fun p => (p.1.phase, p.1.fire, p.1.r 0)) = some (Phase.SLEEP, false, 2)) := by
  refine ⟨by decide, by decide, by decide, by decide, by decide, by decide, ?_, ?_⟩
  · intro fuel
    exact step_on_hlt_running fuel afterStep2.1 afterStep2.2 0 (by decide) (by decide)
      (by decide) (by decide) (by decide) (by decide) (by decide)
  · intro n
    have h2 : (DCPU16N.Tick 2 afterStep2.1 afterStep2.2).map
        (fun p => (p.1.phase, p.1.fire, p.1.r 0)) = some (Phase.SLEEP, false, 2) := by
      decide
    rw [Tick_add]
    cases h : DCPU16N.Tick 2 afterStep2.1 afterStep2.2 with
    | none => simp [h] at h2
    | some p =>
      simp only [h, Option.map_some', Option.some.injEq, Prod.mk.injEq] at h2
      rw [Option.some_bind, sleep_stays n p.1 p.2 h2.1]
      simp [h2]

end engine4

end cpu

end vm

/-! ## MMW and MMR -/

namespace vm

namespace cpu

section engine5
variable {σ : Type}

theorem unary_field_mask (w : Nat) : w &&& 0x03e0 = ((w >>> 5) &&& 0x001f) <<< 5 := by
  have e : (0x03e0 : Nat) = 0x001f <<< 5 := by decide
  rw [e, and_shiftLeft_eq]

/-- The fall-through from the label `UBREAD` to the label `EXEC` for an
instruction whose binary opcode field is `0`: no `b` operand is read. -/
theorem caseUBREAD_unary (s : DCPU16N) (vc : VComputer σ)
    (hop : s.opcl &&& 0x001f = 0) (hdec : s.addrdec = false) :
    s.caseUBREAD vc = s.caseEXEC vc := by
  have hC : s.caseUBREAD vc = s.caseBCUFETCH vc := by
    simp only [DCPU16N.caseUBREAD, hop, ne_eq, not_true_eq_false, if_false]
  have hD : s.caseBCUFETCH vc = s.caseEXEC vc := by
    simp only [DCPU16N.caseBCUFETCH, hdec, Bool.false_eq_true, if_false]
  rw [hC, hD]

/-- The fall-through from the label `UAREAD` to the label `UBREAD` when the
`a` field of a unary instruction names the general register `i`. -/
theorem caseUAREAD_unary_reg (s : DCPU16N) (vc : VComputer σ) (i : Nat)
    (hun : s.opcl &&& 0x03e0 ≠ 0) (ha : s.opcl >>> 10 = i) (hi : i < 8)
    (hdec : s.addrdec = false) :
    s.caseUAREAD vc = DCPU16N.caseUBREAD { s with acu := s.r i } vc := by
  obtain ⟨a1, a2, a3, -, -, -, -, -⟩ := reg_field_bits i hi
  have a0 : i &&& 0x20 = 0 := by interval_cases i <;> decide
  simp [DCPU16N.caseUAREAD, DCPU16N.caseACUFETCH, hun, ha, hdec, a0, a1, a2, a3]

theorem emu_word_back (x : Nat) (hx : x < 2 ^ 16) :
    ((x &&& 0xfff0) ||| (x &&& 0x0f)) % 65536 = x := by
  rw [← Nat.and_or_distrib_left]
  have e : (0xfff0 ||| 0x0f : Nat) = 2 ^ 16 - 1 := by decide
  rw [e, Nat.and_pow_two_sub_one_eq_mod, Nat.mod_mod, Nat.mod_eq_of_lt hx]

theorem a_field_no_write (w : Nat) (hw : w < 2 ^ 16) : (w >>> 10) &&& 0x0100 = 0 := by
  have h : w >>> 10 < 64 := by
    rw [Nat.shiftRight_eq_div_pow]
    norm_num at hw ⊢
    omega
  generalize w >>> 10 = v at h
  interval_cases v <;> decide

/-- C19. MMW/MMR round trip: an `MMW` (unary opcode `0x10`) with an operand of
16-bit value `x` completes in its tick, sets `EMU[x & 0xF]` to
`(x & 0xFFF0) << 12` and leaves every other cell of `EMU` as it was; and on
every CPU `u` with that `EMU`, an `MMR` (unary opcode `0x11`) whose `a` field
names a general register `i` holding `x` completes in its tick and leaves
`r[i] = x`. -/
theorem C19_mmw_mmr_round_trip (s : DCPU16N) (vc : VComputer σ) (x : Nat)
    (hw : s.opcl < 2 ^ 16) (hop : s.opcl &&& 0x001f = 0) (hun : (s.opcl >>> 5) &&& 0x001f = 0x10)
    (hdec : s.addrdec = false) (hx : s.acu = x) (hx16 : x < 2 ^ 16) :
    ∃ t, s.caseUBREAD vc = some (t, vc) ∧ t.emu (x &&& 0xF) = (x &&& 0xFFF0) <<< 12 ∧
      (∀ k, k ≠ x &&& 0xF → t.emu k = s.emu k) ∧ t.phase = Phase.OPFETCH ∧
      ∀ (u : DCPU16N) (vc2 : VComputer σ) (i : Nat), u.emu = t.emu →
        u.opcl &&& 0x001f = 0 → (u.opcl >>> 5) &&& 0x001f = 0x11 → u.opcl >>> 10 = i →
        i < 8 → u.r i = x → u.addrdec = false →
        ∃ t2, u.caseUAREAD vc2 = some (t2, vc2) ∧ t2.r i = x ∧ t2.emu = u.emu ∧
          t2.phase = Phase.OPFETCH := by
  have hne : s.opcl &&& 0x03e0 ≠ 0 := by rw [unary_field_mask, hun]; decide
  have hle : x &&& 0xfff0 ≤ 0xfff0 := Nat.and_le_right
  have hmod : ((x &&& 0xfff0) <<< 12) % 4294967296 = (x &&& 0xfff0) <<< 12 := by
    apply Nat.mod_eq_of_lt
    rw [Nat.shiftLeft_eq]
    omega
  rw [caseUBREAD_unary s vc hop hdec]
  have w1 : (s.opcl >>> 10) &&& 0x0100 = 0 := a_field_no_write s.opcl hw
  have hrun : s.caseEXEC vc = some
      ({ s with phase := Phase.OPFETCH, wrt := s.opcl >>> 10, bca := s.aca,
                emu := setCell s.emu (x &&& 0x0f) ((x &&& 0xfff0) <<< 12) }, vc) := by
    simp [DCPU16N.caseEXEC, DCPU16N.execUnary, DCPU16N.caseUBWRITE, DCPU16N.caseBCUWRITE,
      hop, hne, hun, w1, hdec, hx, hmod]
  refine ⟨_, hrun, ?_, ?_, rfl, ?_⟩
  · simp [setCell]
  · intro k hk
    simp [setCell, hk]
  · intro u vc2 i hemu uop uun ua hi ur udec
    have une : u.opcl &&& 0x03e0 ≠ 0 := by rw [unary_field_mask, uun]; decide
    obtain ⟨b1, b2, b3, b4, b5, b6, b7, b8⟩ := reg_field_bits i hi
    rw [caseUAREAD_unary_reg u vc2 i une ua hi udec,
      caseUBREAD_unary { u with acu := u.r i } vc2 uop udec]
    have he : u.emu (x &&& 0x0f) = (x &&& 0xfff0) <<< 12 := by
      rw [hemu]; simp [setCell]
    simp [DCPU16N.caseEXEC, DCPU16N.execUnary, DCPU16N.caseUBWRITE, DCPU16N.caseBCUWRITE,
      uop, une, uun, ua, udec, ur, he, b4, b5, b6, b7, b8, setCell, emu_word_back x hx16]

/-- Witness of C19: `MMW` with the operand value `0x1234` (instruction word
`0x0200`). -/
theorem C19_mmw_mmr_round_trip_witness :
    ((cpuAtB 0x0200 0x1234 0x1234).opcl < 2 ^ 16 ∧
      (cpuAtB 0x0200 0x1234 0x1234).opcl &&& 0x001f = 0 ∧
      ((cpuAtB 0x0200 0x1234 0x1234).opcl >>> 5) &&& 0x001f = 0x10 ∧
      (cpuAtB 0x0200 0x1234 0x1234).addrdec = false ∧
      (cpuAtB 0x0200 0x1234 0x1234).acu = 0x1234 ∧ 0x1234 < 2 ^ 16) ∧
    ∃ t, (cpuAtB 0x0200 0x1234 0x1234).caseUBREAD vcTrace = some (t, vcTrace) ∧
      t.emu (0x1234 &&& 0xF) = (0x1234 &&& 0xFFF0) <<< 12 ∧
      (∀ k, k ≠ 0x1234 &&& 0xF → t.emu k = (cpuAtB 0x0200 0x1234 0x1234).emu k) ∧
      t.phase = Phase.OPFETCH ∧
      ∀ (u : DCPU16N) (vc2 : VComputer (List (Nat × Nat))) (i : Nat), u.emu = t.emu →
        u.opcl &&& 0x001f = 0 → (u.opcl >>> 5) &&& 0x001f = 0x11 → u.opcl >>> 10 = i →
        i < 8 → u.r i = 0x1234 → u.addrdec = false →
        ∃ t2, u.caseUAREAD vc2 = some (t2, vc2) ∧ t2.r i = 0x1234 ∧ t2.emu = u.emu ∧
          t2.phase = Phase.OPFETCH :=
  ⟨by decide, C19_mmw_mmr_round_trip (cpuAtB 0x0200 0x1234 0x1234) vcTrace 0x1234 (by decide)
    (by decide) (by decide) (by decide) (by decide) (by decide)⟩

/-- The two instructions run from the ROM after reset with `r0 = 0x1234`:
the four ticks of `MMW r0; MMR r0` leave `EMU[4] = 0x1230000`, `EMU[3]` as
reset left it, and `r0 = 0x1234`. -/
theorem mmw_mmr_from_rom :
    (DCPU16N.Tick 4 (cpuBoot 0x1234) (vcProg progMmwMmr)).map
      (fun p => (p.1.emu 4, p.1.emu 3, p.1.r 0, p.1.pc, p.1.phase)) =
      some (0x1230000, 0x3000, 0x1234, 4, Phase.OPFETCH) := by
  decide

end engine5

end cpu

end vm

/-! ## Bytes and words in RAM -/

namespace vm

section bus2
variable {σ : Type}

/-- A byte write below `ram_size` stores the byte and then calls the
listener, if any. -/
theorem WriteB_ram (vc : VComputer σ) (a v : Nat) (h : a < vc.ram_size) (h24 : a < 2 ^ 24) :
    vc.WriteB a v = some (VComputer.listenerWrite
      { vc with ram := fun j => if j = a then v % 256 else vc.ram j } AddrListener.WriteB 8 a v) := by
  have hm : a &&& 0x00FFFFFF = a := and_FFFFFF_of_lt a h24
  simp only [VComputer.WriteB, hm, h, if_true, VComputer.ramStore, VComputer.ramPut,
    Option.some_bind, Option.map_some']

/-- A byte read below `ram_size` (at most 1 MiB) returns the RAM byte. -/
theorem ReadB_ram (vc : VComputer σ) (a : Nat) (h : a < vc.ram_size)
    (hsz : vc.ram_size ≤ MAX_RAM_SIZE) : vc.ReadB a = some (vc.ram a % 256, vc) := by
  unfold MAX_RAM_SIZE at hsz
  have h20 : a < 2 ^ 20 := by norm_num; omega
  have hm : a &&& 0x00FFFFFF = a := and_FFFFFF_of_lt a (by norm_num at h20 ⊢; omega)
  have hz : a &&& 0xF00000 = 0 := and_F00000_of_lt a h20
  simp only [VComputer.ReadB, hm, hz, if_true, VComputer.ramAt, h, Option.map_some']

theorem shl_or_eq_add (a b k : Nat) (h : b < 2 ^ k) : (a <<< k) ||| b = a * 2 ^ k + b := by
  apply Nat.eq_of_testBit_eq
  intro j
  rw [Nat.testBit_or, Nat.testBit_shiftLeft, Nat.mul_comm, Nat.testBit_mul_pow_two_add a h]
  by_cases hj : j < k
  · have : ¬ j ≥ k := by omega
    simp [hj, this]
  · have hge : j ≥ k := by omega
    have hb : b.testBit j = false :=
      Nat.testBit_lt_two_pow (lt_of_lt_of_le h (Nat.pow_le_pow_right (by norm_num) hge))
    simp [hj, hge, hb]

theorem word_of_bytes (p : Nat) (hp : p < 2 ^ 16) :
    ((((p >>> 8) % 256) <<< 8) ||| ((p &&& 0x0ff) % 256)) % 65536 = p := by
  have e1 : p &&& 0x0ff = p % 256 := by
    have e : (0x0ff : Nat) = 2 ^ 8 - 1 := by norm_num
    rw [e, Nat.and_pow_two_sub_one_eq_mod]
  rw [e1, shl_or_eq_add _ _ 8 (by norm_num; omega), Nat.shiftRight_eq_div_pow]
  norm_num at hp ⊢
  omega

end bus2

end vm

/-! ## JSR and BSR -/

namespace vm

namespace cpu


section engine6
variable {σ : Type}

theorem push_wrt_bits :
    (0x0118 : Nat) &&& 0x0100 ≠ 0 ∧ (0x0118 : Nat) &&& 0x0020 = 0 ∧ (0x0118 : Nat) &&& 0x010 ≠ 0 ∧
    (0x0118 : Nat) &&& 0x08 ≠ 0 ∧ (0x0118 : Nat) &&& 0x7 = 0 := by
  decide

/-- The label `EXEC` for an instruction whose binary opcode field is `0` and
whose unary opcode field is not: the unary switch, then the write-back. -/
theorem caseEXEC_unary (s : DCPU16N) (vc : VComputer σ)
    (hop : s.opcl &&& 0x001f = 0) (hne : s.opcl &&& 0x03e0 ≠ 0) :
    s.caseEXEC vc =
      (DCPU16N.execUnary { s with phase := Phase.OPFETCH } vc).bind
        fun p => p.1.caseUBWRITE p.2 := by
  unfold DCPU16N.caseEXEC
  dsimp only
  have h1 : ¬ (s.opcl &&& 0x001f ≠ 0) := by simpa using hop
  rw [if_neg h1, if_pos hne]

/-- The write-back of a pushed word: with `wrt = 0x0118` the label `UBWRITE`
sets `addrdec` and the label `BCUWRITE` stores `bcu` at `bca`, high byte
first. -/
theorem caseUBWRITE_push (s : DCPU16N) (vc vcA vcB : VComputer σ)
    (hw : s.wrt = 0x0118) (hdec : s.addrdec = false)
    (hA : vc.WriteB ((s.bca + 1) % 2 ^ 32) ((s.bcu >>> 8) % 256) = some vcA)
    (hB : vcA.WriteB s.bca (s.bcu &&& 0x0ff) = some vcB) :
    s.caseUBWRITE vc = some (s, vcB) := by
  obtain ⟨w1, w2, w3, w4, w5⟩ := push_wrt_bits
  have h1 : s.caseUBWRITE vc = DCPU16N.caseBCUWRITE { s with addrdec := true } vc := by
    simp only [DCPU16N.caseUBWRITE, hw, w1, w2, w3, w4, w5, ne_eq, not_false_eq_true,
      not_true_eq_false, if_true, if_false]
  rw [h1]
  simp only [DCPU16N.caseBCUWRITE, if_true, hA, hB, Option.some_bind]
  cases s
  simp_all

/-- The unary switch for `JSR` (opcode 1) and `BSR` (opcode 2): the return
address goes to `bcu`, `SP` is lowered by 2, `bca` is the translated address
of the new `SP`, the write-back register is `0x0118` and the phase
`EXECJMP`; `BSR` adds `PC` to the target in `acu`. -/
theorem execUnary_jsr_bsr (s : DCPU16N) (vc : VComputer σ) (op : Nat)
    (hun : (s.opcl >>> 5) &&& 0x001f = op) (hopv : op = 0x01 ∨ op = 0x02) :
    DCPU16N.execUnary { s with phase := Phase.OPFETCH } vc = some
      ({ s with phase := Phase.EXECJMP, wrt := 0x0118,
                bca := s.emuAddr ((s.sp + 65534) % 65536), bcu := s.pc,
                sp := (s.sp + 65534) % 65536,
                acu := (if op = 0x01 then s.acu else (s.acu + s.pc) % 65536) }, vc) := by
  rcases hopv with h | h <;> subst h <;>
  simp [DCPU16N.execUnary, DCPU16N.emuAddr, hun]

/-- C20 (as amended). JSR/BSR push then jump: a `JSR` (unary opcode 1) or
`BSR` (unary opcode 2) whose `a` operand has the 16-bit value `t`, with `p`
the `PC` after the instruction and operand words, when the two bytes at the
EMU-translated address of the new `SP` lie in RAM (`ram_size ≤ 1 MiB`),
retires in two ticks (the rest of the operand tick, then `EXECJMP`) with `SP`
two less modulo `2^16` than it was when the operand had been read, the
little-endian word at the translated address of the new `SP` equal to `p`,
and `PC = t` for `JSR`, `PC = (t + p) mod 2^16` for `BSR`. -/
theorem C20_jsr_bsr_push_in_ram (s : DCPU16N) (vc : VComputer σ) (op t p : Nat)
    (hop : s.opcl &&& 0x001f = 0) (hun : (s.opcl >>> 5) &&& 0x001f = op)
    (hopv : op = 0x01 ∨ op = 0x02) (hdec : s.addrdec = false)
    (ht : s.acu = t) (hp : s.pc = p) (hp16 : p < 2 ^ 16)
    (hsz : vc.ram_size ≤ MAX_RAM_SIZE)
    (hram : s.emuAddr ((s.sp + 65534) % 65536) + 1 < vc.ram_size) :
    ∃ s1 vc2 s2, s.caseUBREAD vc = some (s1, vc2) ∧ s1.tickOnce vc2 = some (s2, vc2) ∧
      s2.phase = Phase.OPFETCH ∧ s2.sp = (s.sp + 65534) % 65536 ∧
      s2.pc = (if op = 0x01 then t else (t + p) % 65536) ∧
      fetchWord vc2 (s2.emuAddr s2.sp) = some (p, vc2) := by
  obtain ⟨w1, w2, w3, w4, w5⟩ := push_wrt_bits
  have hne : s.opcl &&& 0x03e0 ≠ 0 := by
    rw [unary_field_mask, hun]; rcases hopv with h | h <;> subst h <;> decide
  have hsz2 := hsz
  unfold MAX_RAM_SIZE at hsz2
  simp only [DCPU16N.emuAddr] at hram
  generalize hbca : s.emu ((((s.sp + 65534) % 65536) >>> 12) &&& 0xf) |||
      (((s.sp + 65534) % 65536) &&& 0x0fff) = bca at hram
  have h32 : (bca + 1) % 2 ^ 32 = bca + 1 := Nat.mod_eq_of_lt (by norm_num; omega)
  have h32n : (bca + 1) % 4294967296 = bca + 1 := Nat.mod_eq_of_lt (by omega)
  have hA := WriteB_ram vc (bca + 1) ((p >>> 8) % 256) hram (by norm_num; omega)
  generalize hvA : VComputer.listenerWrite
      { vc with ram := fun j => if j = bca + 1 then (p >>> 8) % 256 % 256 else vc.ram j }
      AddrListener.WriteB 8 (bca + 1) ((p >>> 8) % 256) = vcA at hA
  have hAr : vcA.ram = fun j => if j = bca + 1 then (p >>> 8) % 256 % 256 else vc.ram j := by
    rw [← hvA, listenerWrite_ram]
  have hAs : vcA.ram_size = vc.ram_size := by rw [← hvA, listenerWrite_ram_size]
  have hB := WriteB_ram vcA bca (p &&& 0x0ff) (by omega) (by norm_num; omega)
  generalize hvB : VComputer.listenerWrite
      { vcA with ram := fun j => if j = bca then (p &&& 0x0ff) % 256 else vcA.ram j }
      AddrListener.WriteB 8 bca (p &&& 0x0ff) = vcB at hB
  have hBr : vcB.ram = fun j => if j = bca then (p &&& 0x0ff) % 256 else vcA.ram j := by
    rw [← hvB, listenerWrite_ram]
  have hBs : vcB.ram_size = vc.ram_size := by rw [← hvB, listenerWrite_ram_size, hAs]
  have hx : DCPU16N.execUnary { s with phase := Phase.OPFETCH } vc = some
      ({ s with phase := Phase.EXECJMP, wrt := 0x0118, bca := bca, bcu := p,
                sp := (s.sp + 65534) % 65536,
                acu := (if op = 0x01 then t else (t + p) % 65536) }, vc) := by
    rw [execUnary_jsr_bsr s vc op hun hopv, DCPU16N.emuAddr, hbca, hp, ht]
  have hrun : s.caseEXEC vc = some
      ({ s with phase := Phase.EXECJMP, wrt := 0x0118, bca := bca, bcu := p,
                sp := (s.sp + 65534) % 65536,
                acu := (if op = 0x01 then t else (t + p) % 65536) }, vcB) := by
    rw [caseEXEC_unary s vc hop hne, hx, Option.some_bind]
    have hAA : vc.WriteB ((bca + 1) % 2 ^ 32) ((p >>> 8) % 256) = some vcA := by rw [h32]; exact hA
    simp only []
    exact caseUBWRITE_push _ vc vcA vcB rfl hdec hAA hB
  rw [caseUBREAD_unary s vc hop hdec]
  refine ⟨{ s with phase := Phase.EXECJMP, wrt := 0x0118, bca := bca, bcu := p,
                   sp := (s.sp + 65534) % 65536,
                   acu := (if op = 0x01 then t else (t + p) % 65536) },
    vcB,
    { s with phase := Phase.OPFETCH, wrt := 0x0118, bca := bca, bcu := p,
             sp := (s.sp + 65534) % 65536,
             acu := (if op = 0x01 then t else (t + p) % 65536),
             pc := (if op = 0x01 then t else (t + p) % 65536) },
    hrun, ?_, rfl, rfl, rfl, ?_⟩
  · simp only [DCPU16N.tickOnce]
  · have hr1 := ReadB_ram vcB (bca + 1) (by omega) (by rw [hBs]; exact hsz)
    have hr0 := ReadB_ram vcB bca (by omega) (by rw [hBs]; exact hsz)
    simp only [DCPU16N.emuAddr, hbca, fetchWord, h32, hr1, hr0, Option.some_bind, hBr, hAr]
    have n1 : bca + 1 ≠ bca := by omega
    simp only [n1, if_false, if_true, Nat.mod_mod]
    rw [word_of_bytes p hp16]

/-- Witness of C20 (as amended): `JSR 7` (instruction word `0xA020`) on the
reset CPU, `SP = 0`, `PC = 2` after the fetch; the new `SP` is `0xFFFE`,
which `EMU[15]` maps to the RAM address `0xFFFE` of a 128 KiB RAM. -/
theorem C20_jsr_bsr_push_in_ram_witness :
    ((cpuAtB 0xA020 7 0).opcl &&& 0x001f = 0 ∧
      ((cpuAtB 0xA020 7 0).opcl >>> 5) &&& 0x001f = 0x01 ∧ (0x01 = 0x01 ∨ 0x01 = 0x02) ∧
      (cpuAtB 0xA020 7 0).addrdec = false ∧ (cpuAtB 0xA020 7 0).acu = 7 ∧
      (cpuAtB 0xA020 7 0).pc = 2 ∧ 2 < 2 ^ 16 ∧ (vcProg progJsr).ram_size ≤ MAX_RAM_SIZE ∧
      (cpuAtB 0xA020 7 0).emuAddr (((cpuAtB 0xA020 7 0).sp + 65534) % 65536) + 1 <
        (vcProg progJsr).ram_size) ∧
    ∃ s1 vc2 s2, (cpuAtB 0xA020 7 0).caseUBREAD (vcProg progJsr) = some (s1, vc2) ∧
      s1.tickOnce vc2 = some (s2, vc2) ∧ s2.phase = Phase.OPFETCH ∧
      s2.sp = ((cpuAtB 0xA020 7 0).sp + 65534) % 65536 ∧
      s2.pc = (if 0x01 = 0x01 then 7 else (7 + 2) % 65536) ∧
      fetchWord vc2 (s2.emuAddr s2.sp) = some (2, vc2) :=
  ⟨by decide, C20_jsr_bsr_push_in_ram (cpuAtB 0xA020 7 0) (vcProg progJsr) 0x01 7 2 (by decide)
    (by decide) (by decide) (by decide) (by decide) (by decide) (by decide) (by decide)
    (by decide)⟩

/-- C20, the claim at a concrete input, run from the ROM: after reset `EMU[0]`
maps page 0 to the ROM; with `SP = 2` the instruction `JSR 7` at address 0
retires after three ticks with `SP = 0` and `PC = 7`, but the word at the
translated address of the new `SP` (physical `0x100000`, ROM) is still the
ROM word `0xA020`, not the return address `p = 2`: the bus drops the push. -/
theorem C20_push_into_rom_counterexample :
    (DCPU16N.Tick 3 cpuStackInRom (vcProg progJsr)).bind
      (fun q => (fetchWord q.2 (q.1.emuAddr q.1.sp)).map
        (fun w => (q.1.sp, q.1.pc, q.1.phase, w.1))) = some (0, 7, Phase.OPFETCH, 0xA020) ∧
    ¬ ((DCPU16N.Tick 3 cpuStackInRom (vcProg progJsr)).bind
      (fun q => (fetchWord q.2 (q.1.emuAddr q.1.sp)).map
        (fun w => (q.1.sp, q.1.pc, q.1.phase, w.1))) = some (0, 7, Phase.OPFETCH, 2)) := by
  decide

end engine6

end cpu

end vm

/-! ## The orchestrator: one slot -/

namespace vm

section orchestrator
variable {ω : Type}

theorem tickSlot_calls_cases (c : ICPU ω) (devices : Nat → Option (IDevice ω)) (dt : Nat)
    (st : TickState ω) (k : Nat) :
    (devices k = none ∧ VComputer.tickSlot c devices dt st k = st) ∨
    ∃ d, devices k = some d ∧
      ∃ pre : List TickCall,
        ((d.IsSyncDev = true ∧ pre = [TickCall.devTick k dt]) ∨ (d.IsSyncDev = false ∧ pre = [])) ∧
        ((st.interrupted = true ∧
            (VComputer.tickSlot c devices dt st k).calls = st.calls ++ pre ∧
            (VComputer.tickSlot c devices dt st k).interrupted = true) ∨
         (st.interrupted = false ∧ ∃ y,
            (VComputer.tickSlot c devices dt st k).calls =
              st.calls ++ pre ++ [TickCall.devDoesInterrupt k false y] ∧
            (VComputer.tickSlot c devices dt st k).interrupted = false) ∨
         (st.interrupted = false ∧ ∃ y a,
            (VComputer.tickSlot c devices dt st k).calls =
              st.calls ++ pre ++ [TickCall.devDoesInterrupt k true y,
                TickCall.cpuSendInterrupt y a] ++ (if a then [TickCall.devIACK k] else []) ∧
            (VComputer.tickSlot c devices dt st k).interrupted = true)) := by
  unfold VComputer.tickSlot
  cases hd : devices k with
  | none => left; simp
  | some d =>
    right
    refine ⟨d, rfl, if d.IsSyncDev then [TickCall.devTick k dt] else [], ?_, ?_⟩
    · cases d.IsSyncDev <;> simp
    · cases hs : d.IsSyncDev <;> cases hi : st.interrupted <;> simp [hs, hi]
      all_goals
        split_ifs with h1 h2
        all_goals simp_all

end orchestrator

end vm

/-! ## The orchestrator: a whole Tick -/

namespace vm

section orchestrator
variable {ω : Type}

theorem tickHead_calls_cases (c : ICPU ω) (pit : Timer ω) (q dt msg0 : Nat) (w : ω) :
    (∃ y, (VComputer.tickHead c pit q dt msg0 w).calls =
        [TickCall.cpuTick q, TickCall.pitTick dt, TickCall.pitDoesInterrupt false y] ∧
      (VComputer.tickHead c pit q dt msg0 w).interrupted = false) ∨
    (∃ y a, (VComputer.tickHead c pit q dt msg0 w).calls =
        [TickCall.cpuTick q, TickCall.pitTick dt, TickCall.pitDoesInterrupt true y,
          TickCall.cpuSendInterrupt y a] ++ (if a then [TickCall.pitIACK] else []) ∧
      (VComputer.tickHead c pit q dt msg0 w).interrupted = true) := by
  unfold VComputer.tickHead
  dsimp only
  split_ifs with h1 h2
  · right
    exact ⟨(pit.DoesInterrupt msg0 (pit.Tick dt (c.Tick q w))).1.2, true, by simp [h1, h2], h1⟩
  · right
    have h3 := Bool.eq_false_iff.mpr h2
    exact ⟨(pit.DoesInterrupt msg0 (pit.Tick dt (c.Tick q w))).1.2, false, by simp [h1, h3], h1⟩
  · left
    have h3 := Bool.eq_false_iff.mpr h1
    exact ⟨(pit.DoesInterrupt msg0 (pit.Tick dt (c.Tick q w))).1.2, by simp [h3], h3⟩

theorem Tick_defined (m : TickMembers ω) (c : ICPU ω) (n msg0 : Nat) (w : ω)
    (hc : m.cpu = some c) (hn : 0 < n) (h0 : 0 < c.Clock w) (hB : c.Clock w ≤ BaseClock) :
    VComputer.Tick m n msg0 w =
      some ((List.range MAX_N_DEVICES).foldl (VComputer.tickSlot c m.devices (n / 10))
        (VComputer.tickHead c m.pit (n / (BaseClock / c.Clock w)) (n / 10) msg0 w)) := by
  have h1 : n ≠ 0 := by omega
  have h2 : c.Clock w ≠ 0 := by omega
  have h3 : BaseClock / c.Clock w ≠ 0 := by
    have := Nat.div_pos hB h0
    omega
  unfold VComputer.Tick
  rw [if_neg h1, hc]
  dsimp only
  rw [if_neg h2, if_neg h3]

end orchestrator

/-- With a CPU clock of 300 kHz the quotient `BaseClock / Clock()` is taken
first: `Tick(10)` gives the CPU `10 / 3 = 3` ticks and the devices one. -/
theorem tick_quotient_first :
    (VComputer.Tick { demoMachine with cpu := some { demoCpu with Clock := fun _ => 300000 } }
        10 0 { pitPending := false, slotsPending := [] }).map
        (fun st => (cpuTickCalls st.calls, pitTickCalls st.calls)) =
      some ([TickCall.cpuTick 3], [TickCall.pitTick 1]) := by
  decide

/-- The scenario of the specification: the timer and the device of slot 3
both have an interrupt pending.  The timer's message `0x1234` is the one sent,
the timer gets the `IACK`, the slots are only ticked, and slot 3 is still
pending afterwards. -/
theorem tick_pit_before_slot3 :
    (VComputer.Tick demoMachine 20 0 { pitPending := true, slotsPending := [3] }).map
        (fun st => (st.calls, st.world)) =
      some ([TickCall.cpuTick 2, TickCall.pitTick 2, TickCall.pitDoesInterrupt true 0x1234,
          TickCall.cpuSendInterrupt 0x1234 true, TickCall.pitIACK, TickCall.devTick 1 2,
          TickCall.devTick 3 2, TickCall.devTick 5 2],
        { pitPending := false, slotsPending := [3] }) := by
  decide

/-- With the timer idle and the devices of the slots 5 and 3 pending, slot 1 is
asked first and answers no, slot 3 is served, slot 5 is only ticked and
stays pending. -/
theorem tick_lowest_slot_first :
    (VComputer.Tick demoMachine 20 0 { pitPending := false, slotsPending := [5, 3] }).map
        (fun st => (st.calls, st.world)) =
      some ([TickCall.cpuTick 2, TickCall.pitTick 2, TickCall.pitDoesInterrupt false 0,
          TickCall.devTick 1 2, TickCall.devDoesInterrupt 1 false 0, TickCall.devTick 3 2,
          TickCall.devDoesInterrupt 3 true 0x33, TickCall.cpuSendInterrupt 0x33 true,
          TickCall.devIACK 3, TickCall.devTick 5 2],
        { pitPending := false, slotsPending := [5] }) := by
  decide

end vm

/-! ## Fall-through of a binary instruction on a register -/

namespace vm

namespace cpu

section alu
variable {σ : Type}

/-- The fall-through from the label `UBREAD` to the `EXEC` switch when the
instruction is binary and its `b` field names the general register `i`. -/
theorem caseUBREAD_binary_reg (s : DCPU16N) (vc : VComputer σ) (i : Nat)
    (hop : s.opcl &&& 0x001f ≠ 0) (hb : (s.opcl >>> 5) &&& 0x01f = i) (hi : i < 8)
    (hdec : s.addrdec = false) :
    s.caseUBREAD vc =
      (DCPU16N.execBinary { s with bcu := s.r i, phase := Phase.OPFETCH } vc).bind
        fun p => p.1.caseUBWRITE p.2 := by
  obtain ⟨b1, b2, b3, -, -, -, -, -⟩ := reg_field_bits i hi
  have hC : s.caseUBREAD vc = DCPU16N.caseBCUFETCH { s with bcu := s.r i } vc := by
    simp only [DCPU16N.caseUBREAD, hop, hb, b1, b2, b3, ne_eq, not_true_eq_false, not_false_eq_true,
      if_true, if_false]
  have hD : DCPU16N.caseBCUFETCH { s with bcu := s.r i } vc =
      DCPU16N.caseEXEC { s with bcu := s.r i } vc := by
    simp only [DCPU16N.caseBCUFETCH, hdec, Bool.false_eq_true, if_false]
  rw [hC, hD]
  unfold DCPU16N.caseEXEC
  dsimp only
  rw [if_pos hop]

/-- With `wrt` a register number below 8 (no write flag) and `addrdec` clear,
the labels `UBWRITE` and `BCUWRITE` do nothing. -/
theorem caseUBWRITE_none (s : DCPU16N) (vc : VComputer σ) (hw : s.wrt &&& 0x0100 = 0)
    (hdec : s.addrdec = false) : s.caseUBWRITE vc = some (s, vc) := by
  simp [DCPU16N.caseUBWRITE, DCPU16N.caseBCUWRITE, hw, hdec]

end alu

end cpu

end vm

/-! ## Comparisons -/

namespace vm

namespace cpu

section alu2
variable {σ : Type}

/-- The `EXEC` switch on a comparison opcode `0x12..0x17`: no register, `EX`
or memory cell changes, and the phase becomes `EXECSKIP` when the test of the
source fails. -/
theorem execBinary_compare (s : DCPU16N) (vc : VComputer σ) (op : Nat)
    (hop : s.opcl &&& 0x001f = op) (hr : 0x12 ≤ op ∧ op ≤ 0x17) :
    s.execBinary vc =
      some ({ s with wrt := (s.opcl >>> 5) &&& 0x1f,
                     phase :=
                       if (op = 0x12 ∧ s.acu = s.bcu) ∨ (op = 0x13 ∧ s.acu ≠ s.bcu) ∨
                          (op = 0x14 ∧ s.bcu > s.acu) ∨ (op = 0x15 ∧ int16 s.bcu > int16 s.acu) ∨
                          (op = 0x16 ∧ s.bcu < s.acu) ∨ (op = 0x17 ∧ int16 s.bcu < int16 s.acu)
                       then s.phase else Phase.EXECSKIP }, vc) := by
  obtain ⟨h1, h2⟩ := hr
  interval_cases op
  all_goals
    simp only [DCPU16N.execBinary, hop]
    split_ifs <;> simp_all <;> omega

/-- C25. Comparison skips: at the point of `Tick` where the `b` operand is
read, a comparison `IFE`, `IFN`, `IFG`, `IFA`, `IFL` or `IFU` (opcodes
`0x12..0x17`) whose `b` field names the general register `i`, holding `x`,
with `a` of value `y`, completes in that tick without any bus access; the
phase it leaves is `OPFETCH` exactly when the comparison holds
(`x = y`, `x ≠ y`, `x > y`, `int16 x > int16 y`, `x < y`, `int16 x < int16 y`
in that order) and `EXECSKIP` otherwise; the registers, with `b` among them,
the value of `a`, `EX`, `PC` and `SP` are as before. -/
theorem C25_comparison_skips (s : DCPU16N) (vc : VComputer σ) (op i x y : Nat)
    (hop : s.opcl &&& 0x001f = op) (hr : 0x12 ≤ op ∧ op ≤ 0x17)
    (hb : (s.opcl >>> 5) &&& 0x01f = i) (hi : i < 8)
    (hdec : s.addrdec = false) (hx : s.r i = x) (hy : s.acu = y) :
    ∃ t, s.caseUBREAD vc = some (t, vc) ∧
      (t.phase = Phase.OPFETCH ∨ t.phase = Phase.EXECSKIP) ∧
      (op = 0x12 → (t.phase = Phase.OPFETCH ↔ x = y)) ∧
      (op = 0x13 → (t.phase = Phase.OPFETCH ↔ x ≠ y)) ∧
      (op = 0x14 → (t.phase = Phase.OPFETCH ↔ x > y)) ∧
      (op = 0x15 → (t.phase = Phase.OPFETCH ↔ int16 x > int16 y)) ∧
      (op = 0x16 → (t.phase = Phase.OPFETCH ↔ x < y)) ∧
      (op = 0x17 → (t.phase = Phase.OPFETCH ↔ int16 x < int16 y)) ∧
      t.r = s.r ∧ t.r i = x ∧ t.acu = y ∧ t.ex = s.ex ∧ t.pc = s.pc ∧ t.sp = s.sp := by
  have hop0 : s.opcl &&& 0x001f ≠ 0 := by rw [hop]; omega
  have hwz : i &&& 0x0100 = 0 := by interval_cases i <;> decide
  have hE := execBinary_compare { s with bcu := s.r i, phase := Phase.OPFETCH } vc op hop hr
  have hW : ∀ u : DCPU16N, u.wrt = i → u.addrdec = false → u.caseUBWRITE vc = some (u, vc) :=
    fun u h1 h2 => caseUBWRITE_none u vc (by rw [h1]; exact hwz) h2
  rw [caseUBREAD_binary_reg s vc i hop0 hb hi hdec, hE, Option.some_bind]
  refine ⟨_, hW _ hb hdec, ?_⟩
  clear hE hW
  dsimp only
  simp only [hx, hy]
  obtain ⟨h1, h2⟩ := hr
  interval_cases op
  all_goals simp
  all_goals omega

/-- Witness of C25: `r0 = 5; IFG r0, 3` (instruction word `0x9014`): the
comparison `5 > 3` holds and the phase is `OPFETCH`. -/
theorem C25_comparison_skips_witness :
    ((cpuAtB 0x9014 3 5).opcl &&& 0x001f = 0x14 ∧ (0x12 ≤ 0x14 ∧ 0x14 ≤ 0x17) ∧
      ((cpuAtB 0x9014 3 5).opcl >>> 5) &&& 0x01f = 0 ∧ 0 < 8 ∧
      (cpuAtB 0x9014 3 5).addrdec = false ∧ (cpuAtB 0x9014 3 5).r 0 = 5 ∧
      (cpuAtB 0x9014 3 5).acu = 3) ∧
    ∃ t, (cpuAtB 0x9014 3 5).caseUBREAD vcTrace = some (t, vcTrace) ∧
      (t.phase = Phase.OPFETCH ∨ t.phase = Phase.EXECSKIP) ∧
      (0x14 = 0x12 → (t.phase = Phase.OPFETCH ↔ 5 = 3)) ∧
      (0x14 = 0x13 → (t.phase = Phase.OPFETCH ↔ 5 ≠ 3)) ∧
      (0x14 = 0x14 → (t.phase = Phase.OPFETCH ↔ 5 > 3)) ∧
      (0x14 = 0x15 → (t.phase = Phase.OPFETCH ↔ int16 5 > int16 3)) ∧
      (0x14 = 0x16 → (t.phase = Phase.OPFETCH ↔ 5 < 3)) ∧
      (0x14 = 0x17 → (t.phase = Phase.OPFETCH ↔ int16 5 < int16 3)) ∧
      t.r = (cpuAtB 0x9014 3 5).r ∧ t.r 0 = 5 ∧ t.acu = 3 ∧ t.ex = (cpuAtB 0x9014 3 5).ex ∧
      t.pc = (cpuAtB 0x9014 3 5).pc ∧ t.sp = (cpuAtB 0x9014 3 5).sp :=
  ⟨by decide, C25_comparison_skips (cpuAtB 0x9014 3 5) vcTrace 0x14 0 5 3 (by decide)
    (by decide) (by decide) (by decide) (by decide) (by decide) (by decide)⟩

end alu2

end cpu

end vm

/-! ## SUB, MUL and MLI -/

namespace vm

namespace cpu

section alu3
variable {σ : Type}

/-- The shift `z >> 16` of a signed value is the quotient by `2^16` rounded
down. -/
theorem int_shiftRight_16 (z : Int) : z >>> (16 : Int) = z / 65536 := by
  have h16 : (16 : Int) = ((16 : Nat) : Int) := rfl
  rw [h16]
  cases z with
  | ofNat m =>
    rw [Int.ofNat_eq_coe, Int.shiftRight_coe_nat, Nat.shiftRight_eq_div_pow]
    norm_num
  | negSucc m =>
    rw [Int.shiftRight_negSucc, Nat.shiftRight_eq_div_pow, Int.negSucc_eq, Int.negSucc_eq]
    norm_num
    omega

theorem sub_low_word (x y : Nat) (hx : x < 2 ^ 16) (hy : y < 2 ^ 16) :
    toWord (int16 x - int16 y) = (x + 65536 - y) % 65536 := by
  unfold toWord int16
  norm_num at hx hy
  split_ifs <;> omega

theorem sub_high_word (x y : Nat) :
    toWord ((int16 x - int16 y) >>> 16) = ((int16 x - int16 y) % 2 ^ 32).toNat / 65536 ∧
    toWord ((int16 x - int16 y) >>> 16) = if int16 x < int16 y then 0xFFFF else 0 := by
  rw [int_shiftRight_16]
  unfold toWord int16
  norm_num
  split_ifs <;> omega

/-- C29. SUB: at the point of `Tick` where the `b` operand is read, a `SUB`
whose `b` field names the general register `i`, holding the 16-bit `x`, with
`a` of 16-bit value `y`, completes in that tick without any bus access and
leaves `r[i] = (x - y) mod 2^16` and `EX` equal to the high word of the 32-bit
two-complement encoding of `int16 x - int16 y`, which is `0xFFFF` when
`int16 x < int16 y` and `0` otherwise. -/
theorem C29_sub_signed_borrow (s : DCPU16N) (vc : VComputer σ) (i x y : Nat)
    (hop : s.opcl &&& 0x001f = 0x03) (hb : (s.opcl >>> 5) &&& 0x01f = i) (hi : i < 8)
    (hdec : s.addrdec = false) (hx : s.r i = x) (hy : s.acu = y)
    (hx16 : x < 2 ^ 16) (hy16 : y < 2 ^ 16) :
    ∃ t, s.caseUBREAD vc = some (t, vc) ∧ t.r i = (x + 65536 - y) % 65536 ∧
      t.ex = ((int16 x - int16 y) % 2 ^ 32).toNat / 65536 ∧
      t.ex = (if int16 x < int16 y then 0xFFFF else 0) ∧ t.phase = Phase.OPFETCH := by
  obtain ⟨b1, b2, b3, b4, b5, b6, b7, b8⟩ := reg_field_bits i hi
  obtain ⟨e2, e3⟩ := sub_high_word x y
  have e1 := sub_low_word x y hx16 hy16
  simp [DCPU16N.caseUBREAD, DCPU16N.caseBCUFETCH, DCPU16N.caseEXEC, DCPU16N.execBinary,
    DCPU16N.caseUBWRITE, DCPU16N.caseBCUWRITE, hop, hb, hdec, b1, b2, b3, b4, b5, b6, b7, b8,
    setCell, hx, hy]
  exact ⟨e1, e2, e3⟩

/-- Witness of C29: `r0 = 1; SUB r0, 2` (instruction word `0x8C03`): `r0`
becomes `0xFFFF` and `EX` becomes `0xFFFF`. -/
theorem C29_sub_signed_borrow_witness :
    ((cpuAtB 0x8C03 2 1).opcl &&& 0x001f = 0x03 ∧
      ((cpuAtB 0x8C03 2 1).opcl >>> 5) &&& 0x01f = 0 ∧ 0 < 8 ∧
      (cpuAtB 0x8C03 2 1).addrdec = false ∧ (cpuAtB 0x8C03 2 1).r 0 = 1 ∧
      (cpuAtB 0x8C03 2 1).acu = 2 ∧ 1 < 2 ^ 16 ∧ 2 < 2 ^ 16) ∧
    ∃ t, (cpuAtB 0x8C03 2 1).caseUBREAD vcTrace = some (t, vcTrace) ∧
      t.r 0 = (1 + 65536 - 2) % 65536 ∧
      t.ex = ((int16 1 - int16 2) % 2 ^ 32).toNat / 65536 ∧
      t.ex = (if int16 1 < int16 2 then 0xFFFF else 0) ∧ t.phase = Phase.OPFETCH :=
  ⟨by decide, C29_sub_signed_borrow (cpuAtB 0x8C03 2 1) vcTrace 0 1 2 (by decide) (by decide)
    (by decide) (by decide) (by decide) (by decide) (by decide) (by decide)⟩

/-- The borrow of `SUB` follows the signed order, run from the ROM: after
reset and `r0 = 0x8000`, `SUB r0, 1` (bytes `03 88`) leaves `r0 = 0x7FFF` and
`EX = 0xFFFF`, because `int16 0x8000 = -32768 < 1`, although `0x8000 > 1` as
unsigned words. -/
theorem sub_borrow_from_rom :
    (DCPU16N.Tick 2 (cpuBoot 0x8000) (vcProg [0x03, 0x88])).map
      (fun p => (p.1.r 0, p.1.ex, p.1.pc, p.1.phase)) =
      some (0x7FFF, 0xFFFF, 2, Phase.OPFETCH) := by
  decide

theorem int16_bounds (x : Nat) : -32768 ≤ int16 x ∧ int16 x ≤ 32767 := by
  unfold int16
  split_ifs <;> omega

theorem int16_mul_bounds (x y : Nat) :
    -(2 ^ 31 : Int) ≤ int16 x * int16 y ∧ int16 x * int16 y < 2 ^ 31 := by
  obtain ⟨a1, a2⟩ := int16_bounds x
  obtain ⟨b1, b2⟩ := int16_bounds y
  constructor <;> nlinarith

theorem mli_words (p : Int) (h1 : -(2 ^ 31 : Int) ≤ p) (h2 : p < 2 ^ 31) :
    toWord p = (p % 2 ^ 32).toNat % 65536 ∧
    toWord (p >>> 16) = (p % 2 ^ 32).toNat / 65536 ∧
    int32 (toWord p + 65536 * toWord (p >>> 16)) = p := by
  rw [int_shiftRight_16]
  unfold toWord int32
  norm_num at h1 h2 ⊢
  refine ⟨by omega, by omega, ?_⟩
  split_ifs <;> omega

/-- C30. MUL/MLI: at the point of `Tick` where the `b` operand is read, a
`MUL` (opcode 4) or `MLI` (opcode 5) whose `b` field names the general register
`i`, holding the 16-bit `x`, with `a` of 16-bit value `y`, completes in that
tick without any bus access.  `MUL` leaves the low word of `x * y` in `r[i]`
and its high word in `EX`, so that `r[i] + 65536 * EX = x * y`.  `MLI` leaves
the low and the high word of the 32-bit two-complement encoding of
`int16 x * int16 y`, so that `r[i] + 65536 * EX` read as an `int32` is that
product. -/
theorem C30_mul_mli_product (s : DCPU16N) (vc : VComputer σ) (op i x y : Nat)
    (hop : s.opcl &&& 0x001f = op) (hopv : op = 0x04 ∨ op = 0x05)
    (hb : (s.opcl >>> 5) &&& 0x01f = i) (hi : i < 8)
    (hdec : s.addrdec = false) (hx : s.r i = x) (hy : s.acu = y)
    (hx16 : x < 2 ^ 16) (hy16 : y < 2 ^ 16) :
    ∃ t, s.caseUBREAD vc = some (t, vc) ∧ t.phase = Phase.OPFETCH ∧
      (op = 0x04 → t.r i = (x * y) % 65536 ∧ t.ex = (x * y) / 65536 ∧
        t.r i + 65536 * t.ex = x * y) ∧
      (op = 0x05 → t.r i = ((int16 x * int16 y) % 2 ^ 32).toNat % 65536 ∧
        t.ex = ((int16 x * int16 y) % 2 ^ 32).toNat / 65536 ∧
        int32 (t.r i + 65536 * t.ex) = int16 x * int16 y) := by
  obtain ⟨b1, b2, b3, b4, b5, b6, b7, b8⟩ := reg_field_bits i hi
  rcases hopv with rfl | rfl
  · have hlt : x * y < 4294967296 := by
      have := Nat.mul_lt_mul'' hx16 hy16
      norm_num at this ⊢
      exact this
    have e0 : (x * y) % 4294967296 = x * y := Nat.mod_eq_of_lt hlt
    simp [DCPU16N.caseUBREAD, DCPU16N.caseBCUFETCH, DCPU16N.caseEXEC, DCPU16N.execBinary,
      DCPU16N.caseUBWRITE, DCPU16N.caseBCUWRITE, hop, hb, hdec, b1, b2, b3, b4, b5, b6, b7, b8,
      setCell, hx, hy]
    rw [e0, Nat.shiftRight_eq_div_pow]
    generalize x * y = p at hlt ⊢
    norm_num
    omega
  · obtain ⟨m1, m2⟩ := int16_mul_bounds x y
    obtain ⟨e1, e2, e3⟩ := mli_words (int16 x * int16 y) m1 m2
    simp [DCPU16N.caseUBREAD, DCPU16N.caseBCUFETCH, DCPU16N.caseEXEC, DCPU16N.execBinary,
      DCPU16N.caseUBWRITE, DCPU16N.caseBCUWRITE, hop, hb, hdec, b1, b2, b3, b4, b5, b6, b7, b8,
      setCell, hx, hy]
    exact ⟨e1, e2, e3⟩

/-- Witness of C30: `r0 = 0xFFFF; MLI r0, 2` (instruction word `0x8C05`): the
product `-1 * 2 = -2` is left as `r0 = 0xFFFE`, `EX = 0xFFFF`. -/
theorem C30_mul_mli_product_witness :
    ((cpuAtB 0x8C05 2 0xFFFF).opcl &&& 0x001f = 0x05 ∧ (0x05 = 0x04 ∨ 0x05 = 0x05) ∧
      ((cpuAtB 0x8C05 2 0xFFFF).opcl >>> 5) &&& 0x01f = 0 ∧ 0 < 8 ∧
      (cpuAtB 0x8C05 2 0xFFFF).addrdec = false ∧ (cpuAtB 0x8C05 2 0xFFFF).r 0 = 0xFFFF ∧
      (cpuAtB 0x8C05 2 0xFFFF).acu = 2 ∧ 0xFFFF < 2 ^ 16 ∧ 2 < 2 ^ 16) ∧
    ∃ t, (cpuAtB 0x8C05 2 0xFFFF).caseUBREAD vcTrace = some (t, vcTrace) ∧
      t.phase = Phase.OPFETCH ∧
      (0x05 = 0x04 → t.r 0 = (0xFFFF * 2) % 65536 ∧ t.ex = (0xFFFF * 2) / 65536 ∧
        t.r 0 + 65536 * t.ex = 0xFFFF * 2) ∧
      (0x05 = 0x05 → t.r 0 = ((int16 0xFFFF * int16 2) % 2 ^ 32).toNat % 65536 ∧
        t.ex = ((int16 0xFFFF * int16 2) % 2 ^ 32).toNat / 65536 ∧
        int32 (t.r 0 + 65536 * t.ex) = int16 0xFFFF * int16 2) :=
  ⟨by decide, C30_mul_mli_product (cpuAtB 0x8C05 2 0xFFFF) vcTrace 0x05 0 0xFFFF 2 (by decide)
    (by decide) (by decide) (by decide) (by decide) (by decide) (by decide) (by decide)
    (by decide)⟩

/-- The two products run from the ROM: after reset and `r0 = 0xFFFF`,
`MUL r0, 2` (bytes `04 8C`) leaves `r0 = 0xFFFE`, `EX = 1`
(`0xFFFF * 2 = 0x1FFFE`), and `MLI r0, 2` (bytes `05 8C`) leaves `r0 = 0xFFFE`,
`EX = 0xFFFF` (`-1 * 2 = -2`). -/
theorem mul_mli_from_rom :
    (DCPU16N.Tick 2 (cpuBoot 0xFFFF) (vcProg [0x04, 0x8C])).map
      (fun p => (p.1.r 0, p.1.ex, p.1.phase)) = some (0xFFFE, 1, Phase.OPFETCH) ∧
    (DCPU16N.Tick 2 (cpuBoot 0xFFFF) (vcProg [0x05, 0x8C])).map
      (fun p => (p.1.r 0, p.1.ex, p.1.phase)) = some (0xFFFE, 0xFFFF, Phase.OPFETCH) := by
  decide

end alu3

end cpu

end vm

/-! ## Bit tests, operand forms and RFI -/

namespace vm

namespace cpu

section operands
variable {σ : Type}

/-- What the code does on `IFB` (opcode `0x10`) and `IFC` (opcode `0x11`): at
the point of `Tick` where the `b` operand is read, with `b` the general
register `i` holding `x` and `a` of value `y`, the instruction completes in
that tick; `IFB` leaves the phase `EXECSKIP` exactly when `x & y ≠ 0` and
`IFC` exactly when `x & y = 0`, and the phase is `OPFETCH` otherwise. -/
theorem ifb_ifc_code (s : DCPU16N) (vc : VComputer σ) (op i x y : Nat)
    (hop : s.opcl &&& 0x001f = op) (hopv : op = 0x10 ∨ op = 0x11)
    (hb : (s.opcl >>> 5) &&& 0x01f = i) (hi : i < 8)
    (hdec : s.addrdec = false) (hx : s.r i = x) (hy : s.acu = y) :
    ∃ t, s.caseUBREAD vc = some (t, vc) ∧
      (t.phase = Phase.OPFETCH ∨ t.phase = Phase.EXECSKIP) ∧
      (op = 0x10 → (t.phase = Phase.EXECSKIP ↔ x &&& y ≠ 0)) ∧
      (op = 0x11 → (t.phase = Phase.EXECSKIP ↔ x &&& y = 0)) ∧ t.r = s.r ∧ t.ex = s.ex := by
  obtain ⟨b1, b2, b3, -, -, -, -, -⟩ := reg_field_bits i hi
  have hwz : i &&& 0x0100 = 0 := by interval_cases i <;> decide
  have hc : y &&& x = x &&& y := Nat.land_comm y x
  rcases hopv with rfl | rfl
  · by_cases h : x &&& y = 0
    · simp [DCPU16N.caseUBREAD, DCPU16N.caseBCUFETCH, DCPU16N.caseEXEC, DCPU16N.execBinary,
        DCPU16N.caseUBWRITE, DCPU16N.caseBCUWRITE, hop, hb, hdec, b1, b2, b3, hwz, hx, hy, hc, h]
    · simp [DCPU16N.caseUBREAD, DCPU16N.caseBCUFETCH, DCPU16N.caseEXEC, DCPU16N.execBinary,
        DCPU16N.caseUBWRITE, DCPU16N.caseBCUWRITE, hop, hb, hdec, b1, b2, b3, hwz, hx, hy, hc, h]
  · by_cases h : x &&& y = 0
    · simp [DCPU16N.caseUBREAD, DCPU16N.caseBCUFETCH, DCPU16N.caseEXEC, DCPU16N.execBinary,
        DCPU16N.caseUBWRITE, DCPU16N.caseBCUWRITE, hop, hb, hdec, b1, b2, b3, hwz, hx, hy, hc, h]
    · simp [DCPU16N.caseUBREAD, DCPU16N.caseBCUFETCH, DCPU16N.caseEXEC, DCPU16N.execBinary,
        DCPU16N.caseUBWRITE, DCPU16N.caseBCUWRITE, hop, hb, hdec, b1, b2, b3, hwz, hx, hy, hc, h]

/-- C26, the code at the failing inputs, run from the ROM after reset with
`r0 = 1` or `r0 = 0`.  `IFB r0, 1` (word `0x8810`) with `r0 = 1`, where
`b & a = 1 ≠ 0`, ends in `EXECSKIP`, and with `r0 = 0`, where `b & a = 0`, in
`OPFETCH`; `IFC r0, 1` (word `0x8811`) with `r0 = 1` ends in `OPFETCH` and
with `r0 = 0` in `EXECSKIP`: each of the two tests skips in the case where the
next instruction should run, and runs it where it should skip. -/
theorem C26_ifb_ifc_inverted :
    (DCPU16N.Tick 2 (cpuBoot 1) (vcProg [0x10, 0x88])).map
      (fun p => (p.1.r 0 &&& 1, p.1.phase)) = some (1, Phase.EXECSKIP) ∧
    (DCPU16N.Tick 2 (cpuBoot 0) (vcProg [0x10, 0x88])).map
      (fun p => (p.1.r 0 &&& 1, p.1.phase)) = some (0, Phase.OPFETCH) ∧
    (DCPU16N.Tick 2 (cpuBoot 1) (vcProg [0x11, 0x88])).map
      (fun p => (p.1.r 0 &&& 1, p.1.phase)) = some (1, Phase.OPFETCH) ∧
    (DCPU16N.Tick 2 (cpuBoot 0) (vcProg [0x11, 0x88])).map
      (fun p => (p.1.r 0 &&& 1, p.1.phase)) = some (0, Phase.EXECSKIP) := by
  decide

theorem literal_field_bits (f : Nat) (h1 : 0x20 ≤ f) (h2 : f ≤ 0x3F) :
    f &&& 0x0020 ≠ 0 ∧ (0xffff + (f &&& 0x1f)) % 65536 = (f + 65536 - 0x21) % 65536 := by
  interval_cases f <;> decide

/-- C28. Small literals: for a binary or unary instruction whose `a` field `f`
lies in `0x20..0x3F`, the code of the label `UAREAD` only stores
`(f - 0x21) mod 2^16` in `acu` and falls into the label `ACUFETCH` with the
same computer: it reads no memory and leaves `PC`, `SP` and every other
member as they are; with `addrdec` clear nothing is fetched there either, and
the `b` operand is read next.  The values are `0xFFFF` (that is `-1`) for
`f = 0x20` and `f - 0x21`, from `0` to `30`, for the others. -/
theorem C28_small_literals (s : DCPU16N) (vc : VComputer σ) (f : Nat)
    (hk : s.opcl &&& 0x001f ≠ 0 ∨ s.opcl &&& 0x03e0 ≠ 0) (hf : s.opcl >>> 10 = f)
    (h1 : 0x20 ≤ f) (h2 : f ≤ 0x3F) :
    s.caseUAREAD vc = DCPU16N.caseACUFETCH { s with acu := (f + 65536 - 0x21) % 65536 } vc ∧
    (s.addrdec = false →
      s.caseUAREAD vc = DCPU16N.caseUBREAD { s with acu := (f + 65536 - 0x21) % 65536 } vc) ∧
    (f + 65536 - 0x21) % 65536 = toWord ((f : Int) - 0x21) ∧
    (f = 0x20 → (f + 65536 - 0x21) % 65536 = 0xFFFF) ∧
    (0x21 ≤ f → (f + 65536 - 0x21) % 65536 = f - 0x21) := by
  obtain ⟨l1, l2⟩ := literal_field_bits f h1 h2
  have hA : s.caseUAREAD vc =
      DCPU16N.caseACUFETCH { s with acu := (f + 65536 - 0x21) % 65536 } vc := by
    simp only [DCPU16N.caseUAREAD, hk, hf, l1, l2, ne_eq, not_false_eq_true, if_true]
  refine ⟨hA, ?_, ?_, ?_, ?_⟩
  · intro hdec
    rw [hA]
    simp only [DCPU16N.caseACUFETCH, hdec, Bool.false_eq_true, if_false]
  · unfold toWord; omega
  · omega
  · omega

/-- Witness of C28: `SET r0, 30` (instruction word `0xFC01`, `a` field
`0x3F`). -/
theorem C28_small_literals_witness :
    (((cpuAtB 0xFC01 0 0).opcl &&& 0x001f ≠ 0 ∨ (cpuAtB 0xFC01 0 0).opcl &&& 0x03e0 ≠ 0) ∧
      (cpuAtB 0xFC01 0 0).opcl >>> 10 = 0x3F ∧ 0x20 ≤ 0x3F ∧ 0x3F ≤ 0x3F) ∧
    ((cpuAtB 0xFC01 0 0).caseUAREAD vcTrace =
        DCPU16N.caseACUFETCH { cpuAtB 0xFC01 0 0 with acu := (0x3F + 65536 - 0x21) % 65536 }
          vcTrace ∧
      ((cpuAtB 0xFC01 0 0).addrdec = false →
        (cpuAtB 0xFC01 0 0).caseUAREAD vcTrace =
          DCPU16N.caseUBREAD { cpuAtB 0xFC01 0 0 with acu := (0x3F + 65536 - 0x21) % 65536 }
            vcTrace) ∧
      (0x3F + 65536 - 0x21) % 65536 = toWord (((0x3F : Nat) : Int) - 0x21) ∧
      (0x3F = 0x20 → (0x3F + 65536 - 0x21) % 65536 = 0xFFFF) ∧
      (0x21 ≤ 0x3F → (0x3F + 65536 - 0x21) % 65536 = 0x3F - 0x21)) :=
  ⟨by decide, C28_small_literals (cpuAtB 0xFC01 0 0) vcTrace 0x3F (by decide) (by decide)
    (by decide) (by decide)⟩

/-- The two ends of the range run from the ROM: after reset `SET r0, -1`
(bytes `01 80`, `a` field `0x20`) leaves `r0 = 0xFFFF` and `SET r0, 30` (bytes
`01 FC`, `a` field `0x3F`) leaves `r0 = 30`, both after two ticks with
`PC = 2` (the instruction word only) and `SP = 0`. -/
theorem small_literals_from_rom :
    (DCPU16N.Tick 2 (cpuBoot 0) (vcProg [0x01, 0x80])).map
      (fun p => (p.1.r 0, p.1.pc, p.1.sp, p.1.phase)) = some (0xFFFF, 2, 0, Phase.OPFETCH) ∧
    (DCPU16N.Tick 2 (cpuBoot 0) (vcProg [0x01, 0xFC])).map
      (fun p => (p.1.r 0, p.1.pc, p.1.sp, p.1.phase)) = some (30, 2, 0, Phase.OPFETCH) := by
  decide

/-- What the code does on an `a` field `0x10 + n` (`[REG + nextword]`): the
label `UAREAD` stores `r[n]` in `acu` and falls into the label `ACUFETCH`
with `addrdec`, `addradd`, `PC` and the phase as they were, exactly as for
the plain register form `n`: the inner test `if(opca & 0x08)` sits in the
branch where that bit is clear. -/
theorem a_reg_nextword_code (s : DCPU16N) (vc : VComputer σ) (n : Nat)
    (hk : s.opcl &&& 0x001f ≠ 0 ∨ s.opcl &&& 0x03e0 ≠ 0) (hf : s.opcl >>> 10 = 0x10 + n)
    (hn : n < 8) :
    s.caseUAREAD vc = DCPU16N.caseACUFETCH { s with acu := s.r n } vc := by
  have hb : (0x10 + n) &&& 0x0020 = 0 ∧ (0x10 + n) &&& 0x010 ≠ 0 ∧ (0x10 + n) &&& 0x08 = 0 ∧
      (0x10 + n) &&& 0x7 = n := by
    interval_cases n <;> decide
  obtain ⟨c1, c2, c3, c4⟩ := hb
  simp only [DCPU16N.caseUAREAD, hk, hf, c1, c2, c3, c4, ne_eq, not_false_eq_true,
    not_true_eq_false, if_true, if_false]

/-- C27, the code at the failing input, run from the ROM after reset with
`r0 = 2`: the program is `SET r1, [r0 + 0x0004]` (words `0x4021`, `0x0004`)
and the ROM word at offset 6, which `EMU[0]` maps the address `2 + 4` to, is
`0x1234`.  After the two ticks of the instruction `r1 = 2`, the value of
`r0`, not `0x1234`, and `PC = 2`, not `4`: the word `0x0004` is not consumed,
and two ticks later it has been run as an instruction (`0x0004` is
`MUL r0, r0`, which leaves `r0 = 4`, with `PC = 4`). -/
theorem C27_a_reg_nextword_read_as_reg :
    (fetchWord (vcProg progRegNextword) ((cpuBoot 2).emuAddr (2 + 4))).map (fun p => p.1) =
      some 0x1234 ∧
    (DCPU16N.Tick 2 (cpuBoot 2) (vcProg progRegNextword)).map
      (fun p => (p.1.r 1, p.1.pc, p.1.phase)) = some (2, 2, Phase.OPFETCH) ∧
    (DCPU16N.Tick 4 (cpuBoot 2) (vcProg progRegNextword)).map
      (fun p => (p.1.r 0, p.1.r 1, p.1.pc, p.1.phase)) = some (4, 2, 4, Phase.OPFETCH) := by
  decide

theorem sp_plus_four (x : Nat) : ((x + 2) % 65536 + 2) % 65536 = (x + 4) % 65536 := by
  omega

/-- C21. RFI: at the point of `Tick` where the `a` operand is read, an `RFI`
(unary opcode `0x0b`, 16-bit instruction word) whose `a` field names a general
register ends the tick in the phase `EXECRFI` with nothing else changed but
the latches; the next tick, when the two words at the EMU-translated addresses
of `SP` and of `SP + 2` can be read and are `v0` and `v1`, leaves `r[0] = v0`,
`PC = v1`, `SP` increased by 4 modulo `2^16`, `qint` clear, the other
registers as they were and the phase `OPFETCH`. -/
theorem C21_rfi_pops_r0_then_pc (s : DCPU16N) (vc vc1 vc2 : VComputer σ) (i v0 v1 : Nat)
    (hw : s.opcl < 2 ^ 16) (hop : s.opcl &&& 0x001f = 0)
    (hun : (s.opcl >>> 5) &&& 0x001f = 0x0b) (ha : s.opcl >>> 10 = i) (hi : i < 8)
    (hdec : s.addrdec = false)
    (h0 : fetchWord vc (s.emuAddr s.sp) = some (v0, vc1))
    (h1 : fetchWord vc1 (s.emuAddr ((s.sp + 2) % 65536)) = some (v1, vc2)) :
    ∃ s1 t, s.caseUAREAD vc = some (s1, vc) ∧ s1.phase = Phase.EXECRFI ∧
      s1.r = s.r ∧ s1.pc = s.pc ∧ s1.sp = s.sp ∧ s1.qint = s.qint ∧
      s1.tickOnce vc = some (t, vc2) ∧ t.r 0 = v0 ∧ t.pc = v1 ∧
      t.sp = (s.sp + 4) % 65536 ∧ t.qint = false ∧ t.phase = Phase.OPFETCH ∧
      (∀ k, k ≠ 0 → t.r k = s.r k) := by
  have hne : s.opcl &&& 0x03e0 ≠ 0 := by
    rw [unary_field_mask, hun]; decide
  have hwz : (s.opcl >>> 10) &&& 0x0100 = 0 := a_field_no_write s.opcl hw
  have hA := caseUAREAD_unary_reg s vc i hne ha hi hdec
  have hB := caseUBREAD_unary { s with acu := s.r i } vc hop hdec
  have hC := caseEXEC_unary { s with acu := s.r i } vc hop hne
  have hD : DCPU16N.execUnary { s with acu := s.r i, phase := Phase.OPFETCH } vc =
      some ({ s with acu := s.r i, phase := Phase.EXECRFI, wrt := s.opcl >>> 10,
                     bca := s.aca }, vc) := by
    simp only [DCPU16N.execUnary, hun]
  have hE :
      DCPU16N.caseUBWRITE
        { s with acu := s.r i, phase := Phase.EXECRFI, wrt := s.opcl >>> 10, bca := s.aca } vc =
      some ({ s with acu := s.r i, phase := Phase.EXECRFI, wrt := s.opcl >>> 10,
                     bca := s.aca }, vc) :=
    caseUBWRITE_none _ vc hwz hdec
  refine ⟨{ s with acu := s.r i, phase := Phase.EXECRFI, wrt := s.opcl >>> 10, bca := s.aca },
    { s with acu := s.r i, phase := Phase.OPFETCH, wrt := s.opcl >>> 10, qint := false,
             bca := s.emuAddr ((s.sp + 2) % 65536), sp := (s.sp + 4) % 65536,
             r := setCell s.r 0 v0, pc := v1 }, ?_, rfl, rfl, rfl, rfl, rfl, ?_, ?_, rfl, rfl, rfl,
    rfl, ?_⟩
  · rw [hA, hB, hC, hD, Option.some_bind]
    exact hE
  · have e0 :
        DCPU16N.emuAddr
          { s with acu := s.r i, phase := Phase.EXECRFI, wrt := s.opcl >>> 10, bca := s.aca } =
        s.emuAddr := rfl
    simp only [DCPU16N.tickOnce, e0, h0, h1, Option.some_bind, Option.map_some', sp_plus_four]
  · simp [setCell]
  · intro k hk
    simp [setCell, hk]

/-- Witness of C21: `RFI r0` (instruction word `0x0160`) on a reset CPU with
`qint` set; `SP = 0` is mapped to the ROM, whose first two words are `0x0160`
and `0x1234`. -/
theorem C21_rfi_pops_r0_then_pc_witness :
    ((cpuInHandlerAtA 0x0160).opcl < 2 ^ 16 ∧ (cpuInHandlerAtA 0x0160).opcl &&& 0x001f = 0 ∧
      ((cpuInHandlerAtA 0x0160).opcl >>> 5) &&& 0x001f = 0x0b ∧
      (cpuInHandlerAtA 0x0160).opcl >>> 10 = 0 ∧ 0 < 8 ∧
      (cpuInHandlerAtA 0x0160).addrdec = false ∧
      fetchWord (vcProg progRfi) ((cpuInHandlerAtA 0x0160).emuAddr (cpuInHandlerAtA 0x0160).sp) =
        some (0x0160, vcProg progRfi) ∧
      fetchWord (vcProg progRfi)
          ((cpuInHandlerAtA 0x0160).emuAddr (((cpuInHandlerAtA 0x0160).sp + 2) % 65536)) =
        some (0x1234, vcProg progRfi)) ∧
    ∃ s1 t, (cpuInHandlerAtA 0x0160).caseUAREAD (vcProg progRfi) = some (s1, vcProg progRfi) ∧
      s1.phase = Phase.EXECRFI ∧
      s1.r = (cpuInHandlerAtA 0x0160).r ∧ s1.pc = (cpuInHandlerAtA 0x0160).pc ∧
      s1.sp = (cpuInHandlerAtA 0x0160).sp ∧ s1.qint = (cpuInHandlerAtA 0x0160).qint ∧
      s1.tickOnce (vcProg progRfi) = some (t, vcProg progRfi) ∧ t.r 0 = 0x0160 ∧ t.pc = 0x1234 ∧
      t.sp = ((cpuInHandlerAtA 0x0160).sp + 4) % 65536 ∧ t.qint = false ∧
      t.phase = Phase.OPFETCH ∧
      (∀ k, k ≠ 0 → t.r k = (cpuInHandlerAtA 0x0160).r k) :=
  ⟨⟨by decide, by decide, by decide, by decide, by decide, by decide, rfl, rfl⟩,
    C21_rfi_pops_r0_then_pc (cpuInHandlerAtA 0x0160) (vcProg progRfi) (vcProg progRfi)
      (vcProg progRfi) 0 0x0160 0x1234 (by decide) (by decide) (by decide) (by decide)
      (by decide) (by decide) rfl rfl⟩

/-- The instruction run from the ROM: on a reset CPU with `qint` set, the
three ticks of `RFI r0` (fetch, operand and `EXEC`, `EXECRFI`) leave
`r0 = 0x0160`, `PC = 0x1234`, `SP = 4`, `qint` clear and the phase
`OPFETCH`. -/
theorem rfi_from_rom :
    cpuInHandler.qint = true ∧
    (DCPU16N.Tick 3 cpuInHandler (vcProg progRfi)).map
      (fun p => (p.1.r 0, p.1.pc, p.1.sp, p.1.qint, p.1.phase)) =
      some (0x0160, 0x1234, 4, false, Phase.OPFETCH) := by
  decide

end operands

end cpu

end vm

/-! ## The loop of Step -/

namespace vm

namespace cpu

section timing
variable {σ : Type}

theorem fetchWord_lt (vc : VComputer σ) (a : Nat) (p : Nat × VComputer σ)
    (h : fetchWord vc a = some p) : p.1 < 65536 := by
  unfold fetchWord at h
  cases h1 : vc.ReadB ((a + 1) % 2 ^ 32) with
  | none => rw [h1] at h; simp at h
  | some hi =>
    rw [h1] at h
    simp only [Option.some_bind] at h
    cases h2 : hi.2.ReadB a with
    | none => rw [h2] at h; simp at h
    | some lo =>
      rw [h2] at h
      simp only [Option.some_bind, Option.some.injEq] at h
      rw [← h]
      exact Nat.mod_lt _ (by norm_num)

/-- The first tick of an instruction: from the phase `OPFETCH` it only
fetches the instruction word. -/
theorem tickOnce_opfetch (s : DCPU16N) (vc : VComputer σ) (p : Nat × VComputer σ)
    (hph : s.phase = Phase.OPFETCH) (hf : fetchWord vc (s.emuAddr s.pc) = some p) :
    s.tickOnce vc =
      some ({ s with opcl := p.1, pc := (s.pc + 2) % 65536, phase := Phase.UAREAD }, p.2) := by
  simp only [DCPU16N.tickOnce, hph, hf, Option.map_some']

/-- One more turn of the loop of `Step`: when the tick leaves `fire` clear and
a phase other than `OPFETCH`, the loop goes on with the counter raised. -/
theorem stepLoop_continue (fuel x : Nat) (s s1 : DCPU16N) (vc vc1 : VComputer σ)
    (ht : s.tickOnce vc = some (s1, vc1)) (hfire : s1.fire = false)
    (hph : s1.phase ≠ Phase.OPFETCH) :
    DCPU16N.stepLoop (fuel + 1) x s vc = DCPU16N.stepLoop fuel ((x + 1) % 2 ^ 32) s1 vc1 := by
  have h1 : DCPU16N.Tick 1 s vc = some (s1, vc1) := by rw [Tick_one, ht]
  simp only [DCPU16N.stepLoop, h1]
  rw [if_pos ⟨hfire, hph⟩]

/-- The value returned by the loop of `Step` is the counter it started with
plus the number of turns made, at least one and at most `fuel`. -/
theorem stepLoop_returned_bounds (fuel : Nat) :
    ∀ (x : Nat) (s : DCPU16N) (vc : VComputer σ) (y : Nat) (t : DCPU16N) (vc2 : VComputer σ),
      x + fuel < 2 ^ 32 → DCPU16N.stepLoop fuel x s vc = StepOutcome.returned y t vc2 →
      x < y ∧ y ≤ x + fuel := by
  induction fuel with
  | zero =>
    intro x s vc y t vc2 _ h
    simp [DCPU16N.stepLoop] at h
  | succ k ih =>
    intro x s vc y t vc2 hx h
    simp only [DCPU16N.stepLoop] at h
    cases ht : DCPU16N.Tick 1 s vc with
    | none => rw [ht] at h; simp at h
    | some p =>
      rw [ht] at h
      dsimp only at h
      have hm : (x + 1) % 2 ^ 32 = x + 1 := Nat.mod_eq_of_lt (by omega)
      rw [hm] at h
      split_ifs at h with hc
      · have := ih (x + 1) p.1 p.2 y t vc2 (by omega) h
        omega
      · simp only [StepOutcome.returned.injEq] at h
        omega

/-- The three tests made on a 5-bit operand field, as arithmetic. -/
theorem field_tests (g : Nat) (hg : g < 32) :
    (g &&& 0x010 = 0 ↔ g < 16) ∧ (g &&& 0x08 = 0 ↔ g % 16 < 8) ∧ g &&& 0x7 = g % 8 := by
  interval_cases g <;> decide

/-- A `b` field that needs the bus: `[REG]`, `[REG + nextword]`, `[--SP]`,
`[SP]`, `[SP + nextword]`, `[nextword]` or `nextword`.  The label `UBREAD`
then leaves the switch with the phase `BCUFETCH` or `NWBFETCH`. -/
theorem caseUBREAD_indirect (s : DCPU16N) (vc : VComputer σ) (g : Nat)
    (hop : s.opcl &&& 0x001f ≠ 0) (hb : (s.opcl >>> 5) &&& 0x01f = g)
    (hg : (0x08 ≤ g ∧ g ≤ 0x1A) ∨ g = 0x1E ∨ g = 0x1F)
    (r : DCPU16N × VComputer σ) (h : s.caseUBREAD vc = some r) :
    r.1.fire = s.fire ∧ (r.1.phase = Phase.BCUFETCH ∨ r.1.phase = Phase.NWBFETCH) := by
  have hg2 : g < 32 := by omega
  have hg1 : 8 ≤ g := by omega
  obtain ⟨t1, t2, t3⟩ := field_tests g hg2
  simp only [DCPU16N.caseUBREAD, hop, hb, t1, t2, t3, ne_eq, not_false_eq_true, if_true] at h
  interval_cases g
  all_goals first
    | omega
    | (simp at h
       rw [← h]
       simp)

end timing

end cpu

end vm

/-! ## Operand forms that need the bus -/

namespace vm

namespace cpu

section timing2
variable {σ : Type}

/-- The label `ACUFETCH` falls into `UBREAD`; with a `b` field that needs the
bus the tick ends in the phase `BCUFETCH` or `NWBFETCH`. -/
theorem caseACUFETCH_b_indirect (s : DCPU16N) (vc : VComputer σ) (g : Nat)
    (hop : s.opcl &&& 0x001f ≠ 0) (hb : (s.opcl >>> 5) &&& 0x01f = g)
    (hg : (0x08 ≤ g ∧ g ≤ 0x1A) ∨ g = 0x1E ∨ g = 0x1F)
    (r : DCPU16N × VComputer σ) (h : s.caseACUFETCH vc = some r) :
    r.1.fire = s.fire ∧ (r.1.phase = Phase.BCUFETCH ∨ r.1.phase = Phase.NWBFETCH) := by
  have key : ∀ (u : DCPU16N) (vc1 : VComputer σ), u.caseUBREAD vc1 = some r →
      u.opcl = s.opcl → u.fire = s.fire →
      r.1.fire = s.fire ∧ (r.1.phase = Phase.BCUFETCH ∨ r.1.phase = Phase.NWBFETCH) := by
    intro u vc1 h3 h1 h2
    have := caseUBREAD_indirect u vc1 g (by rw [h1]; exact hop) (by rw [h1]; exact hb) hg r h3
    rw [h2] at this
    exact this
  unfold DCPU16N.caseACUFETCH at h
  split_ifs at h with hd
  · dsimp only at h
    cases hf : fetchWord vc (s.emuAddr s.acu) with
    | none => rw [hf] at h; simp at h
    | some p =>
      rw [hf] at h
      simp only [Option.some_bind] at h
      exact key _ _ h rfl rfl
  · exact key s vc h rfl rfl

/-- The tick that starts at the label `UAREAD` does not end in the phase
`OPFETCH` when the `b` field of a binary instruction needs the bus. -/
theorem caseUAREAD_b_indirect (s : DCPU16N) (vc : VComputer σ) (g : Nat)
    (hph : s.phase = Phase.UAREAD)
    (hop : s.opcl &&& 0x001f ≠ 0) (hb : (s.opcl >>> 5) &&& 0x01f = g)
    (hg : (0x08 ≤ g ∧ g ≤ 0x1A) ∨ g = 0x1E ∨ g = 0x1F)
    (r : DCPU16N × VComputer σ) (h : s.caseUAREAD vc = some r) :
    r.1.fire = s.fire ∧ r.1.phase ≠ Phase.OPFETCH := by
  have key : ∀ u : DCPU16N, u.caseACUFETCH vc = some r → u.opcl = s.opcl → u.fire = s.fire →
      r.1.fire = s.fire ∧ r.1.phase ≠ Phase.OPFETCH := by
    intro u h3 h1 h2
    have := caseACUFETCH_b_indirect u vc g (by rw [h1]; exact hop) (by rw [h1]; exact hb) hg r h3
    rw [h2] at this
    refine ⟨this.1, ?_⟩
    rcases this.2 with e | e <;> rw [e] <;> decide
  have brk : ∀ u : DCPU16N, some (u, vc) = some r → u.fire = s.fire → u.phase ≠ Phase.OPFETCH →
      r.1.fire = s.fire ∧ r.1.phase ≠ Phase.OPFETCH := by
    intro u h3 h1 h2
    simp only [Option.some.injEq] at h3
    rw [← h3]
    exact ⟨h1, h2⟩
  have hph2 : s.phase ≠ Phase.OPFETCH := by rw [hph]; decide
  unfold DCPU16N.caseUAREAD at h
  rw [if_pos (Or.inl hop)] at h
  dsimp only at h
  by_cases c1 : s.opcl >>> 10 &&& 0x0020 ≠ 0
  · rw [if_pos c1] at h
    exact key _ h rfl rfl
  · rw [if_neg c1] at h
    by_cases c2 : s.opcl >>> 10 &&& 0x010 ≠ 0
    · rw [if_pos c2] at h
      by_cases c3 : s.opcl >>> 10 &&& 0x08 ≠ 0
      · rw [if_pos c3] at h
        have hm : s.opcl >>> 10 &&& 0x7 < 8 := by
          have := @Nat.and_le_right (s.opcl >>> 10) 7
          omega
        generalize s.opcl >>> 10 &&& 0x7 = m at h hm
        interval_cases m
        all_goals
          dsimp only at h
          split at h
          all_goals first
            | exact key _ h rfl rfl
            | exact brk _ h rfl (fun e => Phase.noConfusion e)
            | exact brk _ h rfl hph2
      · rw [if_neg c3, if_neg c3] at h
        exact key _ h rfl rfl
    · rw [if_neg c2] at h
      by_cases c3 : s.opcl >>> 10 &&& 0x08 ≠ 0
      · rw [if_pos c3] at h
        exact brk _ h rfl (fun e => Phase.noConfusion e)
      · rw [if_neg c3] at h
        exact key _ h rfl rfl

end timing2

end cpu

end vm

/-! ## Minimum instruction time -/

namespace vm

namespace cpu

section timing3
variable {σ : Type}

/-- An `a` field that needs the bus: `[REG]`, `[SP++]`, `[SP]`,
`[SP + nextword]`, `[nextword]` or `nextword`.  The label `UAREAD` then
leaves the switch with the phase `ACUFETCH` or `NWAFETCH`. -/
theorem caseUAREAD_a_indirect (s : DCPU16N) (vc : VComputer σ) (f : Nat)
    (hk : s.opcl &&& 0x001f ≠ 0 ∨ s.opcl &&& 0x03e0 ≠ 0) (hf : s.opcl >>> 10 = f)
    (hfv : (0x08 ≤ f ∧ f ≤ 0x0F) ∨ (0x18 ≤ f ∧ f ≤ 0x1A) ∨ f = 0x1E ∨ f = 0x1F)
    (r : DCPU16N × VComputer σ) (h : s.caseUAREAD vc = some r) :
    r.1.fire = s.fire ∧ (r.1.phase = Phase.ACUFETCH ∨ r.1.phase = Phase.NWAFETCH) := by
  have hf2 : f < 32 := by omega
  have hf1 : 8 ≤ f := by omega
  obtain ⟨t1, t2, t3⟩ := field_tests f hf2
  have t0 : f &&& 0x0020 = 0 := by interval_cases f <;> decide
  simp only [DCPU16N.caseUAREAD, hk, hf, t0, t1, t2, t3, ne_eq, not_true_eq_false,
    not_false_eq_true, if_true, if_false] at h
  interval_cases f
  all_goals first
    | omega
    | (simp at h
       rw [← h]
       simp)

/-- The fall-through from the label `UAREAD` to the label `UBREAD` when the
`a` field names the general register `j`. -/
theorem caseUAREAD_reg (s : DCPU16N) (vc : VComputer σ) (j : Nat)
    (hk : s.opcl &&& 0x001f ≠ 0 ∨ s.opcl &&& 0x03e0 ≠ 0) (ha : s.opcl >>> 10 = j) (hj : j < 8)
    (hdec : s.addrdec = false) :
    s.caseUAREAD vc = DCPU16N.caseUBREAD { s with acu := s.r j } vc := by
  obtain ⟨a1, a2, a3, -, -, -, -, -⟩ := reg_field_bits j hj
  have a0 : j &&& 0x20 = 0 := by interval_cases j <;> decide
  simp [DCPU16N.caseUAREAD, DCPU16N.caseACUFETCH, hk, ha, hdec, a0, a1, a2, a3]

/-- The tick of a `SET` whose `b` field names the general register `i`, from
the label `UBREAD` with the value of `a` in `acu`. -/
theorem caseUBREAD_set (s : DCPU16N) (vc : VComputer σ) (i : Nat)
    (hop : s.opcl &&& 0x001f = 0x01) (hb : (s.opcl >>> 5) &&& 0x01f = i) (hi : i < 8)
    (hdec : s.addrdec = false) :
    ∃ t, s.caseUBREAD vc = some (t, vc) ∧ t.phase = Phase.OPFETCH ∧ t.fire = s.fire ∧
      t.r i = s.acu := by
  obtain ⟨b1, b2, b3, b4, b5, b6, b7, b8⟩ := reg_field_bits i hi
  simp [DCPU16N.caseUBREAD, DCPU16N.caseBCUFETCH, DCPU16N.caseEXEC, DCPU16N.execBinary,
    DCPU16N.caseUBWRITE, DCPU16N.caseBCUWRITE, hop, hb, hdec, b1, b2, b3, b4, b5, b6, b7, b8,
    setCell]

/-- The label `UAREAD` on a small-literal `a` field `f` in `0x20..0x3F`: it
stores the literal in `acu` and falls into the label `ACUFETCH`. -/
theorem caseUAREAD_literal (s : DCPU16N) (vc : VComputer σ) (f : Nat)
    (hk : s.opcl &&& 0x001f ≠ 0 ∨ s.opcl &&& 0x03e0 ≠ 0) (hf : s.opcl >>> 10 = f)
    (h1 : 0x20 ≤ f) (h2 : f ≤ 0x3F) :
    s.caseUAREAD vc =
      DCPU16N.caseACUFETCH { s with acu := (f + 65536 - 0x21) % 65536 } vc := by
  obtain ⟨l1, l2⟩ := literal_field_bits f h1 h2
  simp only [DCPU16N.caseUAREAD, hk, hf, l1, l2, ne_eq, not_false_eq_true, if_true]

/-- The second tick of a `SET` of a general register from a general register
or a small literal: it ends in the phase `OPFETCH`. -/
theorem caseUAREAD_set (s : DCPU16N) (vc : VComputer σ)
    (hw : s.opcl < 65536)
    (hop : s.opcl &&& 0x001f = 0x01) (hb : (s.opcl >>> 5) &&& 0x01f < 8)
    (ha : s.opcl >>> 10 < 8 ∨ 0x20 ≤ s.opcl >>> 10) (hdec : s.addrdec = false) :
    ∃ t, s.caseUAREAD vc = some (t, vc) ∧ t.phase = Phase.OPFETCH ∧ t.fire = s.fire := by
  have hk : s.opcl &&& 0x001f ≠ 0 ∨ s.opcl &&& 0x03e0 ≠ 0 := Or.inl (by rw [hop]; decide)
  have key : ∀ v : Nat,
      ∃ t, DCPU16N.caseUBREAD { s with acu := v } vc = some (t, vc) ∧
        t.phase = Phase.OPFETCH ∧ t.fire = s.fire := by
    intro v
    obtain ⟨t, e1, e2, e3, -⟩ :=
      caseUBREAD_set { s with acu := v } vc ((s.opcl >>> 5) &&& 0x01f) hop rfl hb hdec
    exact ⟨t, e1, e2, e3⟩
  rcases ha with ha | ha
  · rw [caseUAREAD_reg s vc _ hk rfl ha hdec]
    exact key _
  · have h2 : s.opcl >>> 10 ≤ 0x3F := by
      rw [Nat.shiftRight_eq_div_pow]
      norm_num
      omega
    have hB : DCPU16N.caseACUFETCH { s with acu := (s.opcl >>> 10 + 65536 - 0x21) % 65536 } vc =
        DCPU16N.caseUBREAD { s with acu := (s.opcl >>> 10 + 65536 - 0x21) % 65536 } vc := by
      simp only [DCPU16N.caseACUFETCH, hdec, Bool.false_eq_true, if_false]
    rw [caseUAREAD_literal s vc _ hk rfl ha h2, hB]
    exact key _

/-- An `a` field that takes a next word and is honoured by the code:
`[SP + nextword]`, `[nextword]` or `nextword`.  The label `UAREAD` then leaves
the switch with the phase `NWAFETCH`. -/
theorem caseUAREAD_a_nextword (s : DCPU16N) (vc : VComputer σ) (f : Nat)
    (hk : s.opcl &&& 0x001f ≠ 0 ∨ s.opcl &&& 0x03e0 ≠ 0) (hf : s.opcl >>> 10 = f)
    (hfv : f = 0x1A ∨ f = 0x1E ∨ f = 0x1F)
    (r : DCPU16N × VComputer σ) (h : s.caseUAREAD vc = some r) :
    r.1.fire = s.fire ∧ r.1.phase = Phase.NWAFETCH := by
  have hf2 : f < 32 := by omega
  have hf1 : 0x1A ≤ f := by omega
  obtain ⟨t1, t2, t3⟩ := field_tests f hf2
  have t0 : f &&& 0x0020 = 0 := by interval_cases f <;> decide
  simp only [DCPU16N.caseUAREAD, hk, hf, t0, t1, t2, t3, ne_eq, not_true_eq_false,
    not_false_eq_true, if_true, if_false] at h
  interval_cases f
  all_goals first
    | omega
    | (simp at h
       rw [← h]
       simp)

/-- The tick of the phase `NWAFETCH` ends in the phase `ACUFETCH` or
`UBREAD`. -/
theorem tickOnce_nwafetch (s : DCPU16N) (vc : VComputer σ) (hph : s.phase = Phase.NWAFETCH)
    (r : DCPU16N × VComputer σ) (h : s.tickOnce vc = some r) :
    r.1.fire = s.fire ∧ (r.1.phase = Phase.ACUFETCH ∨ r.1.phase = Phase.UBREAD) := by
  simp only [DCPU16N.tickOnce, hph] at h
  obtain ⟨p, -, hp⟩ := Option.map_eq_some'.mp h
  rw [← hp]
  dsimp only
  split_ifs <;> simp

/-- The tick of the phase `NWBFETCH` ends in the phase `BCUFETCH` or
`EXEC`. -/
theorem tickOnce_nwbfetch (s : DCPU16N) (vc : VComputer σ) (hph : s.phase = Phase.NWBFETCH)
    (r : DCPU16N × VComputer σ) (h : s.tickOnce vc = some r) :
    r.1.fire = s.fire ∧ (r.1.phase = Phase.BCUFETCH ∨ r.1.phase = Phase.EXEC) := by
  simp only [DCPU16N.tickOnce, hph] at h
  obtain ⟨p, -, hp⟩ := Option.map_eq_some'.mp h
  rw [← hp]
  dsimp only
  split_ifs <;> simp

/-- A `b` field that takes a next word: `[REG + nextword]`, `[SP + nextword]`,
`[nextword]` or `nextword`.  The label `UBREAD` then leaves the switch with
the phase `NWBFETCH`. -/
theorem caseUBREAD_nextword (s : DCPU16N) (vc : VComputer σ) (g : Nat)
    (hop : s.opcl &&& 0x001f ≠ 0) (hb : (s.opcl >>> 5) &&& 0x01f = g)
    (hg : (0x10 ≤ g ∧ g ≤ 0x17) ∨ g = 0x1A ∨ g = 0x1E ∨ g = 0x1F)
    (r : DCPU16N × VComputer σ) (h : s.caseUBREAD vc = some r) :
    r.1.fire = s.fire ∧ r.1.opcl = s.opcl ∧ r.1.phase = Phase.NWBFETCH := by
  have hg2 : g < 32 := by omega
  have hg1 : 16 ≤ g := by omega
  obtain ⟨t1, t2, t3⟩ := field_tests g hg2
  simp only [DCPU16N.caseUBREAD, hop, hb, t1, t2, t3, ne_eq, not_false_eq_true, if_true] at h
  interval_cases g
  all_goals first
    | omega
    | (simp at h
       rw [← h]
       simp)

/-- The label `ACUFETCH` falls into `UBREAD`; with a `b` field that takes a
next word the tick ends in the phase `NWBFETCH`. -/
theorem caseACUFETCH_b_nextword (s : DCPU16N) (vc : VComputer σ) (g : Nat)
    (hop : s.opcl &&& 0x001f ≠ 0) (hb : (s.opcl >>> 5) &&& 0x01f = g)
    (hg : (0x10 ≤ g ∧ g ≤ 0x17) ∨ g = 0x1A ∨ g = 0x1E ∨ g = 0x1F)
    (r : DCPU16N × VComputer σ) (h : s.caseACUFETCH vc = some r) :
    r.1.fire = s.fire ∧ r.1.opcl = s.opcl ∧ r.1.phase = Phase.NWBFETCH := by
  have key : ∀ (u : DCPU16N) (vc1 : VComputer σ), u.caseUBREAD vc1 = some r →
      u.opcl = s.opcl → u.fire = s.fire →
      r.1.fire = s.fire ∧ r.1.opcl = s.opcl ∧ r.1.phase = Phase.NWBFETCH := by
    intro u vc1 h3 h1 h2
    have := caseUBREAD_nextword u vc1 g (by rw [h1]; exact hop) (by rw [h1]; exact hb) hg r h3
    rw [h1, h2] at this
    exact this
  unfold DCPU16N.caseACUFETCH at h
  split_ifs at h with hd
  · dsimp only at h
    cases hf : fetchWord vc (s.emuAddr s.acu) with
    | none => rw [hf] at h; simp at h
    | some p =>
      rw [hf] at h
      simp only [Option.some_bind] at h
      exact key _ _ h rfl rfl
  · exact key s vc h rfl rfl

/-- The tick that starts at the label `UAREAD` when the `b` field of a binary
instruction takes a next word: it keeps the instruction word and ends in one
of the phases `UAREAD`, `ACUFETCH`, `NWAFETCH`, `NWBFETCH`. -/
theorem caseUAREAD_b_nextword (s : DCPU16N) (vc : VComputer σ) (g : Nat)
    (hph : s.phase = Phase.UAREAD)
    (hop : s.opcl &&& 0x001f ≠ 0) (hb : (s.opcl >>> 5) &&& 0x01f = g)
    (hg : (0x10 ≤ g ∧ g ≤ 0x17) ∨ g = 0x1A ∨ g = 0x1E ∨ g = 0x1F)
    (r : DCPU16N × VComputer σ) (h : s.caseUAREAD vc = some r) :
    r.1.fire = s.fire ∧ r.1.opcl = s.opcl ∧
      (r.1.phase = Phase.UAREAD ∨ r.1.phase = Phase.ACUFETCH ∨ r.1.phase = Phase.NWAFETCH ∨
        r.1.phase = Phase.NWBFETCH) := by
  have key : ∀ u : DCPU16N, u.caseACUFETCH vc = some r → u.opcl = s.opcl → u.fire = s.fire →
      r.1.fire = s.fire ∧ r.1.opcl = s.opcl ∧
      (r.1.phase = Phase.UAREAD ∨ r.1.phase = Phase.ACUFETCH ∨ r.1.phase = Phase.NWAFETCH ∨
        r.1.phase = Phase.NWBFETCH) := by
    intro u h3 h1 h2
    have := caseACUFETCH_b_nextword u vc g (by rw [h1]; exact hop) (by rw [h1]; exact hb) hg r h3
    rw [h1, h2] at this
    exact ⟨this.1, this.2.1, Or.inr (Or.inr (Or.inr this.2.2))⟩
  have brk : ∀ u : DCPU16N, some (u, vc) = some r → u.opcl = s.opcl → u.fire = s.fire →
      (u.phase = Phase.UAREAD ∨ u.phase = Phase.ACUFETCH ∨ u.phase = Phase.NWAFETCH ∨
        u.phase = Phase.NWBFETCH) →
      r.1.fire = s.fire ∧ r.1.opcl = s.opcl ∧
      (r.1.phase = Phase.UAREAD ∨ r.1.phase = Phase.ACUFETCH ∨ r.1.phase = Phase.NWAFETCH ∨
        r.1.phase = Phase.NWBFETCH) := by
    intro u h3 h1 h2 h4
    simp only [Option.some.injEq] at h3
    rw [← h3]
    exact ⟨h2, h1, h4⟩
  unfold DCPU16N.caseUAREAD at h
  rw [if_pos (Or.inl hop)] at h
  dsimp only at h
  by_cases c1 : s.opcl >>> 10 &&& 0x0020 ≠ 0
  · rw [if_pos c1] at h
    exact key _ h rfl rfl
  · rw [if_neg c1] at h
    by_cases c2 : s.opcl >>> 10 &&& 0x010 ≠ 0
    · rw [if_pos c2] at h
      by_cases c3 : s.opcl >>> 10 &&& 0x08 ≠ 0
      · rw [if_pos c3] at h
        have hm : s.opcl >>> 10 &&& 0x7 < 8 := by
          have := @Nat.and_le_right (s.opcl >>> 10) 7
          omega
        generalize s.opcl >>> 10 &&& 0x7 = m at h hm
        interval_cases m
        all_goals
          dsimp only at h
          split at h
          all_goals first
            | exact key _ h rfl rfl
            | exact brk _ h rfl rfl (Or.inl hph)
            | exact brk _ h rfl rfl (Or.inr (Or.inl rfl))
            | exact brk _ h rfl rfl (Or.inr (Or.inr (Or.inl rfl)))
      · rw [if_neg c3, if_neg c3] at h
        exact key _ h rfl rfl
    · rw [if_neg c2] at h
      by_cases c3 : s.opcl >>> 10 &&& 0x08 ≠ 0
      · rw [if_pos c3] at h
        exact brk _ h rfl rfl (Or.inr (Or.inl rfl))
      · rw [if_neg c3] at h
        exact key _ h rfl rfl

/-- The second and third ticks of an instruction with a next-word operand
that the code honours: neither ends in the phase `OPFETCH`. -/
theorem nextword_two_ticks (s : DCPU16N) (vc : VComputer σ)
    (hph : s.phase = Phase.UAREAD)
    (hform : ((s.opcl &&& 0x001f ≠ 0 ∨ s.opcl &&& 0x03e0 ≠ 0) ∧
        (s.opcl >>> 10 = 0x1A ∨ s.opcl >>> 10 = 0x1E ∨ s.opcl >>> 10 = 0x1F)) ∨
      (s.opcl &&& 0x001f ≠ 0 ∧
        ((0x10 ≤ (s.opcl >>> 5) &&& 0x01f ∧ (s.opcl >>> 5) &&& 0x01f ≤ 0x17) ∨
          (s.opcl >>> 5) &&& 0x01f = 0x1A ∨ (s.opcl >>> 5) &&& 0x01f = 0x1E ∨
          (s.opcl >>> 5) &&& 0x01f = 0x1F)))
    (r : DCPU16N × VComputer σ) (h : s.caseUAREAD vc = some r) :
    r.1.fire = s.fire ∧ r.1.phase ≠ Phase.OPFETCH ∧
    ∀ r2, r.1.tickOnce r.2 = some r2 → r2.1.fire = s.fire ∧ r2.1.phase ≠ Phase.OPFETCH := by
  rcases hform with ⟨hk, hfv⟩ | ⟨hop, hg⟩
  · obtain ⟨g1, g2⟩ := caseUAREAD_a_nextword s vc (s.opcl >>> 10) hk rfl hfv r h
    refine ⟨g1, by rw [g2]; exact fun e => Phase.noConfusion e, ?_⟩
    intro r2 h2
    obtain ⟨k1, k2⟩ := tickOnce_nwafetch r.1 r.2 g2 r2 h2
    refine ⟨by rw [k1, g1], ?_⟩
    rcases k2 with e | e <;> rw [e] <;> exact fun e => Phase.noConfusion e
  · obtain ⟨g1, g2, g3⟩ :=
      caseUAREAD_b_nextword s vc ((s.opcl >>> 5) &&& 0x01f) hph hop rfl hg r h
    have hop2 : r.1.opcl &&& 0x001f ≠ 0 := by rw [g2]; exact hop
    have hg2 : (0x10 ≤ (r.1.opcl >>> 5) &&& 0x01f ∧ (r.1.opcl >>> 5) &&& 0x01f ≤ 0x17) ∨
        (r.1.opcl >>> 5) &&& 0x01f = 0x1A ∨ (r.1.opcl >>> 5) &&& 0x01f = 0x1E ∨
        (r.1.opcl >>> 5) &&& 0x01f = 0x1F := by rw [g2]; exact hg
    refine ⟨g1, ?_, ?_⟩
    · rcases g3 with e | e | e | e <;> rw [e] <;> exact fun e => Phase.noConfusion e
    · intro r2 h2
      rcases g3 with e | e | e | e
      · have h3 : r.1.caseUAREAD r.2 = some r2 := by
          simpa only [DCPU16N.tickOnce, e] using h2
        obtain ⟨k1, k2, k3⟩ :=
          caseUAREAD_b_nextword r.1 r.2 ((r.1.opcl >>> 5) &&& 0x01f) e hop2 rfl hg2 r2 h3
        refine ⟨by rw [k1, g1], ?_⟩
        rcases k3 with e | e | e | e <;> rw [e] <;> exact fun e => Phase.noConfusion e
      · have h3 : r.1.caseACUFETCH r.2 = some r2 := by
          simpa only [DCPU16N.tickOnce, e] using h2
        obtain ⟨k1, -, k3⟩ :=
          caseACUFETCH_b_nextword r.1 r.2 ((r.1.opcl >>> 5) &&& 0x01f) hop2 rfl hg2 r2 h3
        refine ⟨by rw [k1, g1], ?_⟩
        rw [k3]; exact fun e => Phase.noConfusion e
      · obtain ⟨k1, k2⟩ := tickOnce_nwafetch r.1 r.2 e r2 h2
        refine ⟨by rw [k1, g1], ?_⟩
        rcases k2 with e | e <;> rw [e] <;> exact fun e => Phase.noConfusion e
      · obtain ⟨k1, k2⟩ := tickOnce_nwbfetch r.1 r.2 e r2 h2
        refine ⟨by rw [k1, g1], ?_⟩
        rcases k2 with e | e <;> rw [e] <;> exact fun e => Phase.noConfusion e

/-- C22 (as amended). Minimum instruction time: from a state with the phase
`OPFETCH` and `fire` clear in which the instruction word `w` can be fetched,
the first tick of `Step` only fetches, so the loop does not end there (one
turn is not enough, whatever the instruction); whenever `Step` returns within
`2^32` turns of its loop, it returns at least 2; at least 3 when the `a`
field of a binary or unary instruction is `[REG]`, `[SP++]`, `[SP]`,
`[SP + nextword]`, `[nextword]` or `nextword`, or the `b` field of a binary
instruction is `[REG]`, `[REG + nextword]`, `[--SP]`, `[SP]`,
`[SP + nextword]`, `[nextword]` or `nextword`; and more than 3 when that `a`
field is `[SP + nextword]`, `[nextword]` or `nextword`, or that `b` field is
`[REG + nextword]`, `[SP + nextword]`, `[nextword]` or `nextword`; and a `SET`
of a general register from a general register or a small literal returns
exactly 2, for every bound of at least 2 turns. -/
theorem C22_step_at_least_two_ticks (s : DCPU16N) (vc : VComputer σ) (w : Nat)
    (hph : s.phase = Phase.OPFETCH) (hfire : s.fire = false)
    (hw : (fetchWord vc (s.emuAddr s.pc)).map (fun p => p.1) = some w) :
    DCPU16N.Step 1 s vc = StepOutcome.running ∧
    (∀ fuel x t vc2, fuel < 2 ^ 32 →
      DCPU16N.Step fuel s vc = StepOutcome.returned x t vc2 →
      2 ≤ x ∧
      (((w &&& 0x001f ≠ 0 ∨ w &&& 0x03e0 ≠ 0) ∧
          ((0x08 ≤ w >>> 10 ∧ w >>> 10 ≤ 0x0F) ∨ (0x18 ≤ w >>> 10 ∧ w >>> 10 ≤ 0x1A) ∨
            w >>> 10 = 0x1E ∨ w >>> 10 = 0x1F)) ∨
        (w &&& 0x001f ≠ 0 ∧
          ((0x08 ≤ (w >>> 5) &&& 0x01f ∧ (w >>> 5) &&& 0x01f ≤ 0x1A) ∨
            (w >>> 5) &&& 0x01f = 0x1E ∨ (w >>> 5) &&& 0x01f = 0x1F)) → 3 ≤ x) ∧
      (((w &&& 0x001f ≠ 0 ∨ w &&& 0x03e0 ≠ 0) ∧
          (w >>> 10 = 0x1A ∨ w >>> 10 = 0x1E ∨ w >>> 10 = 0x1F)) ∨
        (w &&& 0x001f ≠ 0 ∧
          ((0x10 ≤ (w >>> 5) &&& 0x01f ∧ (w >>> 5) &&& 0x01f ≤ 0x17) ∨
            (w >>> 5) &&& 0x01f = 0x1A ∨ (w >>> 5) &&& 0x01f = 0x1E ∨
            (w >>> 5) &&& 0x01f = 0x1F)) → 3 < x)) ∧
    (w &&& 0x001f = 0x01 → (w >>> 5) &&& 0x01f < 8 → (w >>> 10 < 8 ∨ 0x20 ≤ w >>> 10) →
      s.addrdec = false → ∀ fuel, 2 ≤ fuel → (DCPU16N.Step fuel s vc).ticks = some 2) := by
  obtain ⟨p, hp, hpw⟩ := Option.map_eq_some'.mp hw
  have hw16 : w < 65536 := by rw [← hpw]; exact fetchWord_lt vc _ p hp
  have ht1 := tickOnce_opfetch s vc p hph hp
  rw [hpw] at ht1
  obtain ⟨s1, ht, ho, hp1, hf1, hd1⟩ : ∃ s1 : DCPU16N, s.tickOnce vc = some (s1, p.2) ∧
      s1.opcl = w ∧ s1.phase = Phase.UAREAD ∧ s1.fire = s.fire ∧ s1.addrdec = s.addrdec :=
    ⟨_, ht1, rfl, rfl, rfl, rfl⟩
  clear ht1 hw hpw
  subst ho
  rw [hfire] at hf1
  have hne : s1.phase ≠ Phase.OPFETCH := by rw [hp1]; exact fun e => Phase.noConfusion e
  have e1 : (0 + 1) % 2 ^ 32 = 1 := by norm_num
  have e2 : (1 + 1) % 2 ^ 32 = 2 := by norm_num
  have e3 : (2 + 1) % 2 ^ 32 = 3 := by norm_num
  have hgo : ∀ fuel, DCPU16N.Step (fuel + 1) s vc = DCPU16N.stepLoop fuel 1 s1 p.2 := by
    intro fuel
    unfold DCPU16N.Step
    rw [stepLoop_continue fuel 0 s s1 vc p.2 ht hf1 hne, e1]
  have ht2 : DCPU16N.Tick 1 s1 p.2 = s1.caseUAREAD p.2 := by
    rw [Tick_one]
    simp only [DCPU16N.tickOnce, hp1]
  refine ⟨?_, ?_, ?_⟩
  · rw [hgo 0]
    simp only [DCPU16N.stepLoop]
  · intro fuel x t vc2 hfuel hret
    cases fuel with
    | zero => exact StepOutcome.noConfusion hret
    | succ k =>
      rw [hgo k] at hret
      have hb := stepLoop_returned_bounds k 1 s1 p.2 x t vc2 (by omega) hret
      refine ⟨by omega, ?_, ?_⟩
      · intro hform
        cases k with
        | zero => exact StepOutcome.noConfusion hret
        | succ k2 =>
          cases hr : s1.caseUAREAD p.2 with
          | none =>
            simp only [DCPU16N.stepLoop, ht2, hr] at hret
            exact StepOutcome.noConfusion hret
          | some r =>
            have hgood : r.1.fire = false ∧ r.1.phase ≠ Phase.OPFETCH := by
              rcases hform with ⟨hk, hfv⟩ | ⟨hop, hg⟩
              · obtain ⟨g1, g2⟩ := caseUAREAD_a_indirect s1 p.2 (s1.opcl >>> 10) hk rfl hfv r hr
                refine ⟨by rw [g1]; exact hf1, ?_⟩
                rcases g2 with e | e <;> rw [e] <;> exact fun e => Phase.noConfusion e
              · obtain ⟨g1, g2⟩ :=
                  caseUAREAD_b_indirect s1 p.2 ((s1.opcl >>> 5) &&& 0x01f) hp1 hop rfl hg r hr
                exact ⟨by rw [g1]; exact hf1, g2⟩
            simp only [DCPU16N.stepLoop, ht2, hr] at hret
            rw [if_pos hgood, e2] at hret
            have hb2 := stepLoop_returned_bounds k2 2 r.1 r.2 x t vc2 (by omega) hret
            omega
      · intro hform
        cases k with
        | zero => exact StepOutcome.noConfusion hret
        | succ k2 =>
          cases hr : s1.caseUAREAD p.2 with
          | none =>
            simp only [DCPU16N.stepLoop, ht2, hr] at hret
            exact StepOutcome.noConfusion hret
          | some r =>
            obtain ⟨g1, g2, g3⟩ := nextword_two_ticks s1 p.2 hp1 hform r hr
            rw [hf1] at g1 g3
            simp only [DCPU16N.stepLoop, ht2, hr] at hret
            rw [if_pos ⟨g1, g2⟩, e2] at hret
            cases k2 with
            | zero => exact StepOutcome.noConfusion hret
            | succ k3 =>
              cases hr2 : r.1.tickOnce r.2 with
              | none =>
                simp only [DCPU16N.stepLoop, Tick_one, hr2] at hret
                exact StepOutcome.noConfusion hret
              | some r2 =>
                obtain ⟨q1, q2⟩ := g3 r2 hr2
                simp only [DCPU16N.stepLoop, Tick_one, hr2] at hret
                rw [if_pos ⟨q1, q2⟩, e3] at hret
                have hb3 := stepLoop_returned_bounds k3 3 r2.1 r2.2 x t vc2 (by omega) hret
                omega
  · intro hop hb ha hdec fuel hfuel
    obtain ⟨k, rfl⟩ : ∃ k, fuel = k + 2 := ⟨fuel - 2, by omega⟩
    rw [show k + 2 = (k + 1) + 1 from rfl, hgo (k + 1)]
    obtain ⟨t, g1, g2, g3⟩ := caseUAREAD_set s1 p.2 hw16 hop hb ha (by rw [hd1]; exact hdec)
    simp only [DCPU16N.stepLoop, ht2, g1]
    rw [if_neg (by rw [g2]; simp), e2]
    rfl

/-- Witness of C22 (as amended): `SET r0, 1` (instruction word `0x8801`) at
the start of the ROM, on the reset CPU. -/
theorem C22_step_at_least_two_ticks_witness :
    ((cpuBoot 0).phase = Phase.OPFETCH ∧ (cpuBoot 0).fire = false ∧
      (fetchWord (vcProg [0x01, 0x88]) ((cpuBoot 0).emuAddr (cpuBoot 0).pc)).map (fun p => p.1) =
        some 0x8801) ∧
    (DCPU16N.Step 1 (cpuBoot 0) (vcProg [0x01, 0x88]) = StepOutcome.running ∧
      (∀ fuel x t vc2, fuel < 2 ^ 32 →
        DCPU16N.Step fuel (cpuBoot 0) (vcProg [0x01, 0x88]) = StepOutcome.returned x t vc2 →
        2 ≤ x ∧
        (((0x8801 &&& 0x001f ≠ 0 ∨ 0x8801 &&& 0x03e0 ≠ 0) ∧
            ((0x08 ≤ 0x8801 >>> 10 ∧ 0x8801 >>> 10 ≤ 0x0F) ∨
              (0x18 ≤ 0x8801 >>> 10 ∧ 0x8801 >>> 10 ≤ 0x1A) ∨
              0x8801 >>> 10 = 0x1E ∨ 0x8801 >>> 10 = 0x1F)) ∨
          (0x8801 &&& 0x001f ≠ 0 ∧
            ((0x08 ≤ (0x8801 >>> 5) &&& 0x01f ∧ (0x8801 >>> 5) &&& 0x01f ≤ 0x1A) ∨
              (0x8801 >>> 5) &&& 0x01f = 0x1E ∨ (0x8801 >>> 5) &&& 0x01f = 0x1F)) → 3 ≤ x) ∧
        (((0x8801 &&& 0x001f ≠ 0 ∨ 0x8801 &&& 0x03e0 ≠ 0) ∧
            (0x8801 >>> 10 = 0x1A ∨ 0x8801 >>> 10 = 0x1E ∨ 0x8801 >>> 10 = 0x1F)) ∨
          (0x8801 &&& 0x001f ≠ 0 ∧
            ((0x10 ≤ (0x8801 >>> 5) &&& 0x01f ∧ (0x8801 >>> 5) &&& 0x01f ≤ 0x17) ∨
              (0x8801 >>> 5) &&& 0x01f = 0x1A ∨ (0x8801 >>> 5) &&& 0x01f = 0x1E ∨
              (0x8801 >>> 5) &&& 0x01f = 0x1F)) → 3 < x)) ∧
      (0x8801 &&& 0x001f = 0x01 → (0x8801 >>> 5) &&& 0x01f < 8 →
        (0x8801 >>> 10 < 8 ∨ 0x20 ≤ 0x8801 >>> 10) →
        (cpuBoot 0).addrdec = false → ∀ fuel, 2 ≤ fuel →
          (DCPU16N.Step fuel (cpuBoot 0) (vcProg [0x01, 0x88])).ticks = some 2)) :=
  ⟨by decide, C22_step_at_least_two_ticks (cpuBoot 0) (vcProg [0x01, 0x88]) 0x8801 (by decide)
    (by decide) (by decide)⟩

/-- C22, the claim at concrete inputs, run from the ROM after reset:
`Step()` on `SET r0, r1` (word `0x0401`) returns 2, not at least 3, and on
`SET r0, [r1]` (word `0x2401`, an indirect `a` operand) it returns 3, not more
than 3. -/
theorem C22_step_returns_two_counterexample :
    (DCPU16N.Step 8 (cpuBoot 0) (vcProg [0x01, 0x04])).ticks = some 2 ∧
    (∀ x, (DCPU16N.Step 8 (cpuBoot 0) (vcProg [0x01, 0x04])).ticks = some x → ¬ 3 ≤ x) ∧
    (DCPU16N.Step 8 (cpuBoot 0) (vcProg [0x01, 0x24])).ticks = some 3 ∧
    (∀ x, (DCPU16N.Step 8 (cpuBoot 0) (vcProg [0x01, 0x24])).ticks = some x → ¬ 3 < x) := by
  have h1 : (DCPU16N.Step 8 (cpuBoot 0) (vcProg [0x01, 0x04])).ticks = some 2 := by decide
  have h2 : (DCPU16N.Step 8 (cpuBoot 0) (vcProg [0x01, 0x24])).ticks = some 3 := by decide
  refine ⟨h1, ?_, h2, ?_⟩
  · intro x hx
    rw [h1] at hx
    simp only [Option.some.injEq] at hx
    omega
  · intro x hx
    rw [h2] at hx
    simp only [Option.some.injEq] at hx
    omega

/-- The bounds are met, run from the ROM after reset: `Step()` on
`SET r0, nextword` (word `0x7C01`, then the word `0x1234`) returns 4 and leaves
`r0 = 0x1234`, and on `SET [r0 + nextword], r1` (word `0x0601`) it returns
4. -/
theorem step_nextword_from_rom :
    (DCPU16N.Step 8 (cpuBoot 0) (vcProg [0x01, 0x7C, 0x34, 0x12])).ticks = some 4 ∧
    ((DCPU16N.Step 8 (cpuBoot 0) (vcProg [0x01, 0x7C, 0x34, 0x12])).state).map
      (fun q => q.1.r 0) = some 0x1234 ∧
    (DCPU16N.Step 8 (cpuBoot 0) (vcProg [0x01, 0x06, 0x00, 0x00])).ticks = some 4 := by
  decide

end timing3

end cpu

end vm

/-! ## TR3200 flag bits -/

namespace vm

namespace cpu

section flags

/-- Reading one bit: `(x & 2^k) >> k` is the bit `k` of `x`. -/
theorem get_bit (x k : Nat) : (x &&& 2 ^ k) >>> k = (x.testBit k).toNat := by
  rw [Nat.and_two_pow, Nat.shiftRight_eq_div_pow, Nat.mul_div_cancel _ (Nat.two_pow_pos k)]

theorem set_on_testBit (x k j : Nat) :
    (x ||| 2 ^ k).testBit j = (x.testBit j || decide (k = j)) := by
  rw [Nat.testBit_or, Nat.testBit_two_pow]

theorem set_off_testBit (x k j : Nat) (hx : x < 2 ^ 32) :
    (x &&& ((2 ^ 32 - 1) ^^^ 2 ^ k)).testBit j = (x.testBit j && !decide (k = j)) := by
  rw [Nat.testBit_and, Nat.testBit_xor, Nat.testBit_two_pow_sub_one, Nat.testBit_two_pow]
  by_cases hj : j < 32
  · by_cases hkj : k = j <;> simp [hj, hkj]
  · have hxj : x.testBit j = false :=
      Nat.testBit_lt_two_pow (lt_of_lt_of_le hx (Nat.pow_le_pow_right (by norm_num) (by omega)))
    simp [hxj]

/-- The properties of a flag kept in the bit `k < 32` of a 32-bit value, for
a reader `fget`, a setter `fon` and a clearer `foff` of the shapes of the
macros. -/
theorem flag_bit_properties (k : Nat) (hk : k < 32) (fget fon foff : Nat → Nat)
    (hget : ∀ x, fget x = (x &&& 2 ^ k) >>> k) (hon : ∀ x, fon x = x ||| 2 ^ k)
    (hoff : ∀ x, foff x = x &&& ((2 ^ 32 - 1) ^^^ 2 ^ k)) (x : Nat) (hx : x < 2 ^ 32) :
    fget x = (x.testBit k).toNat ∧ fget (fon x) = 1 ∧ fget (foff x) = 0 ∧
    (∀ j, j ≠ k → (fon x).testBit j = x.testBit j ∧ (foff x).testBit j = x.testBit j) ∧
    fon x < 2 ^ 32 ∧ foff x < 2 ^ 32 := by
  refine ⟨?_, ?_, ?_, ?_, ?_, ?_⟩
  · rw [hget, get_bit]
  · rw [hget, get_bit, hon, set_on_testBit]
    simp
  · rw [hget, get_bit, hoff, set_off_testBit x k k hx]
    simp
  · intro j hj
    have hkj : ¬ k = j := fun e => hj e.symm
    rw [hon, hoff, set_on_testBit, set_off_testBit x k j hx]
    simp [hkj]
  · rw [hon]
    exact Nat.or_lt_two_pow hx (Nat.pow_lt_pow_right (by norm_num) hk)
  · rw [hoff]
    exact lt_of_le_of_lt Nat.and_le_left hx

/-- Each flag's macros have the shapes `(x & 2^k) >> k`, `x | 2^k` and
`x & ~2^k` (in 32 bits) for the bit `k` that the specification gives. -/
theorem flag_shapes (F : Flag) :
    F.specBit < 32 ∧ (∀ x, F.GET x = (x &&& 2 ^ F.specBit) >>> F.specBit) ∧
    (∀ x, F.SET_ON x = x ||| 2 ^ F.specBit) ∧
    (∀ x, F.SET_OFF x = x &&& ((2 ^ 32 - 1) ^^^ 2 ^ F.specBit)) := by
  cases F
  all_goals
    refine ⟨by decide, fun x => ?_, fun x => ?_, fun x => ?_⟩
    · first
        | (show x &&& 0x1 = (x &&& 2 ^ 0) >>> 0; rw [Nat.shiftRight_zero]; rfl)
        | rfl
    · rfl
    · rfl

theorem specBit_injective (F G : Flag) (h : G ≠ F) : G.specBit ≠ F.specBit := by
  cases F <;> cases G <;> first | exact absurd rfl h | decide

/-- C23. TR3200 flag bits: for every 32-bit value `x` and every flag `F` among
`CF`, `OF`, `DE`, `IF`, `EI`, `ESS`: `GET_F` is 1 after `SET_ON_F` and 0 after
`SET_OFF_F`; `GET_F` gives 0 or 1, namely the bit of `x` at the position the
specification gives (0, 1, 2, 3, 8, 9); `SET_ON_F` and `SET_OFF_F` change no
other bit of `x`, so `GET_G` is unchanged for every other flag `G`; and the
results are 32-bit values again. -/
theorem C23_flag_bits (F : Flag) (x : Nat) (hx : x < 2 ^ 32) :
    F.GET (F.SET_ON x) = 1 ∧ F.GET (F.SET_OFF x) = 0 ∧
    (F.GET x = 0 ∨ F.GET x = 1) ∧ F.GET x = (x.testBit F.specBit).toNat ∧
    (∀ j, j ≠ F.specBit →
      (F.SET_ON x).testBit j = x.testBit j ∧ (F.SET_OFF x).testBit j = x.testBit j) ∧
    (∀ G : Flag, G ≠ F → G.GET (F.SET_ON x) = G.GET x ∧ G.GET (F.SET_OFF x) = G.GET x) ∧
    F.SET_ON x < 2 ^ 32 ∧ F.SET_OFF x < 2 ^ 32 := by
  obtain ⟨hk, hget, hon, hoff⟩ := flag_shapes F
  obtain ⟨p1, p2, p3, p4, p5, p6⟩ :=
    flag_bit_properties F.specBit hk F.GET F.SET_ON F.SET_OFF hget hon hoff x hx
  refine ⟨p2, p3, ?_, p1, p4, ?_, p5, p6⟩
  · rw [p1]
    cases x.testBit F.specBit
    · left; rfl
    · right; rfl
  · intro G hG
    obtain ⟨gk, gget, gon, goff⟩ := flag_shapes G
    have hne := specBit_injective F G hG
    have g0 := (flag_bit_properties G.specBit gk G.GET G.SET_ON G.SET_OFF gget gon goff x hx).1
    have g1 := (flag_bit_properties G.specBit gk G.GET G.SET_ON G.SET_OFF gget gon goff
      (F.SET_ON x) p5).1
    have g2 := (flag_bit_properties G.specBit gk G.GET G.SET_ON G.SET_OFF gget gon goff
      (F.SET_OFF x) p6).1
    obtain ⟨q1, q2⟩ := p4 G.specBit hne
    rw [g0, g1, g2, q1, q2]
    exact ⟨rfl, rfl⟩

/-- Witness of C23: the flag `EI` on the value `0x12345678`. -/
theorem C23_flag_bits_witness :
    0x12345678 < 2 ^ 32 ∧
    (Flag.EI.GET (Flag.EI.SET_ON 0x12345678) = 1 ∧
      Flag.EI.GET (Flag.EI.SET_OFF 0x12345678) = 0 ∧
      (Flag.EI.GET 0x12345678 = 0 ∨ Flag.EI.GET 0x12345678 = 1) ∧
      Flag.EI.GET 0x12345678 = (Nat.testBit 0x12345678 Flag.EI.specBit).toNat ∧
      (∀ j, j ≠ Flag.EI.specBit →
        (Flag.EI.SET_ON 0x12345678).testBit j = Nat.testBit 0x12345678 j ∧
        (Flag.EI.SET_OFF 0x12345678).testBit j = Nat.testBit 0x12345678 j) ∧
      (∀ G : Flag, G ≠ Flag.EI →
        G.GET (Flag.EI.SET_ON 0x12345678) = G.GET 0x12345678 ∧
        G.GET (Flag.EI.SET_OFF 0x12345678) = G.GET 0x12345678) ∧
      Flag.EI.SET_ON 0x12345678 < 2 ^ 32 ∧ Flag.EI.SET_OFF 0x12345678 < 2 ^ 32) :=
  ⟨by decide, C23_flag_bits Flag.EI 0x12345678 (by decide)⟩

/-- The macros on concrete values: on `0x12345678`, whose bit 8 is clear,
`SET_ON_EI` gives `0x12345778` and `GET_EI` then reads 1; on `0xFFFFFFFF`,
`SET_OFF_ESS` gives `0xFFFFFDFF` and `GET_ESS` then reads 0 while `GET_EI`
still reads 1. -/
theorem flag_values_example :
    SET_ON_EI 0x12345678 = 0x12345778 ∧ GET_EI (SET_ON_EI 0x12345678) = 1 ∧
    SET_OFF_ESS 0xFFFFFFFF = 0xFFFFFDFF ∧ GET_ESS (SET_OFF_ESS 0xFFFFFFFF) = 0 ∧
    GET_EI (SET_OFF_ESS 0xFFFFFFFF) = 1 := by
  decide

end flags

end cpu

end vm

/-! ## Disk geometry -/

namespace vm

namespace dev

namespace disk

theorem intMul_small (a b : Nat) (h : a * b < 2 ^ 31) :
    intMul (a : Int) (b : Int) = some ((a * b : Nat) : Int) := by
  have h1 : ((a : Int) * (b : Int)) = ((a * b : Nat) : Int) := by push_cast; rfl
  have h2 : ((a * b : Nat) : Int) < 2 ^ 31 := by exact_mod_cast h
  have h3 : -(2 ^ 31 : Int) ≤ ((a * b : Nat) : Int) := by
    have : (0 : Int) ≤ ((a * b : Nat) : Int) := Int.ofNat_nonneg _
    omega
  unfold intMul
  rw [h1, if_pos ⟨h3, h2⟩]

/-- What the code does on `getTotalSectors()`: for a disk whose descriptor
has `NumSides`, `TracksPerSide` and `SectorsPerTrack` in `0..255` it returns
(the `int` product does not overflow) the product
`NumSides * TracksPerSide * SectorsPerTrack` cut to its low 16 bits by the
return type, which is the product itself only when that is below `65536`. -/
theorem getTotalSectors_code (d : Disk) (i : DiskDescriptor) (hd : d.Info = some i)
    (h1 : i.NumSides < 256) (h2 : i.TracksPerSide < 256) (h3 : i.SectorsPerTrack < 256) :
    d.getTotalSectors = some ((i.NumSides * i.TracksPerSide * i.SectorsPerTrack) % 65536) ∧
    (i.NumSides * i.TracksPerSide * i.SectorsPerTrack < 65536 →
      d.getTotalSectors = some (i.NumSides * i.TracksPerSide * i.SectorsPerTrack)) := by
  have b1 : i.NumSides * i.TracksPerSide ≤ 255 * 255 :=
    Nat.mul_le_mul (by omega) (by omega)
  have b2 : i.NumSides * i.TracksPerSide * i.SectorsPerTrack ≤ 255 * 255 * 255 :=
    Nat.mul_le_mul b1 (by omega)
  have e1 := intMul_small i.NumSides i.TracksPerSide (by norm_num at b1 ⊢; omega)
  have e2 := intMul_small (i.NumSides * i.TracksPerSide) i.SectorsPerTrack
    (by norm_num at b2 ⊢; omega)
  have e3 : d.getTotalSectors =
      some ((i.NumSides * i.TracksPerSide * i.SectorsPerTrack) % 65536) := by
    unfold Disk.getTotalSectors
    rw [hd, Option.some_bind, e1, Option.some_bind, e2, Option.map_some']
    unfold toUint16
    rfl
  refine ⟨e3, fun hlt => ?_⟩
  rw [e3, Nat.mod_eq_of_lt hlt]

/-- C24, the code at the failing input: for 2 sides, 255 tracks per side and
255 sectors per track, all within `0..255`, the disk has `130050` sectors but
`getTotalSectors()` returns `64514 = 130050 - 65536`, the return type being
`uint16_t`; the floppy of 720 sectors is returned exactly. -/
theorem C24_total_sectors_truncated :
    bigInfo.NumSides < 256 ∧ bigInfo.TracksPerSide < 256 ∧ bigInfo.SectorsPerTrack < 256 ∧
    bigInfo.NumSides * bigInfo.TracksPerSide * bigInfo.SectorsPerTrack = 130050 ∧
    diskBig.getTotalSectors = some 64514 ∧
    diskBig.getTotalSectors ≠
      some (bigInfo.NumSides * bigInfo.TracksPerSide * bigInfo.SectorsPerTrack) ∧
    diskFloppy.getTotalSectors = some 720 := by
  decide

end disk

end dev

end vm

/-! ## Right shift with the bits shifted out -/

namespace vm

namespace cpu

section shifts
variable {σ : Type}

/-- The two words of `(x << 16) >> a` for a 16-bit `x` and a count `a < 32`:
the high word is `x / 2^a`; for `a ≤ 16` the low word holds the `a` bits
shifted out of `x`, at its top. -/
theorem shr_words (x a : Nat) (hx : x < 2 ^ 16) (ha : a < 32) :
    ((((x <<< 16) % 2 ^ 32) >>> a) >>> 16) % 65536 = x / 2 ^ a ∧
    (((x <<< 16) % 2 ^ 32) >>> a) % 65536 = ((x <<< 16) >>> a) % 65536 ∧
    (a ≤ 16 → (((x <<< 16) % 2 ^ 32) >>> a) % 65536 = (x % 2 ^ a) * 2 ^ (16 - a)) := by
  have e0 : (x <<< 16) % 2 ^ 32 = x <<< 16 := by
    rw [Nat.shiftLeft_eq]
    norm_num at hx ⊢
    omega
  rw [e0]
  simp only [Nat.shiftLeft_eq, Nat.shiftRight_eq_div_pow]
  norm_num at hx
  interval_cases a <;> norm_num <;> omega

/-- C31. SHR: at the point of `Tick` where the `b` operand is read, a `SHR`
whose `b` field names the general register `i`, holding the 16-bit `x`, with
`a` a shift count from 0 to 31, completes in that tick without any bus access
and leaves `r[i] = x / 2^a` (the logical shift) and `EX` equal to the low word
of `(x << 16) >> a`; for `a ≤ 16` that word holds exactly the `a` bits shifted
out of `x`, as its top bits. -/
theorem C31_shr_logical (s : DCPU16N) (vc : VComputer σ) (i x a : Nat)
    (hop : s.opcl &&& 0x001f = 0x0d) (hb : (s.opcl >>> 5) &&& 0x01f = i) (hi : i < 8)
    (hdec : s.addrdec = false) (hx : s.r i = x) (hy : s.acu = a)
    (hx16 : x < 2 ^ 16) (ha : a ≤ 31) :
    ∃ t, s.caseUBREAD vc = some (t, vc) ∧ t.r i = x / 2 ^ a ∧
      t.ex = ((x <<< 16) >>> a) % 65536 ∧
      (a ≤ 16 → t.ex = (x % 2 ^ a) * 2 ^ (16 - a)) ∧ t.phase = Phase.OPFETCH := by
  obtain ⟨b1, b2, b3, b4, b5, b6, b7, b8⟩ := reg_field_bits i hi
  have ha32 : a < 32 := by omega
  obtain ⟨e1, e2, e3⟩ := shr_words x a hx16 ha32
  simp [DCPU16N.caseUBREAD, DCPU16N.caseBCUFETCH, DCPU16N.caseEXEC, DCPU16N.execBinary,
    DCPU16N.caseUBWRITE, DCPU16N.caseBCUWRITE, hop, hb, hdec, b1, b2, b3, b4, b5, b6, b7, b8,
    setCell, hx, hy, ha32]
  exact ⟨e1, e2, e3⟩

/-- Witness of C31: `r0 = 0x8003; SHR r0, 1` (instruction word `0x880D`):
`r0` becomes `0x4001` and `EX` the bit shifted out, `0x8000`. -/
theorem C31_shr_logical_witness :
    ((cpuAtB 0x880D 1 0x8003).opcl &&& 0x001f = 0x0d ∧
      ((cpuAtB 0x880D 1 0x8003).opcl >>> 5) &&& 0x01f = 0 ∧ 0 < 8 ∧
      (cpuAtB 0x880D 1 0x8003).addrdec = false ∧ (cpuAtB 0x880D 1 0x8003).r 0 = 0x8003 ∧
      (cpuAtB 0x880D 1 0x8003).acu = 1 ∧ 0x8003 < 2 ^ 16 ∧ 1 ≤ 31) ∧
    ∃ t, (cpuAtB 0x880D 1 0x8003).caseUBREAD vcTrace = some (t, vcTrace) ∧
      t.r 0 = 0x8003 / 2 ^ 1 ∧ t.ex = ((0x8003 <<< 16) >>> 1) % 65536 ∧
      (1 ≤ 16 → t.ex = (0x8003 % 2 ^ 1) * 2 ^ (16 - 1)) ∧ t.phase = Phase.OPFETCH :=
  ⟨by decide, C31_shr_logical (cpuAtB 0x880D 1 0x8003) vcTrace 0 0x8003 1 (by decide)
    (by decide) (by decide) (by decide) (by decide) (by decide) (by decide) (by decide)⟩

/-- The instruction run from the ROM: after reset and `r0 = 0x8003`,
`SHR r0, 1` (bytes `0D 88`) leaves `r0 = 0x4001` and `EX = 0x8000`, and
`SHR r0, 30` (bytes `0D FC`) leaves `r0 = 0` and `EX = 2`, the low word of
`0x80030000 >> 30`. -/
theorem shr_from_rom :
    (DCPU16N.Tick 2 (cpuBoot 0x8003) (vcProg [0x0D, 0x88])).map
      (fun p => (p.1.r 0, p.1.ex, p.1.phase)) = some (0x4001, 0x8000, Phase.OPFETCH) ∧
    (DCPU16N.Tick 2 (cpuBoot 0x8003) (vcProg [0x0D, 0xFC])).map
      (fun p => (p.1.r 0, p.1.ex, p.1.phase)) = some (0, 2, Phase.OPFETCH) := by
  decide

end shifts

end cpu

end vm

/-! ## Two-word subtraction and addition -/

namespace vm

namespace cpu

section chain
variable {σ : Type}

/-- What the code does on `SBX` (opcode `0x1b`): at the point of `Tick` where
the `b` operand is read, with `b` the general register `j` holding the 16-bit
`xh`, `a` of 16-bit value `yh` and `EX = e` a 16-bit value, the instruction
completes in that tick and leaves `r[j]` equal to the low word of
`xh - yh + e` computed modulo `2^32`. -/
theorem sbx_code (s : DCPU16N) (vc : VComputer σ) (j xh yh e : Nat)
    (hop : s.opcl &&& 0x001f = 0x1b) (hb : (s.opcl >>> 5) &&& 0x01f = j) (hj : j < 8)
    (hdec : s.addrdec = false) (hx : s.r j = xh) (hy : s.acu = yh) (he : s.ex = e)
    (hy16 : yh < 2 ^ 16) :
    ∃ t, s.caseUBREAD vc = some (t, vc) ∧ t.r j = (xh + 2 ^ 32 - yh + e) % 2 ^ 32 % 65536 ∧
      t.phase = Phase.OPFETCH := by
  obtain ⟨b1, b2, b3, b4, b5, b6, b7, b8⟩ := reg_field_bits j hj
  have e1 : yh % 4294967296 = yh := Nat.mod_eq_of_lt (by norm_num at hy16 ⊢; omega)
  simp [DCPU16N.caseUBREAD, DCPU16N.caseBCUFETCH, DCPU16N.caseEXEC, DCPU16N.execBinary,
    DCPU16N.caseUBWRITE, DCPU16N.caseBCUWRITE, hop, hb, hdec, b1, b2, b3, b4, b5, b6, b7, b8,
    setCell, hx, hy, he, e1]

/-- What the code does on `SUB` (opcode `0x03`), as a fact to chain with
`SBX`: `r[i]` becomes `(xl - yl) mod 2^16` and `EX` is `0xFFFF` when
`int16 xl < int16 yl` and `0` otherwise. -/
theorem sub_code (s : DCPU16N) (vc : VComputer σ) (i xl yl : Nat)
    (hop : s.opcl &&& 0x001f = 0x03) (hb : (s.opcl >>> 5) &&& 0x01f = i) (hi : i < 8)
    (hdec : s.addrdec = false) (hx : s.r i = xl) (hy : s.acu = yl)
    (hxl : xl < 2 ^ 16) (hyl : yl < 2 ^ 16) :
    ∃ t, s.caseUBREAD vc = some (t, vc) ∧ t.r i = (xl + 65536 - yl) % 65536 ∧
      t.ex = (if int16 xl < int16 yl then 0xFFFF else 0) := by
  obtain ⟨b1, b2, b3, b4, b5, b6, b7, b8⟩ := reg_field_bits i hi
  obtain ⟨-, e3⟩ := sub_high_word xl yl
  have e1 := sub_low_word xl yl hxl hyl
  simp [DCPU16N.caseUBREAD, DCPU16N.caseBCUFETCH, DCPU16N.caseEXEC, DCPU16N.execBinary,
    DCPU16N.caseUBWRITE, DCPU16N.caseBCUWRITE, hop, hb, hdec, b1, b2, b3, b4, b5, b6, b7, b8,
    setCell, hx, hy]
  exact ⟨e1, e3⟩

/-- The arithmetic of the chain: with the borrow taken from the signed order
of the low words, the two result words are `(X - Y) mod 2^32` exactly when
the top bits of the low words are equal. -/
theorem sub_sbx_words (xl yl xh yh : Nat) (hxl : xl < 65536) (hyl : yl < 65536)
    (hxh : xh < 65536) (hyh : yh < 65536) :
    ((xh + 4294967296 - yh + (if int16 xl < int16 yl then 65535 else 0)) % 4294967296 % 65536 *
        65536 + (xl + 65536 - yl) % 65536 =
      (xh * 65536 + xl + 4294967296 - (yh * 65536 + yl)) % 4294967296 ↔
      (xl < 32768 ↔ yl < 32768)) := by
  unfold int16
  have m1 : xl % 65536 = xl := Nat.mod_eq_of_lt hxl
  have m2 : yl % 65536 = yl := Nat.mod_eq_of_lt hyl
  rw [m1, m2]
  split_ifs <;> omega

/-- What the code does on `SUB` followed by `SBX`, for the 32-bit values
`X = xh * 2^16 + xl` and `Y = yh * 2^16 + yl`: `SUB` on the low words leaves
`lo = (xl - yl) mod 2^16` and `EX = 0xFFFF` when `int16 xl < int16 yl`, else
`0`; `SBX` on the high words with that `EX` leaves `swh`; and the pair
`(swh, lo)` is `(X - Y) mod 2^32` exactly when the top bits of `xl` and `yl`
are equal, that is when the signed order of the low words, which the code
uses, is their unsigned order, which the borrow needs. -/
theorem sub_sbx_chain_code (s u : DCPU16N) (vc : VComputer σ) (i j xl yl xh yh : Nat)
    (hop : s.opcl &&& 0x001f = 0x03) (hb : (s.opcl >>> 5) &&& 0x01f = i) (hi : i < 8)
    (hdec : s.addrdec = false) (hx : s.r i = xl) (hy : s.acu = yl)
    (hxl : xl < 2 ^ 16) (hyl : yl < 2 ^ 16)
    (hop2 : u.opcl &&& 0x001f = 0x1b) (hb2 : (u.opcl >>> 5) &&& 0x01f = j) (hj : j < 8)
    (hdec2 : u.addrdec = false) (hx2 : u.r j = xh) (hy2 : u.acu = yh)
    (hxh : xh < 2 ^ 16) (hyh : yh < 2 ^ 16) :
    ∃ t, s.caseUBREAD vc = some (t, vc) ∧ t.r i = (xl + 65536 - yl) % 65536 ∧
      t.ex = (if int16 xl < int16 yl then 0xFFFF else 0) ∧
      (u.ex = t.ex →
        ∃ v, u.caseUBREAD vc = some (v, vc) ∧
          (v.r j * 65536 + t.r i = (xh * 65536 + xl + 2 ^ 32 - (yh * 65536 + yl)) % 2 ^ 32 ↔
            (xl < 0x8000 ↔ yl < 0x8000))) := by
  obtain ⟨t, ht, hlo, hex⟩ := sub_code s vc i xl yl hop hb hi hdec hx hy hxl hyl
  refine ⟨t, ht, hlo, hex, ?_⟩
  intro hue
  obtain ⟨v, hv, hvr, -⟩ := sbx_code u vc j xh yh t.ex hop2 hb2 hj hdec2 hx2 hy2 hue hyh
  refine ⟨v, hv, ?_⟩
  rw [hvr, hlo, hex]
  norm_num at hxl hyl hxh hyh
  exact sub_sbx_words xl yl xh yh hxl hyl hxh hyh

/-- C34, the code at the failing input, run from the ROM after reset with
`r0 = 0x8000` and `r1 = 0`: `X = 0x00008000` is held in `(r1, r0)` and
`Y = 0x00000001` is subtracted by `SUB r0, 1; SBX r1, 0` (words `0x8803`,
`0x843B`).  `X - Y = 0x00007FFF`, but after the four ticks `r0 = 0x7FFF` and
`r1 = 0xFFFF`: `SUB` has left `EX = 0xFFFF` because `int16 0x8000 < 1`,
although the low words need no borrow, and `SBX` has taken it off the high
word. -/
theorem C34_sub_sbx_wrong_borrow :
    (DCPU16N.Tick 2 (cpuBoot 0x8000) (vcProg [0x03, 0x88, 0x3B, 0x84])).map
      (fun p => (p.1.r 1, p.1.r 0, p.1.ex)) = some (0, 0x7FFF, 0xFFFF) ∧
    (DCPU16N.Tick 4 (cpuBoot 0x8000) (vcProg [0x03, 0x88, 0x3B, 0x84])).map
      (fun p => (p.1.r 1, p.1.r 0, p.1.phase)) = some (0xFFFF, 0x7FFF, Phase.OPFETCH) ∧
    (0x00008000 + 2 ^ 32 - 0x00000001) % 2 ^ 32 = 0x0000 * 65536 + 0x7FFF ∧
    ¬ ((DCPU16N.Tick 4 (cpuBoot 0x8000) (vcProg [0x03, 0x88, 0x3B, 0x84])).map
      (fun p => p.1.r 1 * 65536 + p.1.r 0) = some ((0x00008000 + 2 ^ 32 - 0x00000001) % 2 ^ 32)) := by
  decide!

/-- The sibling chain for addition works, run from the ROM after reset with
`r0 = 0xFFFF` and `r1 = 0`: `ADD r0, 1; ADX r1, 0` (words `0x8802`, `0x843A`)
leaves `(r1, r0) = (1, 0)`, which is `0x0000FFFF + 1`; `ADD` takes its carry
from the unsigned sum. -/
theorem add_adx_from_rom :
    (DCPU16N.Tick 4 (cpuBoot 0xFFFF) (vcProg [0x02, 0x88, 0x3A, 0x84])).map
      (fun p => (p.1.r 1, p.1.r 0, p.1.phase)) = some (1, 0, Phase.OPFETCH) := by
  decide!

end chain

end cpu

end vm

/-! ## Reads at the edges of the buffers -/

namespace vm

section bus3
variable {σ : Type}

/-- A two-byte read that starts at the last byte of the RAM loads `ram[ram_size]`,
outside the buffer, whatever the size of the RAM (up to 1 MiB). -/
theorem ReadW_last_ram_byte (vc : VComputer σ) (h0 : 0 < vc.ram_size)
    (hhi : vc.ram_size ≤ MAX_RAM_SIZE) :
    vc.ReadW (vc.ram_size - 1) = none ∧ vc.ReadDW (vc.ram_size - 1) = none := by
  unfold MAX_RAM_SIZE at hhi
  have hlt : vc.ram_size - 1 < 2 ^ 20 := by norm_num; omega
  have hm : (vc.ram_size - 1) &&& 0x00FFFFFF = vc.ram_size - 1 :=
    and_FFFFFF_of_lt _ (by norm_num at hlt ⊢; omega)
  have hz : (vc.ram_size - 1) &&& 0xF00000 = 0 := and_F00000_of_lt _ hlt
  have h1 : vc.ram_size - 1 < vc.ram_size := by omega
  have h2 : ¬ vc.ram_size - 1 + 1 < vc.ram_size := by omega
  constructor
  · simp [VComputer.ReadW, hm, hz, VComputer.ramLoad, VComputer.ramAt, h1, h2]
  · simp [VComputer.ReadDW, hm, hz, VComputer.ramLoad, VComputer.ramAt, h1, h2]

/-- A byte read in the ROM window at the offset `rom_size` loads
`rom[rom_size]`, outside the buffer: the window spans 64 KiB, twice the
largest ROM. -/
theorem ReadB_past_rom (vc : VComputer σ) (hhi : vc.rom_size ≤ MAX_ROM_SIZE) :
    vc.ReadB (0x100000 + vc.rom_size) = none := by
  unfold MAX_ROM_SIZE at hhi
  have hlt : 0x100000 + vc.rom_size < 2 ^ 24 := by norm_num; omega
  have hm : (0x100000 + vc.rom_size) &&& 0x00FFFFFF = 0x100000 + vc.rom_size :=
    and_FFFFFF_of_lt _ hlt
  have c1 : (0x100000 + vc.rom_size) &&& 0xF00000 ≠ 0 := by
    rw [and_F00000]; norm_num at hlt ⊢; omega
  have c2 : (0x100000 + vc.rom_size) &&& 0xFF0000 = 0x100000 := by
    rw [and_FF0000]; norm_num at hlt ⊢; omega
  have c3 : (0x100000 + vc.rom_size) &&& 0x00FFFF = vc.rom_size := by
    rw [and_FFFF]; omega
  simp [VComputer.ReadB, hm, c1, c2, c3, VComputer.romAt]

/-- C35, the code at failing inputs.  On the computer with the largest sizes
(1 MiB of RAM, 32 KiB of ROM): `ReadW` and `ReadDW` at the last byte of the
RAM (`0xFFFFF`) load `ram[0x100000]`; `ReadB` at `0x108000`, in the ROM
window, loads `rom[0x8000]`, and `ReadW` at the last byte of the ROM
(`0x107FFF`) and `ReadDW` at `0x107FFD` load it too; all these are outside
the buffers.  On the computer with the default 128 KiB of RAM, `ReadB` at
`0x20000` and `ReadW` at the last byte `0x1FFFF` load `ram[0x20000]`. -/
theorem C35_reads_leave_the_buffers :
    vcFull.ram_size ≤ MAX_RAM_SIZE ∧ vcFull.rom_size ≤ MAX_ROM_SIZE ∧
    vcFull.ReadW (vcFull.ram_size - 1) = none ∧ vcFull.ReadDW (vcFull.ram_size - 1) = none ∧
    vcFull.ReadB (0x100000 + vcFull.rom_size) = none ∧
    vcFull.ReadW (0x100000 + vcFull.rom_size - 1) = none ∧
    vcFull.ReadDW (0x100000 + vcFull.rom_size - 3) = none ∧
    (vcFull.ReadB (0x100000 + vcFull.rom_size - 1)).map Prod.fst = some 0 ∧
    vcDefault.ReadB vcDefault.ram_size = none ∧
    vcDefault.ReadW (vcDefault.ram_size - 1) = none :=
  ⟨by decide, by decide, rfl, rfl, rfl, rfl, rfl, by decide, rfl, rfl⟩

end bus3

end vm

/-! ## The clock divider -/

namespace vm

section orchestrator2
variable {ω : Type}

/-- With a CPU installed and `n > 0`, `VComputer::Tick` divides by zero when
`Clock()` returns `0` (in `BaseClock / Clock()`) or a value above `BaseClock`
(the quotient `BaseClock / Clock()` is then `0`, the divisor of `n`); it is
defined for every other clock rate. -/
theorem Tick_defined_iff (m : TickMembers ω) (c : ICPU ω) (n msg0 : Nat) (w : ω)
    (hc : m.cpu = some c) (hn : 0 < n) :
    (VComputer.Tick m n msg0 w).isSome = true ↔ (0 < c.Clock w ∧ c.Clock w ≤ BaseClock) := by
  have h1 : n ≠ 0 := by omega
  constructor
  · intro h
    by_contra hcon
    have hbad : c.Clock w = 0 ∨ BaseClock / c.Clock w = 0 := by
      by_cases hz : c.Clock w = 0
      · exact Or.inl hz
      · right
        have : BaseClock < c.Clock w := by omega
        exact Nat.div_eq_of_lt this
    have hnone : VComputer.Tick m n msg0 w = none := by
      unfold VComputer.Tick
      rw [if_neg h1, hc]
      dsimp only
      rcases hbad with hz | hz
      · rw [if_pos hz]
      · by_cases hz0 : c.Clock w = 0
        · rw [if_pos hz0]
        · rw [if_neg hz0, if_pos hz]
    rw [hnone] at h
    exact Bool.noConfusion h
  · rintro ⟨h0, hB⟩
    rw [Tick_defined m c n msg0 w hc hn h0 hB]
    rfl

/-- C33, the code at the failing inputs: on the demonstration machine with a
CPU whose `Clock()` returns `0`, `Tick(10)` divides `BaseClock` by zero; with
a CPU of 2 MHz, above `BaseClock`, the quotient `BaseClock / Clock()` is `0`
and `Tick(10)` divides `n` by zero; with `Clock()` equal to `BaseClock` the
call is defined and gives the CPU all 10 ticks. -/
theorem C33_clock_divider_divides_by_zero :
    VComputer.Tick (demoMachineAt 0) 10 0 demoIdle = none ∧
    BaseClock / 2000000 = 0 ∧
    VComputer.Tick (demoMachineAt 2000000) 10 0 demoIdle = none ∧
    (VComputer.Tick (demoMachineAt 1000000) 10 0 demoIdle).map
      (fun st => cpuTickCalls st.calls) = some [TickCall.cpuTick 10] := by
  decide

end orchestrator2

end vm

/-! ## Ticks delivered by one call -/

namespace vm

section orchestrator3
variable {ω : Type}

theorem cpuTicksOf_append (l l2 : List TickCall) :
    cpuTicksOf (l ++ l2) = cpuTicksOf l + cpuTicksOf l2 := by
  simp [cpuTicksOf]

theorem pitTicksOf_append (l l2 : List TickCall) :
    pitTicksOf (l ++ l2) = pitTicksOf l + pitTicksOf l2 := by
  simp [pitTicksOf]

theorem devTicksOf_append (i : Nat) (l l2 : List TickCall) :
    devTicksOf i (l ++ l2) = devTicksOf i l + devTicksOf i l2 := by
  simp [devTicksOf]

/-- The ticks delivered by the part of `VComputer::Tick` before the loop:
`cpu_ticks` to the CPU, `dev_ticks` to the timer, none to a slot. -/
theorem tickHead_ticks (c : ICPU ω) (pit : Timer ω) (q dt msg0 : Nat) (w : ω) :
    cpuTicksOf (VComputer.tickHead c pit q dt msg0 w).calls = q ∧
    pitTicksOf (VComputer.tickHead c pit q dt msg0 w).calls = dt ∧
    ∀ i, devTicksOf i (VComputer.tickHead c pit q dt msg0 w).calls = 0 := by
  rcases tickHead_calls_cases c pit q dt msg0 w with ⟨y, e, _⟩ | ⟨y, a, e, _⟩
  · rw [e]
    simp [cpuTicksOf, pitTicksOf, devTicksOf]
  · rw [e]
    cases a <;> simp [cpuTicksOf, pitTicksOf, devTicksOf]

/-- The ticks delivered by the loop body for the slot `k`: none to the CPU or
the timer, `dev_ticks` to the slot `k` when it holds a sync device. -/
theorem tickSlot_ticks (c : ICPU ω) (devices : Nat → Option (IDevice ω)) (dt : Nat)
    (st : TickState ω) (k : Nat) :
    cpuTicksOf (VComputer.tickSlot c devices dt st k).calls = cpuTicksOf st.calls ∧
    pitTicksOf (VComputer.tickSlot c devices dt st k).calls = pitTicksOf st.calls ∧
    ∀ i, devTicksOf i (VComputer.tickSlot c devices dt st k).calls =
      devTicksOf i st.calls + (if i = k ∧ syncSlot devices k = true then dt else 0) := by
  rcases tickSlot_calls_cases c devices dt st k with ⟨hd, he⟩ | ⟨d, hd, pre, hpre, hc⟩
  · rw [he]
    refine ⟨rfl, rfl, fun i => ?_⟩
    simp [syncSlot, hd]
  · have key : ∃ post : List TickCall,
        (VComputer.tickSlot c devices dt st k).calls = st.calls ++ pre ++ post ∧
        cpuTicksOf post = 0 ∧ pitTicksOf post = 0 ∧ ∀ i, devTicksOf i post = 0 := by
      rcases hc with ⟨_, e, _⟩ | ⟨_, y, e, _⟩ | ⟨_, y, a, e, _⟩
      · exact ⟨[], by simpa using e, rfl, rfl, fun _ => rfl⟩
      · exact ⟨_, e, rfl, rfl, fun _ => rfl⟩
      · refine ⟨[TickCall.devDoesInterrupt k true y, TickCall.cpuSendInterrupt y a] ++
            (if a then [TickCall.devIACK k] else []), by rw [e]; simp only [List.append_assoc],
          ?_, ?_, ?_⟩
        · cases a <;> rfl
        · cases a <;> rfl
        · intro i; cases a <;> rfl
    obtain ⟨post, e, p1, p2, p3⟩ := key
    rw [e]
    simp only [cpuTicksOf_append, pitTicksOf_append, devTicksOf_append, p1, p2, p3]
    rcases hpre with ⟨hs, rfl⟩ | ⟨hs, rfl⟩
    · refine ⟨by simp [cpuTicksOf], by simp [pitTicksOf], fun i => ?_⟩
      by_cases hik : i = k
      · simp [devTicksOf, syncSlot, hd, hs, hik]
      · have hki : ¬ k = i := fun e => hik e.symm
        simp [devTicksOf, hik, hki]
    · refine ⟨by simp [cpuTicksOf], by simp [pitTicksOf], fun i => ?_⟩
      simp [devTicksOf, syncSlot, hd, hs]

/-- The ticks delivered once the slots below `k` have been served. -/
theorem fold_ticks (c : ICPU ω) (devices : Nat → Option (IDevice ω)) (dt : Nat)
    (st : TickState ω) (k : Nat) :
    cpuTicksOf ((List.range k).foldl (VComputer.tickSlot c devices dt) st).calls =
      cpuTicksOf st.calls ∧
    pitTicksOf ((List.range k).foldl (VComputer.tickSlot c devices dt) st).calls =
      pitTicksOf st.calls ∧
    ∀ i, devTicksOf i ((List.range k).foldl (VComputer.tickSlot c devices dt) st).calls =
      devTicksOf i st.calls + (if i < k ∧ syncSlot devices i = true then dt else 0) := by
  induction k with
  | zero => simp
  | succ k ih =>
    rw [List.range_succ, List.foldl_append]
    obtain ⟨a1, a2, a3⟩ := ih
    obtain ⟨b1, b2, b3⟩ := tickSlot_ticks c devices dt
      ((List.range k).foldl (VComputer.tickSlot c devices dt) st) k
    simp only [List.foldl_cons, List.foldl_nil]
    refine ⟨by rw [b1, a1], by rw [b2, a2], fun i => ?_⟩
    rw [b3 i, a3 i]
    by_cases hs : syncSlot devices i = true
    · by_cases h1 : i < k
      · have h2 : ¬ i = k := by omega
        have h3 : i < k + 1 := by omega
        simp [hs, h1, h2, h3]
      · by_cases h2 : i = k
        · subst h2
          simp [hs]
        · have h3 : ¬ i < k + 1 := by omega
          simp [h1, h2, h3]
    · have h4 : ¬ (i = k ∧ syncSlot devices k = true) := by
        rintro ⟨rfl, h⟩
        exact hs h
      simp [hs, h4]

/-- The ticks delivered by one defined `VComputer::Tick(n)`: `n / (BaseClock /
Clock())` to the CPU, `n / 10` to the timer and to each slot below 32 that
holds a sync device, none to another slot. -/
theorem Tick_ticks (m : TickMembers ω) (c : ICPU ω) (n msg0 : Nat) (w : ω)
    (hc : m.cpu = some c) (hn : 0 < n) (h0 : 0 < c.Clock w) (hB : c.Clock w ≤ BaseClock) :
    ∃ st, VComputer.Tick m n msg0 w = some st ∧
      cpuTicksOf st.calls = n / (BaseClock / c.Clock w) ∧ pitTicksOf st.calls = n / 10 ∧
      ∀ i, devTicksOf i st.calls =
        (if i < MAX_N_DEVICES ∧ syncSlot m.devices i = true then n / 10 else 0) := by
  refine ⟨_, Tick_defined m c n msg0 w hc hn h0 hB, ?_⟩
  obtain ⟨a1, a2, a3⟩ := fold_ticks c m.devices (n / 10)
    (VComputer.tickHead c m.pit (n / (BaseClock / c.Clock w)) (n / 10) msg0 w) MAX_N_DEVICES
  obtain ⟨b1, b2, b3⟩ := tickHead_ticks c m.pit (n / (BaseClock / c.Clock w)) (n / 10) msg0 w
  refine ⟨by rw [a1, b1], by rw [a2, b2], fun i => ?_⟩
  rw [a3 i, b3 i, Nat.zero_add]

end orchestrator3

end vm

/-! ## Ticks delivered by successive calls -/

namespace vm

section orchestrator4
variable {ω : Type}

/-- Truncating division is only sub-additive: the quotients of `a` and `b`
add up to the quotient of `a + b` or to one less, and to the quotient itself
when the divisor divides one of the two. -/
theorem div_add_bounds (a b d : Nat) (hd : 0 < d) :
    a / d + b / d ≤ (a + b) / d ∧ (a + b) / d ≤ a / d + b / d + 1 ∧
    (d ∣ a ∨ d ∣ b → a / d + b / d = (a + b) / d) := by
  have h := Nat.add_div (a := a) (b := b) hd
  refine ⟨?_, ?_, ?_⟩
  · rw [h]; omega
  · rw [h]; split_ifs <;> omega
  · intro hdiv
    have ha : a % d < d := Nat.mod_lt _ hd
    have hb : b % d < d := Nat.mod_lt _ hd
    have hz : a % d = 0 ∨ b % d = 0 := by
      rcases hdiv with h1 | h1
      · exact Or.inl (Nat.mod_eq_zero_of_dvd h1)
      · exact Or.inr (Nat.mod_eq_zero_of_dvd h1)
    have hif : ¬ d ≤ a % d + b % d := by
      rcases hz with h1 | h1 <;> rw [h1] <;> omega
    rw [h, if_neg hif]
    omega

/-- C32 (as amended). For `m, n > 0` with `m + n < 2^32`, so that the
`unsigned` argument of the single call is `m + n` itself, and an installed CPU
whose `Clock()` always returns `Cc` with `0 < Cc ≤ BaseClock`, the calls
`Tick(m)`, then `Tick(n)`, and the single call `Tick(m + n)` all return; the
CPU ticks of the
two calls together are at most those of the single call and at least one
less, and they are equal when the divider `BaseClock / Cc` divides `m` or
`n`; the same holds, with the divider 10, for the device ticks of the timer
and of every slot. -/
theorem C32_ticks_subadditive (mem : TickMembers ω) (c : ICPU ω) (Cc m n msg0 msg1 : Nat)
    (w : ω) (hc : mem.cpu = some c) (hclk : ∀ v, c.Clock v = Cc) (h0 : 0 < Cc)
    (hB : Cc ≤ BaseClock) (hm : 0 < m) (hn : 0 < n) (hmn : m + n < 2 ^ 32) :
    ∃ st1 st2 st, VComputer.Tick mem m msg0 w = some st1 ∧
      VComputer.Tick mem n msg1 st1.world = some st2 ∧
      VComputer.Tick mem ((m + n) % 2 ^ 32) msg0 w = some st ∧
      (cpuTicksOf st1.calls + cpuTicksOf st2.calls ≤ cpuTicksOf st.calls ∧
        cpuTicksOf st.calls ≤ cpuTicksOf st1.calls + cpuTicksOf st2.calls + 1 ∧
        ((BaseClock / Cc) ∣ m ∨ (BaseClock / Cc) ∣ n →
          cpuTicksOf st1.calls + cpuTicksOf st2.calls = cpuTicksOf st.calls)) ∧
      (pitTicksOf st1.calls + pitTicksOf st2.calls ≤ pitTicksOf st.calls ∧
        pitTicksOf st.calls ≤ pitTicksOf st1.calls + pitTicksOf st2.calls + 1 ∧
        (10 ∣ m ∨ 10 ∣ n → pitTicksOf st1.calls + pitTicksOf st2.calls = pitTicksOf st.calls)) ∧
      ∀ i, devTicksOf i st1.calls + devTicksOf i st2.calls ≤ devTicksOf i st.calls ∧
        devTicksOf i st.calls ≤ devTicksOf i st1.calls + devTicksOf i st2.calls + 1 ∧
        (10 ∣ m ∨ 10 ∣ n →
          devTicksOf i st1.calls + devTicksOf i st2.calls = devTicksOf i st.calls) := by
  have hd : 0 < BaseClock / Cc := Nat.div_pos hB h0
  rw [Nat.mod_eq_of_lt hmn]
  obtain ⟨st1, e1, c1, p1, d1⟩ :=
    Tick_ticks mem c m msg0 w hc hm (by rw [hclk]; exact h0) (by rw [hclk]; exact hB)
  obtain ⟨st2, e2, c2, p2, d2⟩ :=
    Tick_ticks mem c n msg1 st1.world hc hn (by rw [hclk]; exact h0) (by rw [hclk]; exact hB)
  obtain ⟨st, e3, c3, p3, d3⟩ :=
    Tick_ticks mem c (m + n) msg0 w hc (by omega) (by rw [hclk]; exact h0)
      (by rw [hclk]; exact hB)
  rw [hclk] at c1 c2 c3
  refine ⟨st1, st2, st, e1, e2, e3, ?_, ?_, ?_⟩
  · rw [c1, c2, c3]
    exact div_add_bounds m n (BaseClock / Cc) hd
  · rw [p1, p2, p3]
    exact div_add_bounds m n 10 (by norm_num)
  · intro i
    rw [d1 i, d2 i, d3 i]
    by_cases hs : i < MAX_N_DEVICES ∧ syncSlot mem.devices i = true
    · simp only [if_pos hs]
      exact div_add_bounds m n 10 (by norm_num)
    · simp [if_neg hs]

/-- Witness of C32 (as amended): the demonstration machine (CPU clock
100 kHz, divider 10), `Tick(15)` then `Tick(25)` against `Tick(40)`. -/
theorem C32_ticks_subadditive_witness :
    (demoMachine.cpu = some demoCpu ∧ (∀ v, demoCpu.Clock v = 100000) ∧ 0 < 100000 ∧
      100000 ≤ BaseClock ∧ 0 < 15 ∧ 0 < 25 ∧ 15 + 25 < 2 ^ 32) ∧
    ∃ st1 st2 st, VComputer.Tick demoMachine 15 0 demoIdle = some st1 ∧
      VComputer.Tick demoMachine 25 0 st1.world = some st2 ∧
      VComputer.Tick demoMachine ((15 + 25) % 2 ^ 32) 0 demoIdle = some st ∧
      (cpuTicksOf st1.calls + cpuTicksOf st2.calls ≤ cpuTicksOf st.calls ∧
        cpuTicksOf st.calls ≤ cpuTicksOf st1.calls + cpuTicksOf st2.calls + 1 ∧
        ((BaseClock / 100000) ∣ 15 ∨ (BaseClock / 100000) ∣ 25 →
          cpuTicksOf st1.calls + cpuTicksOf st2.calls = cpuTicksOf st.calls)) ∧
      (pitTicksOf st1.calls + pitTicksOf st2.calls ≤ pitTicksOf st.calls ∧
        pitTicksOf st.calls ≤ pitTicksOf st1.calls + pitTicksOf st2.calls + 1 ∧
        (10 ∣ 15 ∨ 10 ∣ 25 →
          pitTicksOf st1.calls + pitTicksOf st2.calls = pitTicksOf st.calls)) ∧
      ∀ i, devTicksOf i st1.calls + devTicksOf i st2.calls ≤ devTicksOf i st.calls ∧
        devTicksOf i st.calls ≤ devTicksOf i st1.calls + devTicksOf i st2.calls + 1 ∧
        (10 ∣ 15 ∨ 10 ∣ 25 →
          devTicksOf i st1.calls + devTicksOf i st2.calls = devTicksOf i st.calls) :=
  ⟨⟨rfl, fun _ => rfl, by decide, by decide, by decide, by decide, by decide⟩,
    C32_ticks_subadditive demoMachine demoCpu 100000 15 25 0 0 demoIdle rfl (fun _ => rfl)
      (by decide) (by decide) (by decide) (by decide) (by decide)⟩

/-- C32, the claim at concrete inputs, on the demonstration machine (CPU clock
100 kHz, a sync device in slot 1): two calls `Tick(5)` deliver no tick at all
to the CPU, the timer and the slot 1, and neither do ten calls `Tick(1)`,
where the single call `Tick(10)` delivers one tick to each; `Tick(15)` then
`Tick(25)` deliver 3 where `Tick(40)` delivers 4. -/
theorem C32_ticks_lost_counterexample :
    (VComputer.TickEach demoMachine [5, 5] demoIdle).map
      (fun r => (cpuTicksOf r.1, pitTicksOf r.1, devTicksOf 1 r.1)) = some (0, 0, 0) ∧
    (VComputer.TickEach demoMachine [1, 1, 1, 1, 1, 1, 1, 1, 1, 1] demoIdle).map
      (fun r => (cpuTicksOf r.1, pitTicksOf r.1, devTicksOf 1 r.1)) = some (0, 0, 0) ∧
    (VComputer.TickEach demoMachine [10] demoIdle).map
      (fun r => (cpuTicksOf r.1, pitTicksOf r.1, devTicksOf 1 r.1)) = some (1, 1, 1) ∧
    (VComputer.TickEach demoMachine [15, 25] demoIdle).map
      (fun r => (cpuTicksOf r.1, pitTicksOf r.1, devTicksOf 1 r.1)) = some (3, 3, 3) ∧
    (VComputer.TickEach demoMachine [40] demoIdle).map
      (fun r => (cpuTicksOf r.1, pitTicksOf r.1, devTicksOf 1 r.1)) = some (4, 4, 4) := by
  decide

/-- The argument of `Tick` is an `unsigned`: for `m = 2^32 - 1` and `n = 11`
the single call `Tick(m + n)` is `Tick(10)` and delivers one CPU tick on the
demonstration machine, where `Tick(m)` then `Tick(n)` deliver 429496730. -/
theorem tick_argument_wraps :
    (4294967295 + 11) % 2 ^ 32 = 10 ∧
    (VComputer.TickEach demoMachine [4294967295, 11] demoIdle).map
      (fun r => cpuTicksOf r.1) = some 429496730 ∧
    (VComputer.TickEach demoMachine [(4294967295 + 11) % 2 ^ 32] demoIdle).map
      (fun r => cpuTicksOf r.1) = some 1 := by
  decide

end orchestrator4

end vm
